import Mathlib

/-! # Task registry and topology-change orchestration of `ctl/manager.go`

A shallow embedding of the `CtlMgr` control-plane adapter: the revision
allocator, the task registry, the wait channel, the topology-change
operations and the progress aggregation, followed by theorems about them.

Conventions of the embedding.

* `uint64` values are natural numbers; every `uint64` addition and
  subtraction of the source is reduced modulo `2 ^ 64` explicitly.
* A Go byte slice (`service_api.Revision`) is a list of byte values.
* A Go `map` is an association list; ranging over the map is ranging over
  the list.
* The mutex `mu` is a flag; `Lock` sets it and `Unlock` clears it.
* Calls that leave the registry (the engine's `ChangeTopology` and
  `StopChangeTopology`, `close` and `make` of the wait channel) and every value
  returned by `allocRevNumLOCKED` are appended to the field `trace`, which no
  operation reads.
* `float64` progress values are rational numbers and the one division of
  the source is exact.
-/

namespace Ctl

/-! ## Data model -/

deriving instance DecidableEq for Except

/-- A `service_api.Revision`: the bytes of a Go `[]byte`. -/
abbrev Revision := List Nat

/-- Modelled from the spec: the error values of `service_api` and of the `ctl`
package that the manager returns, the two error kinds of `strconv.ParseUint`,
and `EngineErr` for an error value produced by the rebalance engine. -/
inductive Error where
  | ErrNotFound
  | ErrConflict
  | ErrNotSupported
  | ErrCanceled
  | ErrSyntax
  | ErrRange
  | EngineErr (msg : String)
  deriving DecidableEq, Repr

/-- Modelled from the spec: `service_api.TaskType`, "type (Prepared | Rebalance
| other)". -/
inductive TaskType where
  | TaskTypeRebalance
  | TaskTypePrepared
  | TaskTypeOther
  deriving DecidableEq, Repr

/-- Modelled from the spec: `service_api.TaskStatus`, "status (Running |
Failed | Done | ...)". -/
inductive TaskStatus where
  | TaskStatusRunning
  | TaskStatusFailed
  | TaskStatusDone
  deriving DecidableEq, Repr

/-- Modelled from the spec: `service_api.TopologyChangeType`; the source
distinguishes rebalance, failover and everything else. -/
inductive TopologyChangeType where
  | TopologyChangeTypeRebalance
  | TopologyChangeTypeFailover
  | TopologyChangeTypeOther
  deriving DecidableEq, Repr

/-- Modelled from the spec: `service_api.NodeInfo`, of which the manager reads
`NodeId`. -/
structure NodeInfo where
  NodeId : String
  deriving DecidableEq, Repr

/-- Modelled from the spec: an element of `TopologyChange.KeepNodes`. -/
structure KeepNode where
  NodeInfo : NodeInfo
  deriving DecidableEq, Repr

/-- Modelled from the spec: `service_api.TopologyChange`, the fields the
manager reads (`Type_` is the Go field `Type`). -/
structure TopologyChange where
  Id : String
  CurrentTopologyRev : Revision
  Type_ : TopologyChangeType
  KeepNodes : List KeepNode
  deriving DecidableEq, Repr

/-- Modelled from the spec: `service_api.Task`.  `DetailedProgress` is `none`
for a nil map; `Extra` is the association list of the Go map; `Type_` is the
Go field `Type`. -/
structure Task where
  Rev : Revision
  Id : String
  Type_ : TaskType
  Status : TaskStatus
  IsCancelable : Bool
  Progress : ℚ
  DetailedProgress : Option (List (String × ℚ))
  Description : String
  ErrorMessage : String
  Extra : List (String × TopologyChange)
  deriving DecidableEq

/-- Modelled from the spec: `service_api.TaskList`.  `Tasks` is a Go slice:
`none` is the nil slice, `some l` a slice that is not nil. -/
structure TaskList where
  Rev : Revision
  Tasks : Option (List Task)
  deriving DecidableEq

/-- The `taskHandle` of the source.  `stop` is the closure
`func() { m.ctl.StopChangeTopology(ctlTopology.Rev) }`, the only one the source
builds, represented by the revision it captured; `none` is a nil `stop`. -/
structure taskHandle where
  startTime : Nat
  task : Task
  stop : Option Revision
  deriving DecidableEq

/-- The `tasks` struct of the source. -/
structure tasks where
  revNum : Nat
  taskHandles : List taskHandle
  deriving DecidableEq

/-- The request handed to the engine, `CtlChangeTopology`. -/
structure CtlChangeTopology where
  Rev : Revision
  Mode : String
  MemberNodeUUIDs : List String
  deriving DecidableEq, Repr

/-- What left the registry, in the order it happened. -/
inductive Event where
  | allocRev (rv : Nat)
  | changeTopology (req : CtlChangeTopology) (taskId : String)
  | stopChangeTopology (rev : Revision)
  | makeCh (ch : Nat)
  | closeCh (ch : Nat)
  deriving DecidableEq, Repr

/-- The `CtlMgr` of the source.  `mu` is true while the mutex is held,
`tasksWaitCh` is the identity of the wait channel (`none` for nil), `chFresh`
is the identity the next `make(chan struct{})` returns, and `trace` is the
history described in the header. -/
structure CtlMgr where
  mu : Bool
  revNumNext : Nat
  tasks : tasks
  tasksWaitCh : Option Nat
  chFresh : Nat
  trace : List Event
  deriving DecidableEq

/-- Modelled from the spec: a `rebalance.UUIDSeq`, of which `Seq` is read. -/
structure UUIDSeq where
  UUID : String
  Seq : Nat
  deriving DecidableEq, Repr

/-- Modelled from the spec: a `rebalance.ProgressEntry`, "an initial sequence
number, a current sequence number, and a wanted (target) sequence number". -/
structure ProgressEntry where
  InitUUIDSeq : UUIDSeq
  CurrUUIDSeq : UUIDSeq
  WantUUIDSeq : UUIDSeq
  deriving DecidableEq, Repr

/-- The three-level map `pindex -> source_partition -> node -> entry`. -/
abbrev ProgressEntries := List (String × List (String × List (String × ProgressEntry)))

/-! ## Mutex -/

/-- `m.mu.Lock()`. -/
def CtlMgr.Lock (m : CtlMgr) : CtlMgr := { m with mu := true }

/-- `m.mu.Unlock()`. -/
def CtlMgr.Unlock (m : CtlMgr) : CtlMgr := { m with mu := false }

/-- Appends one event to the history. -/
def CtlMgr.log (m : CtlMgr) (e : Event) : CtlMgr := { m with trace := m.trace ++ [e] }

/-! ## Revisions -/

/-- `NewCtlMgr`: counter at 1, task-list revision 0, no tasks, no wait
channel. -/
def NewCtlMgr : CtlMgr :=
  { mu := false, revNumNext := 1, tasks := { revNum := 0, taskHandles := [] },
    tasksWaitCh := none, chFresh := 0, trace := [] }

/-- `allocRevNumLOCKED`: `rv := prevRevNum + 1`, raised to `revNumNext` when
below it; `revNumNext` becomes `rv + 1`.  Both additions are `uint64`. -/
def allocRevNumLOCKED (m : CtlMgr) (prevRevNum : Nat) : Nat × CtlMgr :=
  let rv := (prevRevNum + 1) % 2 ^ 64
  let rv := if rv < m.revNumNext then m.revNumNext else rv
  (rv, { m with revNumNext := (rv + 1) % 2 ^ 64, trace := m.trace ++ [Event.allocRev rv] })

/-- `updateTasksLOCKED`: run `body` on the tasks, give the task list a newly
allocated revision, then close and clear the wait channel if there is one. -/
def updateTasksLOCKED (m : CtlMgr) (body : tasks → tasks) : CtlMgr :=
  let m := { m with tasks := body m.tasks }
  let r := allocRevNumLOCKED m m.tasks.revNum
  let m := { r.2 with tasks := { r.2.tasks with revNum := r.1 } }
  match m.tasksWaitCh with
  | some ch => { m with tasksWaitCh := none, trace := m.trace ++ [Event.closeCh ch] }
  | none => m

/-- Decimal digits of `n`, most significant first, as ASCII bytes, pushed in
front of `acc`; `fuel` bounds the number of digits produced. -/
def EncodeRev.digits : Nat → Nat → List Nat → List Nat
  | 0, _, acc => acc
  | fuel + 1, n, acc =>
    if n / 10 = 0 then (48 + n % 10) :: acc
    else EncodeRev.digits fuel (n / 10) ((48 + n % 10) :: acc)

/-- `EncodeRev`: the bytes of `fmt.Sprintf("%d", revNum)`. -/
def EncodeRev (revNum : Nat) : Revision := EncodeRev.digits (revNum + 1) revNum []

/-- The digit loop of `strconv.ParseUint(s, 10, 64)`: a byte outside `0`-`9`
is a syntax error; a value that leaves 64 bits is a range error. -/
def DecodeRev.loop : List Nat → Nat → Except Error Nat
  | [], n => .ok n
  | c :: cs, n =>
    if 48 ≤ c ∧ c ≤ 57 then
      if n ≥ (2 ^ 64 - 1) / 10 + 1 then .error Error.ErrRange
      else if n * 10 + (c - 48) > 2 ^ 64 - 1 then .error Error.ErrRange
      else DecodeRev.loop cs (n * 10 + (c - 48))
    else .error Error.ErrSyntax

/-- `DecodeRev`: `strconv.ParseUint(string(b), 10, 64)`; the empty string is a
syntax error. -/
def DecodeRev (b : Revision) : Except Error Nat :=
  match b with
  | [] => .error Error.ErrSyntax
  | _ => DecodeRev.loop b 0

/-! ## Task registry -/

/-- Go's `append(s, x)` on a slice of tasks: the elements of `s`, none for the
nil slice, followed by `x`; the result is never nil. -/
def appendTask (s : Option (List Task)) (x : Task) : Option (List Task) :=
  match s with
  | none => some [x]
  | some l => some (l ++ [x])

/-- `getTaskListLOCKED`: `rv` starts with the task-list revision, encoded, and
the empty slice `[]service_api.Task{}`, which is not nil; the loop appends a
copy of the task of every handle, in registry order. -/
def getTaskListLOCKED (m : CtlMgr) : TaskList :=
  m.tasks.taskHandles.foldl
    (fun rv taskHandle => { rv with Tasks := appendTask rv.Tasks taskHandle.task })
    { Rev := EncodeRev m.tasks.revNum, Tasks := some [] }

/-- What the `select` of `GetTaskList` took: the cancel channel, or the wait
channel, in which case `m` is the registry as found when `m.mu.Lock()`
returned. -/
inductive WaitEvent where
  | cancel
  | signalled (m : CtlMgr)

/-- How a call of `GetTaskList` stands once the given wait events are used up:
it returned `(rv, err)`, or it is still blocked in `select`.  The registry is
the one left behind. -/
inductive GetTaskListResult where
  | returned (rv : Option TaskList) (err : Option Error) (m : CtlMgr)
  | blocked (m : CtlMgr)

/-- The `for haveTasksRevNum == m.tasks.revNum` loop of `GetTaskList` and the
code after it, entered with the mutex held. -/
def GetTaskList.wait (haveTasksRevNum : Nat) : CtlMgr → List WaitEvent → GetTaskListResult
  | m, [] =>
    if haveTasksRevNum = m.tasks.revNum then
      let m := match m.tasksWaitCh with
        | none => { m with tasksWaitCh := some m.chFresh, chFresh := m.chFresh + 1,
                           trace := m.trace ++ [Event.makeCh m.chFresh] }
        | some _ => m
      .blocked m.Unlock
    else .returned (some (getTaskListLOCKED m)) none m.Unlock
  | m, ev :: evs =>
    if haveTasksRevNum = m.tasks.revNum then
      let m := match m.tasksWaitCh with
        | none => { m with tasksWaitCh := some m.chFresh, chFresh := m.chFresh + 1,
                           trace := m.trace ++ [Event.makeCh m.chFresh] }
        | some _ => m
      match ev with
      | .cancel => .returned none (some Error.ErrCanceled) m.Unlock
      | .signalled m1 => GetTaskList.wait haveTasksRevNum m1.Lock evs
    else .returned (some (getTaskListLOCKED m)) none m.Unlock

/-- `GetTaskList`.  The return on a revision that does not decode leaves the
mutex as `Lock` set it. -/
def GetTaskList (m : CtlMgr) (haveTasksRev : Revision) (evs : List WaitEvent) :
    GetTaskListResult :=
  let m := m.Lock
  if haveTasksRev.length > 0 then
    match DecodeRev haveTasksRev with
    | .error err => .returned none (some err) m
    | .ok haveTasksRevNum => GetTaskList.wait haveTasksRevNum m evs
  else .returned (some (getTaskListLOCKED m)) none m.Unlock

/-- The `for` loop of `CancelTask`.  The result is the registry (its history
holds the `stop` calls made) and either the error the loop returned with or
`canceled` and `taskHandlesNext`. -/
def CancelTask.loop (taskId : String) (taskRev : Option Revision) :
    List taskHandle → CtlMgr → Bool → List taskHandle →
    CtlMgr × Except Error (Bool × List taskHandle)
  | [], m, canceled, taskHandlesNext => (m, .ok (canceled, taskHandlesNext))
  | th :: rest, m, canceled, taskHandlesNext =>
    if th.task.Id = taskId then
      if taskRev.isSome ∧ taskRev ≠ some th.task.Rev then (m, .error Error.ErrConflict)
      else if th.task.IsCancelable = false then (m, .error Error.ErrNotSupported)
      else
        let m := match th.stop with
          | some rev => m.log (Event.stopChangeTopology rev)
          | none => m
        CancelTask.loop taskId taskRev rest m true taskHandlesNext
    else CancelTask.loop taskId taskRev rest m canceled (taskHandlesNext ++ [th])

/-- `CancelTask`; `taskRev` is `none` for a nil revision. -/
def CancelTask (m : CtlMgr) (taskId : String) (taskRev : Option Revision) :
    CtlMgr × Option Error :=
  let m := m.Lock
  match CancelTask.loop taskId taskRev m.tasks.taskHandles m false [] with
  | (m, .error err) => (m.Unlock, some err)
  | (m, .ok (canceled, taskHandlesNext)) =>
    if canceled = false then (m.Unlock, some Error.ErrNotFound)
    else
      ((updateTasksLOCKED m (fun s => { s with taskHandles := taskHandlesNext })).Unlock, none)

/-! ## Topology changes -/

/-- The type test of `PrepareTopologyChange`. -/
def isPreparedOrRebalance (th : taskHandle) : Bool :=
  th.task.Type_ = TaskType.TaskTypePrepared || th.task.Type_ = TaskType.TaskTypeRebalance

/-- `PrepareTopologyChange`.  `topologyRev` is `m.ctl.GetTopology().Rev` and
`now` is `time.Now()`. -/
def PrepareTopologyChange (m : CtlMgr) (topologyRev : Revision) (now : Nat)
    (change : TopologyChange) : CtlMgr × Option Error :=
  let m := m.Lock
  if change.CurrentTopologyRev.length > 0 ∧ change.CurrentTopologyRev ≠ topologyRev then
    (m.Unlock, some Error.ErrConflict)
  else if m.tasks.taskHandles.any isPreparedOrRebalance then
    (m.Unlock, some Error.ErrConflict)
  else
    let r := allocRevNumLOCKED m 0
    let m := r.2
    let taskHandlesNext := m.tasks.taskHandles ++
      [{ startTime := now,
         task := { Rev := EncodeRev r.1,
                   Id := "prepare:" ++ change.Id,
                   Type_ := TaskType.TaskTypePrepared,
                   Status := TaskStatus.TaskStatusRunning,
                   IsCancelable := true,
                   Progress := 100,
                   DetailedProgress := none,
                   Description := "prepare topology change",
                   ErrorMessage := "",
                   Extra := [("topologyChange", change)] },
         stop := none }]
    ((updateTasksLOCKED m (fun s => { s with taskHandles := taskHandlesNext })).Unlock, none)

/-- `startTopologyChangeTaskHandleLOCKED`.  `outcome` is what the engine's
`ChangeTopology` returns for the request: an error, or the `Rev` of the
topology it returns. -/
def startTopologyChangeTaskHandleLOCKED (m : CtlMgr)
    (outcome : CtlChangeTopology → Except Error Revision) (now : Nat)
    (change : TopologyChange) : CtlMgr × Except Error taskHandle :=
  let mode : Option String :=
    match change.Type_ with
    | .TopologyChangeTypeRebalance => some "rebalance"
    | .TopologyChangeTypeFailover => some "failover-hard"
    | .TopologyChangeTypeOther => none
  match mode with
  | none => (m, .error Error.ErrNotSupported)
  | some mode =>
    let ctlChangeTopology : CtlChangeTopology :=
      { Rev := change.CurrentTopologyRev, Mode := mode,
        MemberNodeUUIDs := change.KeepNodes.foldl (fun acc node => acc ++ [node.NodeInfo.NodeId]) [] }
    let taskId := "rebalance:" ++ change.Id
    let m := m.log (Event.changeTopology ctlChangeTopology taskId)
    match outcome ctlChangeTopology with
    | .error err => (m, .error err)
    | .ok ctlTopologyRev =>
      let r := allocRevNumLOCKED m m.tasks.revNum
      (r.2, .ok
        { startTime := now,
          task := { Rev := EncodeRev r.1,
                    Id := taskId,
                    Type_ := TaskType.TaskTypeRebalance,
                    Status := TaskStatus.TaskStatusRunning,
                    IsCancelable := true,
                    Progress := 0,
                    DetailedProgress := some [],
                    Description := "topology change",
                    ErrorMessage := "",
                    Extra := [("topologyChange", change)] },
          stop := some ctlTopologyRev })

/-- The `for` loop of `StartTopologyChange`.  `engine k` is the outcome of the
`k`-th call of `ChangeTopology` made by this call (counted from 0). -/
def StartTopologyChange.loop (engine : Nat → CtlChangeTopology → Except Error Revision)
    (now : Nat) (change : TopologyChange) :
    List taskHandle → CtlMgr → Nat → Bool → List taskHandle →
    CtlMgr × Except Error (Bool × List taskHandle)
  | [], m, _, started, taskHandlesNext => (m, .ok (started, taskHandlesNext))
  | th :: rest, m, k, started, taskHandlesNext =>
    if th.task.Type_ = TaskType.TaskTypeRebalance then (m, .error Error.ErrConflict)
    else if th.task.Type_ = TaskType.TaskTypePrepared then
      match startTopologyChangeTaskHandleLOCKED m (engine k) now change with
      | (m, .error err) => (m, .error err)
      | (m, .ok th1) =>
        StartTopologyChange.loop engine now change rest m (k + 1) true (taskHandlesNext ++ [th1])
    else StartTopologyChange.loop engine now change rest m k started (taskHandlesNext ++ [th])

/-- `StartTopologyChange`. -/
def StartTopologyChange (m : CtlMgr) (topologyRev : Revision)
    (engine : Nat → CtlChangeTopology → Except Error Revision) (now : Nat)
    (change : TopologyChange) : CtlMgr × Option Error :=
  let m := m.Lock
  if change.CurrentTopologyRev.length > 0 ∧ change.CurrentTopologyRev ≠ topologyRev then
    (m.Unlock, some Error.ErrConflict)
  else
    match StartTopologyChange.loop engine now change m.tasks.taskHandles m 0 false [] with
    | (m, .error err) => (m.Unlock, some err)
    | (m, .ok (started, taskHandlesNext)) =>
      if started = false then (m.Unlock, some Error.ErrNotFound)
      else
        ((updateTasksLOCKED m (fun s => { s with taskHandles := taskHandlesNext })).Unlock, none)

/-! ## Progress -/

/-- `uint64` addition. -/
def add64 (a b : Nat) : Nat := (a + b) % 2 ^ 64

/-- `uint64` subtraction. -/
def sub64 (a b : Nat) : Nat := (a % 2 ^ 64 + (2 ^ 64 - b % 2 ^ 64)) % 2 ^ 64

/-- Rounding the quotient `n / d` to the nearest integer, a tie to the even
one. -/
def float64.roundHalfEven (n d : Nat) : Nat :=
  if 2 * (n % d) < d then n / d
  else if d < 2 * (n % d) then n / d + 1
  else if (n / d) % 2 = 0 then n / d else n / d + 1

/-- Scaling the quotient `x / y` by a power of two into the range
`2 ^ 52 ≤ x / y < 2 ^ 53` of a 53-bit significand: `x` is doubled `up` times
or `y` is doubled `down` times. -/
def float64.normalize : Nat → Nat → Nat → Nat → Nat → Nat × Nat × Nat × Nat
  | 0, x, y, up, down => (x, y, up, down)
  | fuel + 1, x, y, up, down =>
    if x < 2 ^ 52 * y then float64.normalize fuel (2 * x) y (up + 1) down
    else if 2 ^ 53 * y ≤ x then float64.normalize fuel x (2 * y) up (down + 1)
    else (x, y, up, down)

/-- The `float64` nearest to the quotient `x / y` of two integers up to
`2 ^ 64`, a tie going to the even significand: the quotient is scaled to 53
significant bits, rounded, and scaled back.  A `float64` value is held as the
rational number it denotes. -/
def float64.nearest (x y : Nat) : ℚ :=
  if x = 0 then 0
  else
    match float64.normalize 192 x y 0 0 with
    | (x1, y1, up, down) => (float64.roundHalfEven x1 y1 : ℚ) * 2 ^ down / 2 ^ up

/-- The conversion `float64(u)` of a `uint64`: the nearest `float64`, which is
an integer. -/
def float64.ofUint64 (u : Nat) : Nat :=
  if u = 0 then 0
  else
    match float64.normalize 192 u 1 0 0 with
    | (x1, y1, up, down) => float64.roundHalfEven x1 y1 * 2 ^ down / 2 ^ up

/-- The three nested `for` loops of `updateProgress`: `(totCurrDelta,
totWantDelta)`. -/
def updateProgress.totals (p : ProgressEntries) : Nat × Nat :=
  p.foldl (fun acc p1 =>
    p1.2.foldl (fun acc p2 =>
      p2.2.foldl (fun acc pe =>
        (add64 acc.1 (sub64 pe.2.CurrUUIDSeq.Seq pe.2.InitUUIDSeq.Seq),
         add64 acc.2 (sub64 pe.2.WantUUIDSeq.Seq pe.2.InitUUIDSeq.Seq))) acc) acc) (0, 0)

/-- The value of `progress` that `updateProgress` computes before it takes the
mutex: `float64(totCurrDelta) / float64(totWantDelta)`, the `float64` division
of the two converted totals, when `totWantDelta > 0`. -/
def updateProgress.progress (p : Option ProgressEntries) : ℚ :=
  match p with
  | none => 0
  | some p =>
    let tot := updateProgress.totals p
    if tot.2 > 0 then float64.nearest (float64.ofUint64 tot.1) (float64.ofUint64 tot.2) else 0

/-- The loop of `updateProgress` that builds `taskNext.ErrorMessage`. -/
def updateProgress.errorMessage (errs : List String) : String :=
  errs.foldl (fun msg err => (if msg.length > 0 then msg ++ "\n" else msg) ++ err) ""

/-- The handle `updateProgress` puts in the place of `th`: the start time of
`th`, no `stop`, and the copy `taskNext` of the task with the revision
`revNum`, the new progress, the joined error messages and, when the progress
structure is absent, the status Failed. -/
def updateProgress.handleNext (p : Option ProgressEntries) (errs : List String)
    (progress : ℚ) (th : taskHandle) (revNum : Nat) : taskHandle :=
  { startTime := th.startTime,
    task := { th.task with
              Rev := EncodeRev revNum,
              Progress := progress,
              ErrorMessage := updateProgress.errorMessage errs,
              Status := if p.isNone then TaskStatus.TaskStatusFailed else th.task.Status },
    stop := none }

/-- The `for` loop of `updateProgress` over the task handles: the registry
after the allocations made, `updated` and `taskHandlesNext`. -/
def updateProgress.loop (taskId : String) (p : Option ProgressEntries) (errs : List String)
    (progress : ℚ) :
    List taskHandle → CtlMgr → Bool → List taskHandle → CtlMgr × Bool × List taskHandle
  | [], m, updated, taskHandlesNext => (m, updated, taskHandlesNext)
  | th :: rest, m, updated, taskHandlesNext =>
    if th.task.Id = taskId then
      if p.isSome ∨ errs.length > 0 then
        let r := allocRevNumLOCKED m 0
        updateProgress.loop taskId p errs progress rest r.2 true
          (taskHandlesNext ++ [updateProgress.handleNext p errs progress th r.1])
      else updateProgress.loop taskId p errs progress rest m true taskHandlesNext
    else updateProgress.loop taskId p errs progress rest m updated (taskHandlesNext ++ [th])

/-- `updateProgress`; `errs` are the messages `err.Error()` of the errors. -/
def updateProgress (m : CtlMgr) (taskId : String) (p : Option ProgressEntries)
    (errs : List String) : CtlMgr :=
  let progress := updateProgress.progress p
  let m := m.Lock
  match updateProgress.loop taskId p errs progress m.tasks.taskHandles m false [] with
  | (m, updated, taskHandlesNext) =>
    if updated = false then m.Unlock
    else (updateTasksLOCKED m (fun s => { s with taskHandles := taskHandlesNext })).Unlock

/-- The `onProgress` closure built by `startTopologyChangeTaskHandleLOCKED` for
`taskId`; `table` is what `rebalance.ProgressTableString` returns for the
arguments. -/
def onProgress (m : CtlMgr) (taskId : String) (table : String)
    (progressEntries : Option ProgressEntries) (errs : List String) : CtlMgr × String :=
  let m := updateProgress m taskId progressEntries errs
  if progressEntries.isNone then (m, "DONE") else (m, table)

/-! ## Runs of the registry -/

/-- One call on the registry, with its arguments and with what the engine and
the clock answer during the call. -/
inductive Op where
  | prepare (topologyRev : Revision) (now : Nat) (change : TopologyChange)
  | start (topologyRev : Revision) (engine : Nat → CtlChangeTopology → Except Error Revision)
      (now : Nat) (change : TopologyChange)
  | cancel (taskId : String) (taskRev : Option Revision)
  | progress (taskId : String) (p : Option ProgressEntries) (errs : List String)

/-- The registry after one call. -/
def step (m : CtlMgr) : Op → CtlMgr
  | .prepare topologyRev now change => (PrepareTopologyChange m topologyRev now change).1
  | .start topologyRev engine now change =>
    (StartTopologyChange m topologyRev engine now change).1
  | .cancel taskId taskRev => (CancelTask m taskId taskRev).1
  | .progress taskId p errs => updateProgress m taskId p errs

/-- The registry after a sequence of calls. -/
def run (m : CtlMgr) (ops : List Op) : CtlMgr := ops.foldl step m

/-- The revisions returned by `allocRevNumLOCKED` so far, oldest first. -/
def issued (m : CtlMgr) : List Nat :=
  m.trace.filterMap (fun e => match e with | .allocRev rv => some rv | _ => none)

/-! ## Sample data -/

/-- A task that is not cancelable, used as sample data. -/
def fixedTask : taskHandle :=
  { startTime := 0,
    task := { Rev := [49], Id := "t", Type_ := .TaskTypeOther, Status := .TaskStatusRunning,
              IsCancelable := false, Progress := 0, DetailedProgress := none,
              Description := "", ErrorMessage := "", Extra := [] },
    stop := some [55] }

/-- A rebalance request with id `a`, used as sample data. -/
def sampleChange : TopologyChange :=
  { Id := "a", CurrentTopologyRev := [], Type_ := .TopologyChangeTypeRebalance,
    KeepNodes := [⟨⟨"n1"⟩⟩] }

/-- A rebalance request with id `b`, used as sample data. -/
def otherChange : TopologyChange :=
  { Id := "b", CurrentTopologyRev := [], Type_ := .TopologyChangeTypeRebalance,
    KeepNodes := [] }

/-- An engine that accepts every request and answers with revision `7`, used
as sample data. -/
def sampleEngine : Nat → CtlChangeTopology → Except Error Revision :=
  fun _ _ => .ok [55]

/-- The registry after `sampleChange` was prepared, used as sample data. -/
def preparedRegistry : CtlMgr := (PrepareTopologyChange NewCtlMgr [] 0 sampleChange).1

/-- The registry after `sampleChange` was prepared and started, used as sample
data. -/
def startedRegistry : CtlMgr :=
  (StartTopologyChange preparedRegistry [] sampleEngine 0 sampleChange).1

/-- Every progress entry of the three-level structure, level by level. -/
def progressEntriesOf (p : ProgressEntries) : List ProgressEntry :=
  (p.map (fun p1 => (p1.2.map (fun p2 => p2.2.map (fun pe => pe.2))).flatten)).flatten

/-- The spec's `totalAchieved`: the sum over all entries of
`current - initial`, in unsigned 64-bit arithmetic. -/
def totalAchieved (p : ProgressEntries) : Nat :=
  ((progressEntriesOf p).map
    (fun pe => sub64 pe.CurrUUIDSeq.Seq pe.InitUUIDSeq.Seq)).sum % 2 ^ 64

/-- The spec's `totalExpected`: the sum over all entries of
`wanted - initial`, in unsigned 64-bit arithmetic. -/
def totalExpected (p : ProgressEntries) : Nat :=
  ((progressEntriesOf p).map
    (fun pe => sub64 pe.WantUUIDSeq.Seq pe.InitUUIDSeq.Seq)).sum % 2 ^ 64

/-- The spec's scalar progress: `totalAchieved / totalExpected` if
`totalExpected > 0`, else `0`, the quotient taken exactly. -/
def specProgress (p : ProgressEntries) : ℚ :=
  if totalExpected p > 0 then (totalAchieved p : ℚ) / (totalExpected p : ℚ) else 0

/-- The progress the code makes of the spec's two totals: `0` when
`totalExpected` is `0`, else the `float64` quotient of the totals converted to
`float64`. -/
def float64Progress (p : ProgressEntries) : ℚ :=
  if totalExpected p > 0 then
    float64.nearest (float64.ofUint64 (totalAchieved p)) (float64.ofUint64 (totalExpected p))
  else 0

/-- One entry with `(init=0, current=1, want=3)`, under one partition.  Used
as sample data. -/
def thirdEntries : ProgressEntries :=
  [("pindex", [("partition", [("n1", ⟨⟨"u", 0⟩, ⟨"u", 1⟩, ⟨"u", 3⟩⟩)])])]

/-- The two entries `(init=0, current=50, want=100)` and
`(init=0, current=25, want=50)` of the spec, under one partition. -/
def sampleEntries : ProgressEntries :=
  [("pindex", [("partition",
    [("n1", ⟨⟨"u", 0⟩, ⟨"u", 50⟩, ⟨"u", 100⟩⟩), ("n2", ⟨⟨"u", 0⟩, ⟨"u", 25⟩, ⟨"u", 50⟩⟩)])])]

/-- The allocator is consistent: the task-list revision is below the counter,
the counter fits 64 bits, every issued revision is below the counter, and the
issued revisions are strictly increasing. -/
def Good (m : CtlMgr) : Prop :=
  m.tasks.revNum < m.revNumNext ∧ m.revNumNext < 2 ^ 64 ∧
  (∀ r ∈ issued m, r < m.revNumNext) ∧ (issued m).Pairwise (fun a b => a < b)

/-- The registry `m1` comes after `m`: the history of `m1` extends that of `m`,
and, if no revision issued up to `m1` is `2 ^ 64 - 1` or more and the
allocator of `m` is consistent, so is that of `m1` and the tasks are the same
or the task-list revision grew. -/
def Advances (m m1 : CtlMgr) : Prop :=
  m.trace <+: m1.trace ∧
  ((∀ r ∈ issued m1, r < 2 ^ 64 - 1) → Good m →
    Good m1 ∧ (m1.tasks = m.tasks ∨ m.tasks.revNum < m1.tasks.revNum))

/-- The loops leave these fields of the registry alone. -/
def Frame (m m1 : CtlMgr) : Prop :=
  m1.tasks = m.tasks ∧ m1.mu = m.mu ∧ m1.tasksWaitCh = m.tasksWaitCh ∧ m1.chFresh = m.chFresh

/-- One entry with `(init=0, current=100, want=50)`: the current sequence
number has passed the wanted one.  Used as sample data. -/
def overshootEntries : ProgressEntries :=
  [("pindex", [("partition", [("n1", ⟨⟨"u", 0⟩, ⟨"u", 100⟩, ⟨"u", 50⟩⟩)])])]

/-- The one handle of `preparedRegistry`, used as sample data. -/
def preparedHandle : taskHandle :=
  { startTime := 0,
    task := { Rev := [49], Id := "prepare:a", Type_ := .TaskTypePrepared,
              Status := .TaskStatusRunning, IsCancelable := true, Progress := 100,
              DetailedProgress := none, Description := "prepare topology change",
              ErrorMessage := "", Extra := [("topologyChange", sampleChange)] },
    stop := none }

/-- The number a string of decimal digits denotes, read from the left. -/
def decimalValue (b : List Nat) : Nat := b.foldl (fun acc c => acc * 10 + (c - 48)) 0

/-- The registry a call of `GetTaskList` left behind. -/
def GetTaskListResult.registry : GetTaskListResult → CtlMgr
  | .returned _ _ m => m
  | .blocked m => m

/-- The registry after one progress callback with the spec's two entries was
delivered for the running rebalance, used as sample data. -/
def progressedRegistry : CtlMgr :=
  updateProgress startedRegistry "rebalance:a" (some sampleEntries) []

/-- The request the spec describes for a change and a mode: the change's
topology revision, the mode, and the node ids of the nodes to keep, in
order. -/
def requestOf (change : TopologyChange) (mode : String) : CtlChangeTopology :=
  { Rev := change.CurrentTopologyRev, Mode := mode,
    MemberNodeUUIDs := change.KeepNodes.map (fun node => node.NodeInfo.NodeId) }

/-- The mode the spec gives for a change type: `rebalance` for a rebalance,
`failover-hard` for a failover. -/
def modeFor (change : TopologyChange) (mode : String) : Prop :=
  (change.Type_ = TopologyChangeType.TopologyChangeTypeRebalance ∧ mode = "rebalance") ∨
  (change.Type_ = TopologyChangeType.TopologyChangeTypeFailover ∧ mode = "failover-hard")

/-- The Rebalance handle the spec describes for a change started at `now`,
with the task revision `r` and the engine's revision `rev` in its `stop`. -/
def rebalanceHandle (now : Nat) (change : TopologyChange) (r : Nat) (rev : Revision) :
    taskHandle :=
  { startTime := now,
    task := { Rev := EncodeRev r,
              Id := "rebalance:" ++ change.Id,
              Type_ := TaskType.TaskTypeRebalance,
              Status := TaskStatus.TaskStatusRunning,
              IsCancelable := true,
              Progress := 0,
              DetailedProgress := some [],
              Description := "topology change",
              ErrorMessage := "",
              Extra := [("topologyChange", change)] },
    stop := some rev }

/-- A change of a type that is neither rebalance nor failover, whose
`CurrentTopologyRev` is `9`.  Used as sample data. -/
def unsupportedChange : TopologyChange :=
  { Id := "a", CurrentTopologyRev := [57], Type_ := .TopologyChangeTypeOther, KeepNodes := [] }

/-- The registry is settled: the task-list revision is the last revision
issued (`tasks.revNum + 1 = revNumNext`), the counter fits 64 bits, and the
`Rev` of every task encodes a number below the task-list revision. -/
def Settled (m : CtlMgr) : Prop :=
  m.tasks.revNum + 1 = m.revNumNext ∧ m.revNumNext < 2 ^ 64 ∧
  ∀ th ∈ m.tasks.taskHandles, ∃ r, th.task.Rev = EncodeRev r ∧ r < m.tasks.revNum

/-- The `Rev` of the handle encodes a number below the counter of `m`. -/
def RevBelow (m : CtlMgr) (th : taskHandle) : Prop :=
  ∃ r, th.task.Rev = EncodeRev r ∧ r < m.revNumNext

/-! ## Partitions of a feed (package `cbgt`, `feed_cb.go`) -/

/-- `strconv.ParseUint(s, 10, 64)` on the bytes of `s`: the empty string is a
syntax error, and the digit loop is the one of `DecodeRev`. -/
def ParseUint (s : List Nat) : Except Error Nat :=
  match s with
  | [] => .error Error.ErrSyntax
  | _ => DecodeRev.loop s 0

/-- `strconv.Atoi` on the bytes of `s`, for the 64-bit `int`: a leading `+` or
`-` is taken off, the rest goes through `ParseUint`, and a value outside
`-2 ^ 63 .. 2 ^ 63 - 1` is a range error. -/
def Atoi (s : List Nat) : Except Error Int :=
  match s with
  | [] => .error Error.ErrSyntax
  | c :: cs =>
    let neg : Bool := c = 45
    let s1 := if c = 43 ∨ c = 45 then cs else c :: cs
    match ParseUint s1 with
    | .error err => .error err
    | .ok un =>
      if neg = false ∧ un ≥ 2 ^ 63 then .error Error.ErrRange
      else if neg = true ∧ un > 2 ^ 63 then .error Error.ErrRange
      else .ok (if neg then -(un : Int) else (un : Int))

/-- The conversion `uint16(v)` of an `int`: the low 16 bits. -/
def uint16 (v : Int) : Nat := (v % 2 ^ 16).toNat

/-- The error `ParsePartitionsToVBucketIds` builds with `fmt.Errorf`: the
partition that did not parse and the error of `strconv.Atoi`. -/
structure PartitionError where
  partition : List Nat
  err : Error
  deriving DecidableEq, Repr

/-- The `for partition := range dests` loop of `ParsePartitionsToVBucketIds`;
the list gives the entries of the map in the order the iteration visits
them. -/
def ParsePartitionsToVBucketIds.loop {Dest : Type} :
    List (List Nat × Dest) → List Nat → Except PartitionError (List Nat)
  | [], vbuckets => .ok vbuckets
  | (partition, _) :: rest, vbuckets =>
    if partition ≠ [] then
      match Atoi partition with
      | .error err => .error { partition := partition, err := err }
      | .ok vbId => ParsePartitionsToVBucketIds.loop rest (vbuckets ++ [uint16 vbId])
    else ParsePartitionsToVBucketIds.loop rest vbuckets

/-- `ParsePartitionsToVBucketIds`: the ids with a nil error, or a nil slice
with the error. -/
def ParsePartitionsToVBucketIds {Dest : Type} (dests : List (List Nat × Dest)) :
    Except PartitionError (List Nat) :=
  ParsePartitionsToVBucketIds.loop dests []

/-- A string without its leading `+` or `-`, if it has one. -/
def unsignedPart (s : List Nat) : List Nat :=
  match s with
  | [] => []
  | c :: cs => if c = 43 ∨ c = 45 then cs else c :: cs

/-- The integer an optionally signed string of decimal digits denotes. -/
def intValue (s : List Nat) : Int :=
  if s.head? = some 45 then -(decimalValue (unsignedPart s) : Int)
  else (decimalValue (unsignedPart s) : Int)

/-- A decimal integer string that fits the `int`: an optional sign, at least
one digit, only digits, and a value in `-2 ^ 63 .. 2 ^ 63 - 1`. -/
def isIntString (s : List Nat) : Prop :=
  unsignedPart s ≠ [] ∧ (∀ c ∈ unsignedPart s, 48 ≤ c ∧ c ≤ 57) ∧
  -(2 ^ 63 : Int) ≤ intValue s ∧ intValue s < 2 ^ 63

/-! ## Partitions of a data source (package `main`, `data_source.go`) -/

/-- `SimpleSourceParams`. -/
structure SimpleSourceParams where
  NumPartitions : Int
  deriving DecidableEq, Repr

/-- How a call of `DataSourcePartitions` ends: it returns the partitions with a
nil error, it returns nil with an error, or it does not return because the
run time aborts it. -/
inductive PartitionsResult where
  | partitions (rv : List (List Nat))
  | error (msg : String)
  | aborted
  deriving DecidableEq, Repr

/-- `strconv.Itoa`: the decimal digits, after a `-` for a negative number. -/
def Itoa (i : Int) : List Nat :=
  if i < 0 then 45 :: EncodeRev.digits (i.natAbs + 1) i.natAbs []
  else EncodeRev.digits (i.natAbs + 1) i.natAbs []

/-- The statements `rv := make([]string, n)` and `for i := 0; i < n; i++
{ rv[i] = strconv.Itoa(i) }`, then `return rv, nil`.  `make` aborts on a
negative length and on a length above `maxLen`, the longest slice of strings
the run time allocates. -/
def DataSourcePartitions.fill (maxLen : Nat) (n : Int) : PartitionsResult :=
  if n < 0 ∨ n > maxLen then .aborted
  else
    .partitions ((List.range n.toNat).foldl (fun rv i => rv.set i (Itoa i))
      (List.replicate n.toNat []))

set_option linter.unusedVariables false in
/-- `DataSourcePartitions`.  `getBucket server poolName bucketName` is what
`couchbase.GetBucket` answers: an error, or a bucket whose `VBServerMap()` is
nil (`none`) or has a `VBucketMap` of the given length.  `unmarshal` is what
`json.Unmarshal` makes of the document and a zero `SimpleSourceParams`: an
error, or the parameters. -/
def DataSourcePartitions (getBucket : String → String → String → Except String (Option Nat))
    (unmarshal : String → Except String SimpleSourceParams) (maxLen : Nat)
    (sourceType sourceName sourceUUID sourceParams server : String) : PartitionsResult :=
  if sourceType = "couchbase" then
    let poolName := "default"
    let bucketName := sourceName
    match getBucket server poolName bucketName with
    | .error err =>
      .error ("error: DataSourcePartitions/couchbase failed GetBucket, server: " ++ server ++
        ", poolName: " ++ poolName ++ ", bucketName: " ++ bucketName ++ ", err: " ++ err)
    | .ok none =>
      .error ("error: DataSourcePartitions/couchbase no VBServerMap, server: " ++ server ++
        ", poolName: " ++ poolName ++ ", bucketName: " ++ bucketName ++ ", err: <nil>")
    | .ok (some numVBuckets) => DataSourcePartitions.fill maxLen numVBuckets
  else if sourceType = "simple" then
    let ssp : Except String SimpleSourceParams :=
      if sourceParams ≠ "" then unmarshal sourceParams else .ok { NumPartitions := 0 }
    match ssp with
    | .error err =>
      .error ("error: DataSourcePartitions/simple could not parse sourceParams: " ++
        sourceParams ++ ", err: " ++ err)
    | .ok ssp => DataSourcePartitions.fill maxLen ssp.NumPartitions
  else .error ("error: DataSourcePartitions got unknown sourceType: " ++ sourceType)

/-- The document that sets `numPartitions` to `-1`.  Used as sample data. -/
def negativeParams : String := "\x7b\x22numPartitions\x22:-1\x7d"

/-- One call on the registry: one of the four calls of `Op`, or a `GetTaskList`
followed up to the point where it has returned or is blocked in its
`select`. -/
inductive Call where
  | op (o : Op)
  | getTaskList (haveTasksRev : Revision)

/-- The registry after one call of `Call`. -/
def stepCall (m : CtlMgr) : Call → CtlMgr
  | .op o => step m o
  | .getTaskList haveTasksRev => (GetTaskList m haveTasksRev []).registry

/-- The registry after a sequence of calls of `Call`. -/
def runCalls (m : CtlMgr) (calls : List Call) : CtlMgr := calls.foldl stepCall m

/-- A rational number that a `float64` can hold, as far as the significand
goes: `n * 2 ^ e` with `n` below `2 ^ 53`. -/
def isFloat64 (w : ℚ) : Prop := ∃ (n : Nat) (e : Int), n < 2 ^ 53 ∧ w = (n : ℚ) * (2 : ℚ) ^ e

/-! # Theorems -/

/-! ## The revision allocator -/

/-- C2, as the code has it: in a state with `revNumNext = L + 1` and
`max prev L < 2 ^ 64 - 1`, `allocRevNumLOCKED prev` returns `max prev L + 1`,
which is greater than `prev` and than `L`, and leaves `revNumNext` at the
result plus one reduced modulo `2 ^ 64`: the result plus one when
`max prev L < 2 ^ 64 - 2`, and `0` when `max prev L = 2 ^ 64 - 2`. -/
theorem allocRevNumLOCKED_spec (m : CtlMgr) (prev L : Nat)
    (hL : m.revNumNext = L + 1) (hmax : max prev L < 2 ^ 64 - 1) :
    (allocRevNumLOCKED m prev).1 = max prev L + 1 ∧
    prev < (allocRevNumLOCKED m prev).1 ∧ L < (allocRevNumLOCKED m prev).1 ∧
    (allocRevNumLOCKED m prev).2.revNumNext = ((allocRevNumLOCKED m prev).1 + 1) % 2 ^ 64 ∧
    (max prev L < 2 ^ 64 - 2 →
      (allocRevNumLOCKED m prev).2.revNumNext = (allocRevNumLOCKED m prev).1 + 1) ∧
    (max prev L = 2 ^ 64 - 2 → (allocRevNumLOCKED m prev).2.revNumNext = 0) := by
  have hp : prev < 2 ^ 64 - 1 := lt_of_le_of_lt (le_max_left _ _) hmax
  have hl : L < 2 ^ 64 - 1 := lt_of_le_of_lt (le_max_right _ _) hmax
  have h1 : (prev + 1) % 2 ^ 64 = prev + 1 := Nat.mod_eq_of_lt (by omega)
  have hrv : (allocRevNumLOCKED m prev).1 = max prev L + 1 := by
    simp only [allocRevNumLOCKED, h1, hL]
    split <;> omega
  refine ⟨hrv, by omega, by omega, ?_, ?_, ?_⟩
  · simp [allocRevNumLOCKED]
  · intro h
    have : (allocRevNumLOCKED m prev).2.revNumNext
        = ((allocRevNumLOCKED m prev).1 + 1) % 2 ^ 64 := by simp [allocRevNumLOCKED]
    rw [this, hrv]
    exact Nat.mod_eq_of_lt (by omega)
  · intro h
    have : (allocRevNumLOCKED m prev).2.revNumNext
        = ((allocRevNumLOCKED m prev).1 + 1) % 2 ^ 64 := by simp [allocRevNumLOCKED]
    rw [this, hrv, h]
    decide

/-- Witness of `allocRevNumLOCKED_spec`: a stale `prev = 0` in a state whose
last issued revision is 4. -/
theorem allocRevNumLOCKED_spec_witness :
    (allocRevNumLOCKED { NewCtlMgr with revNumNext := 5 } 0).1 = 5 ∧
    (allocRevNumLOCKED { NewCtlMgr with revNumNext := 5 } 0).2.revNumNext = 6 := by
  have h := allocRevNumLOCKED_spec { NewCtlMgr with revNumNext := 5 } 0 4 rfl (by decide)
  exact ⟨h.1, h.2.2.2.2.1 (by decide)⟩

/-- C2 as stated fails at the top of the range: with `prev = 2 ^ 64 - 2` and
`L = 0` the result is `2 ^ 64 - 1` and `revNumNext` wraps to `0`, which is not
the result plus one. -/
theorem allocRevNumLOCKED_counter_wraps :
    ¬ ∀ (m : CtlMgr) (prev L : Nat), m.revNumNext = L + 1 → max prev L < 2 ^ 64 - 1 →
      (allocRevNumLOCKED m prev).1 = max prev L + 1 ∧
      (allocRevNumLOCKED m prev).2.revNumNext = (allocRevNumLOCKED m prev).1 + 1 := by
  intro h
  have h1 := (h NewCtlMgr (2 ^ 64 - 2) 0 rfl (by decide)).2
  revert h1
  decide

/-! ## `CancelTask` -/

/-- The loop of `CancelTask` over handles none of which has the id: nothing
happens but the copying. -/
theorem CancelTask_loop_no_match (taskId : String) (taskRev : Option Revision) :
    ∀ (l : List taskHandle) (m : CtlMgr) (c : Bool) (acc : List taskHandle),
      (∀ th ∈ l, th.task.Id ≠ taskId) →
      CancelTask.loop taskId taskRev l m c acc = (m, .ok (c, acc ++ l)) := by
  intro l
  induction l with
  | nil => intro m c acc _; simp [CancelTask.loop]
  | cons x rest ih =>
    intro m c acc h
    have hx : x.task.Id ≠ taskId := h x (List.mem_cons_self _ _)
    have hrest : ∀ th ∈ rest, th.task.Id ≠ taskId :=
      fun th hth => h th (List.mem_cons_of_mem _ hth)
    simp [CancelTask.loop, hx, ih _ _ _ hrest]

/-- When the loop of `CancelTask` runs to its end, it has kept exactly the
handles with another id, in order, and `canceled` tells whether one had the
id. -/
theorem CancelTask_loop_ok (taskId : String) (taskRev : Option Revision) :
    ∀ (l : List taskHandle) (m : CtlMgr) (c : Bool) (acc : List taskHandle)
      (c1 : Bool) (next : List taskHandle),
      (CancelTask.loop taskId taskRev l m c acc).2 = .ok (c1, next) →
      next = acc ++ l.filter (fun th => th.task.Id ≠ taskId) ∧
      c1 = (c || l.any (fun th => th.task.Id = taskId)) := by
  intro l
  induction l with
  | nil =>
    intro m c acc c1 next h
    simp [CancelTask.loop] at h
    simp [h.1, h.2]
  | cons x rest ih =>
    intro m c acc c1 next h
    unfold CancelTask.loop at h
    by_cases hx : x.task.Id = taskId
    · simp only [hx, if_true] at h
      split at h
      · simp at h
      · split at h
        · simp at h
        · have := ih _ _ _ _ _ h
          simp [this.1, this.2, hx]
    · simp only [hx, if_false] at h
      have := ih _ _ _ _ _ h
      simp [this.1, this.2, hx]

/-- The loop of `CancelTask` touches nothing of the registry but the
history, to which it appends the `stop` calls it made. -/
theorem CancelTask_loop_state (taskId : String) (taskRev : Option Revision) :
    ∀ (l : List taskHandle) (m : CtlMgr) (c : Bool) (acc : List taskHandle),
      ∃ evs : List Event,
        (CancelTask.loop taskId taskRev l m c acc).1 = { m with trace := m.trace ++ evs } ∧
        ∀ e ∈ evs, ∃ rev, e = Event.stopChangeTopology rev := by
  intro l
  induction l with
  | nil => intro m c acc; exact ⟨[], by simp [CancelTask.loop]⟩
  | cons x rest ih =>
    intro m c acc
    unfold CancelTask.loop
    by_cases hx : x.task.Id = taskId
    · simp only [hx, if_true]
      split
      · exact ⟨[], by simp⟩
      · split
        · exact ⟨[], by simp⟩
        · cases hs : x.stop with
          | none =>
            simpa using ih m true acc
          | some rev =>
            obtain ⟨evs, h1, h2⟩ := ih (m.log (Event.stopChangeTopology rev)) true acc
            refine ⟨Event.stopChangeTopology rev :: evs, ?_, ?_⟩
            · rw [h1]
              simp [CtlMgr.log]
            · intro e he
              rcases List.mem_cons.mp he with rfl | he
              · exact ⟨rev, rfl⟩
              · exact h2 e he
    · simp only [hx, if_false]
      exact ih m c (acc ++ [x])

/-- The loop of `CancelTask` when at most one handle has the id and `th` has
it: the outcome is decided by `th` alone. -/
theorem CancelTask_loop_unique (taskId : String) (taskRev : Option Revision) :
    ∀ (l : List taskHandle) (m : CtlMgr) (c : Bool) (acc : List taskHandle) (th : taskHandle),
      (l.filter (fun h => h.task.Id = taskId)).length ≤ 1 → th ∈ l → th.task.Id = taskId →
      (CancelTask.loop taskId taskRev l m c acc).2 =
        if taskRev.isSome ∧ taskRev ≠ some th.task.Rev then .error Error.ErrConflict
        else if th.task.IsCancelable = false then .error Error.ErrNotSupported
        else .ok (true, acc ++ l.filter (fun h => h.task.Id ≠ taskId)) := by
  intro l
  induction l with
  | nil => intro m c acc th _ hth; simp at hth
  | cons x rest ih =>
    intro m c acc th hlen hth hid
    by_cases hx : x.task.Id = taskId
    · have hrest : ∀ h ∈ rest, h.task.Id ≠ taskId := by
        intro h hh hhid
        have : h ∈ rest.filter (fun h => h.task.Id = taskId) := by
          simp [List.mem_filter, hh, hhid]
        have hpos := List.length_pos_of_mem this
        rw [List.filter_cons_of_pos (by simpa using hx)] at hlen
        simp only [List.length_cons] at hlen
        omega
      have hthx : th = x := by
        rcases List.mem_cons.mp hth with h | h
        · exact h
        · exact absurd hid (hrest th h)
      subst hthx
      unfold CancelTask.loop
      simp only [hx, if_true]
      split
      · rfl
      · split
        · rfl
        · rw [CancelTask_loop_no_match taskId taskRev rest _ _ _ hrest]
          have : rest.filter (fun h => h.task.Id ≠ taskId) = rest := by
            apply List.filter_eq_self.mpr
            intro h hh
            simpa using hrest h hh
          rw [List.filter_cons_of_neg (by simpa using hx), this]
    · have hth1 : th ∈ rest := by
        rcases List.mem_cons.mp hth with h | h
        · exact absurd (h ▸ hid) hx
        · exact h
      have hlen1 : (rest.filter (fun h => h.task.Id = taskId)).length ≤ 1 := by
        rw [List.filter_cons_of_neg (by simpa using hx)] at hlen
        exact hlen
      unfold CancelTask.loop
      simp only [hx, if_false]
      rw [ih m c (acc ++ [x]) th hlen1 hth1 hid]
      rw [List.filter_cons_of_pos (by simpa using hx)]
      simp

/-- The loop of `CancelTask` when every handle with the id is not cancelable
and passes the revision test: it returns at the first of them, before any
`stop` call. -/
theorem CancelTask_loop_not_cancelable (taskId : String) (taskRev : Option Revision) :
    ∀ (l : List taskHandle) (m : CtlMgr) (c : Bool) (acc : List taskHandle),
      (∃ th ∈ l, th.task.Id = taskId) →
      (∀ th ∈ l, th.task.Id = taskId →
        th.task.IsCancelable = false ∧ ¬ (taskRev.isSome ∧ taskRev ≠ some th.task.Rev)) →
      CancelTask.loop taskId taskRev l m c acc = (m, .error Error.ErrNotSupported) := by
  intro l
  induction l with
  | nil => intro m c acc ⟨th, hth, _⟩; simp at hth
  | cons x rest ih =>
    intro m c acc hex hall
    unfold CancelTask.loop
    by_cases hx : x.task.Id = taskId
    · have := hall x (List.mem_cons_self _ _) hx
      simp only [hx, if_true, this.1, this.2, if_false]
    · simp only [hx, if_false]
      apply ih
      · obtain ⟨th, hth, hid⟩ := hex
        rcases List.mem_cons.mp hth with h | h
        · exact absurd (h ▸ hid) hx
        · exact ⟨th, h, hid⟩
      · exact fun th hth => hall th (List.mem_cons_of_mem _ hth)

/-- The error of `CancelTask` read off the result of its loop. -/
theorem CancelTask_err (m : CtlMgr) (taskId : String) (taskRev : Option Revision) :
    (CancelTask m taskId taskRev).2 =
      match (CancelTask.loop taskId taskRev m.tasks.taskHandles m.Lock false []).2 with
      | .error err => some err
      | .ok (canceled, _) => if canceled = false then some Error.ErrNotFound else none := by
  unfold CancelTask
  simp only [CtlMgr.Lock]
  rcases h : CancelTask.loop taskId taskRev m.tasks.taskHandles
    { m with mu := true } false [] with ⟨m1, res⟩
  rcases res with err | ⟨c, next⟩
  · simp
  · cases c <;> simp

/-- C9: when at most one task has the id, `CancelTask` returns `ErrNotFound`
exactly when no task has it; otherwise, for the task `th` with the id, it
returns `ErrConflict` if a revision is supplied (not nil) and differs from
`th.task.Rev`, else `ErrNotSupported` if `th` is not cancelable, else no
error.  The revision test comes before the cancelable test. -/
theorem CancelTask_outcome (m : CtlMgr) (taskId : String) (taskRev : Option Revision)
    (huniq : (m.tasks.taskHandles.filter (fun h => h.task.Id = taskId)).length ≤ 1) :
    ((CancelTask m taskId taskRev).2 = some Error.ErrNotFound ↔
      ∀ th ∈ m.tasks.taskHandles, th.task.Id ≠ taskId) ∧
    ∀ th ∈ m.tasks.taskHandles, th.task.Id = taskId →
      (CancelTask m taskId taskRev).2 =
        if taskRev.isSome ∧ taskRev ≠ some th.task.Rev then some Error.ErrConflict
        else if th.task.IsCancelable = false then some Error.ErrNotSupported
        else none := by
  have hsome : ∀ th ∈ m.tasks.taskHandles, th.task.Id = taskId →
      (CancelTask m taskId taskRev).2 =
        if taskRev.isSome ∧ taskRev ≠ some th.task.Rev then some Error.ErrConflict
        else if th.task.IsCancelable = false then some Error.ErrNotSupported
        else none := by
    intro th hth hid
    rw [CancelTask_err, CancelTask_loop_unique taskId taskRev _ m.Lock false [] th huniq hth hid]
    by_cases h1 : taskRev.isSome ∧ taskRev ≠ some th.task.Rev
    · rw [if_pos h1, if_pos h1]
    · by_cases h2 : th.task.IsCancelable = false
      · rw [if_neg h1, if_neg h1, if_pos h2, if_pos h2]
      · rw [if_neg h1, if_neg h1, if_neg h2, if_neg h2]
        rfl
  refine ⟨⟨?_, ?_⟩, hsome⟩
  · intro hnf th hth hid
    rw [hsome th hth hid] at hnf
    split at hnf
    · simp at hnf
    · split at hnf <;> simp at hnf
  · intro hno
    rw [CancelTask_err, CancelTask_loop_no_match taskId taskRev _ m.Lock false [] hno]
    rfl

/-- Witness of `CancelTask_outcome`: one prepared task, canceled with a stale
revision. -/
theorem CancelTask_outcome_witness :
    (CancelTask (PrepareTopologyChange NewCtlMgr [] 0 ⟨"a", [], .TopologyChangeTypeRebalance, []⟩).1
      "prepare:a" (some [57])).2 = some Error.ErrConflict := by
  have h := (CancelTask_outcome
    (PrepareTopologyChange NewCtlMgr [] 0 ⟨"a", [], .TopologyChangeTypeRebalance, []⟩).1
    "prepare:a" (some [57]) (by decide)).2
  have h1 := h _ (List.mem_singleton_self _) (by decide)
  rw [h1]
  decide

/-- C10: when the tasks with the id are not cancelable and the call carries no
revision or their current revision, `CancelTask` returns `ErrNotSupported`; it
makes no `stop` call (the history is unchanged), and the task list, the
task-list revision, the allocator counter and the wait channel are unchanged:
the registry afterwards is the one before with the mutex released. -/
theorem CancelTask_not_cancelable (m : CtlMgr) (taskId : String) (taskRev : Option Revision)
    (hex : ∃ th ∈ m.tasks.taskHandles, th.task.Id = taskId)
    (hnc : ∀ th ∈ m.tasks.taskHandles, th.task.Id = taskId → th.task.IsCancelable = false)
    (hrev : taskRev = none ∨
      ∀ th ∈ m.tasks.taskHandles, th.task.Id = taskId → taskRev = some th.task.Rev) :
    (CancelTask m taskId taskRev).2 = some Error.ErrNotSupported ∧
    (CancelTask m taskId taskRev).1.trace = m.trace ∧
    (CancelTask m taskId taskRev).1.tasks = m.tasks ∧
    (CancelTask m taskId taskRev).1.revNumNext = m.revNumNext ∧
    (CancelTask m taskId taskRev).1.tasksWaitCh = m.tasksWaitCh ∧
    (CancelTask m taskId taskRev).1 = m.Unlock := by
  have hloop := CancelTask_loop_not_cancelable taskId taskRev m.tasks.taskHandles m.Lock false []
    hex (by
      intro th hth hid
      refine ⟨hnc th hth hid, ?_⟩
      rcases hrev with h | h
      · simp [h]
      · simp [h th hth hid])
  have h : CancelTask m taskId taskRev = (m.Unlock, some Error.ErrNotSupported) := by
    unfold CancelTask
    simp only []
    rw [show (m.Lock).tasks.taskHandles = m.tasks.taskHandles from rfl, hloop]
    rfl
  rw [h]
  exact ⟨rfl, rfl, rfl, rfl, rfl, rfl⟩

/-- Witness of `CancelTask_not_cancelable`: a registry holding one task that
is not cancelable, canceled with its current revision. -/
theorem CancelTask_not_cancelable_witness :
    (CancelTask { NewCtlMgr with tasks := { revNum := 2, taskHandles := [fixedTask] } }
      "t" (some [49])).2 = some Error.ErrNotSupported :=
  (CancelTask_not_cancelable
    { NewCtlMgr with tasks := { revNum := 2, taskHandles := [fixedTask] } } "t" (some [49])
    ⟨fixedTask, List.mem_singleton_self _, rfl⟩
    (by intro th hth _; rw [List.mem_singleton.mp hth]; rfl)
    (Or.inr (by intro th hth _; rw [List.mem_singleton.mp hth]; rfl))).1

/-! ## `PrepareTopologyChange` -/

/-- The type test of `PrepareTopologyChange` finds a handle exactly when some
task is of type Prepared or Rebalance. -/
theorem any_isPreparedOrRebalance (l : List taskHandle) :
    l.any isPreparedOrRebalance = true ↔
      ∃ th ∈ l, th.task.Type_ = TaskType.TaskTypePrepared ∨
        th.task.Type_ = TaskType.TaskTypeRebalance := by
  simp [List.any_eq_true, isPreparedOrRebalance]

/-- C4: `PrepareTopologyChange` returns `ErrConflict` exactly when the
change's `CurrentTopologyRev` is not empty and differs from the engine's
topology revision, or some task of type Prepared or Rebalance is in the
registry, whatever its status; in every other case it returns no error.  When
it returns `ErrConflict` the task list, the task-list revision, the allocator
counter, the wait channel and the history are unchanged.  With an empty
`CurrentTopologyRev` only the task test decides. -/
theorem PrepareTopologyChange_conflict (m : CtlMgr) (topologyRev : Revision) (now : Nat)
    (change : TopologyChange) :
    ((PrepareTopologyChange m topologyRev now change).2 = some Error.ErrConflict ↔
      (change.CurrentTopologyRev ≠ [] ∧ change.CurrentTopologyRev ≠ topologyRev) ∨
      ∃ th ∈ m.tasks.taskHandles, th.task.Type_ = TaskType.TaskTypePrepared ∨
        th.task.Type_ = TaskType.TaskTypeRebalance) ∧
    ((PrepareTopologyChange m topologyRev now change).2 ≠ some Error.ErrConflict →
      (PrepareTopologyChange m topologyRev now change).2 = none) ∧
    ((PrepareTopologyChange m topologyRev now change).2 = some Error.ErrConflict →
      (PrepareTopologyChange m topologyRev now change).1 = m.Unlock ∧
      (PrepareTopologyChange m topologyRev now change).1.tasks = m.tasks ∧
      (PrepareTopologyChange m topologyRev now change).1.revNumNext = m.revNumNext) ∧
    (change.CurrentTopologyRev = [] →
      ((PrepareTopologyChange m topologyRev now change).2 = some Error.ErrConflict ↔
        ∃ th ∈ m.tasks.taskHandles, th.task.Type_ = TaskType.TaskTypePrepared ∨
          th.task.Type_ = TaskType.TaskTypeRebalance)) := by
  have hlen : change.CurrentTopologyRev.length > 0 ↔ change.CurrentTopologyRev ≠ [] := by
    cases change.CurrentTopologyRev <;> simp
  by_cases hrev : change.CurrentTopologyRev.length > 0 ∧ change.CurrentTopologyRev ≠ topologyRev
  · have h : PrepareTopologyChange m topologyRev now change = (m.Unlock, some Error.ErrConflict) := by
      unfold PrepareTopologyChange
      simp only [if_pos hrev]
      rfl
    rw [h]
    refine ⟨⟨fun _ => Or.inl ⟨hlen.mp hrev.1, hrev.2⟩, fun _ => rfl⟩, fun h => absurd rfl h,
      fun _ => ⟨rfl, rfl, rfl⟩, fun he => ?_⟩
    exact absurd he (hlen.mp hrev.1)
  · have hrev1 : ¬ (change.CurrentTopologyRev ≠ [] ∧ change.CurrentTopologyRev ≠ topologyRev) :=
      fun h => hrev ⟨hlen.mpr h.1, h.2⟩
    by_cases hany : m.tasks.taskHandles.any isPreparedOrRebalance = true
    · have h : PrepareTopologyChange m topologyRev now change =
          (m.Unlock, some Error.ErrConflict) := by
        unfold PrepareTopologyChange
        simp only [if_neg hrev]
        rw [show (m.Lock).tasks.taskHandles = m.tasks.taskHandles from rfl, if_pos hany]
        rfl
      have hex := (any_isPreparedOrRebalance _).mp hany
      rw [h]
      exact ⟨⟨fun _ => Or.inr hex, fun _ => rfl⟩, fun h => absurd rfl h,
        fun _ => ⟨rfl, rfl, rfl⟩, fun _ => ⟨fun _ => hex, fun _ => rfl⟩⟩
    · have h : (PrepareTopologyChange m topologyRev now change).2 = none := by
        unfold PrepareTopologyChange
        simp only [if_neg hrev]
        rw [show (m.Lock).tasks.taskHandles = m.tasks.taskHandles from rfl, if_neg hany]
      have hex : ¬ ∃ th ∈ m.tasks.taskHandles, th.task.Type_ = TaskType.TaskTypePrepared ∨
          th.task.Type_ = TaskType.TaskTypeRebalance :=
        fun h => hany ((any_isPreparedOrRebalance _).mpr h)
      rw [h]
      refine ⟨⟨fun h => by simp at h, fun h => ?_⟩, fun _ => rfl, fun h => by simp at h,
        fun _ => ⟨fun h => by simp at h, fun h => absurd h hex⟩⟩
      rcases h with h | h
      · exact absurd h hrev1
      · exact absurd h hex

/-- Witness of `PrepareTopologyChange_conflict`: a second prepare right after
a first one conflicts and leaves the registry as it was. -/
theorem PrepareTopologyChange_conflict_witness :
    (PrepareTopologyChange preparedRegistry [] 0 otherChange).2 = some Error.ErrConflict ∧
    (PrepareTopologyChange preparedRegistry [] 0 otherChange).1.tasks = preparedRegistry.tasks :=
  have h := PrepareTopologyChange_conflict preparedRegistry [] 0 otherChange
  have h1 := h.1.mpr (Or.inr (by decide))
  ⟨h1, (h.2.2.1 h1).2.1⟩

/-! ## `StartTopologyChange` -/

/-- The loop of `StartTopologyChange` over handles that are neither Rebalance
nor Prepared: nothing happens but the copying. -/
theorem StartTopologyChange_loop_no_match
    (engine : Nat → CtlChangeTopology → Except Error Revision) (now : Nat)
    (change : TopologyChange) :
    ∀ (l : List taskHandle) (m : CtlMgr) (k : Nat) (s : Bool) (acc : List taskHandle),
      (∀ th ∈ l, th.task.Type_ ≠ TaskType.TaskTypeRebalance ∧
        th.task.Type_ ≠ TaskType.TaskTypePrepared) →
      StartTopologyChange.loop engine now change l m k s acc = (m, .ok (s, acc ++ l)) := by
  intro l
  induction l with
  | nil => intro m k s acc _; simp [StartTopologyChange.loop]
  | cons x rest ih =>
    intro m k s acc h
    have hx := h x (List.mem_cons_self _ _)
    have hrest : ∀ th ∈ rest, th.task.Type_ ≠ TaskType.TaskTypeRebalance ∧
        th.task.Type_ ≠ TaskType.TaskTypePrepared :=
      fun th hth => h th (List.mem_cons_of_mem _ hth)
    unfold StartTopologyChange.loop
    rw [if_neg hx.1, if_neg hx.2, ih _ _ _ _ hrest]
    simp

/-- C5, as the code has it: when the registry holds no Rebalance task and no
Prepared task at all, and the change's `CurrentTopologyRev` is empty or equals
the engine's topology revision, `StartTopologyChange` returns `ErrNotFound`
and the registry, its history included, is the one before with the mutex
released: `ChangeTopology` was not called. -/
theorem StartTopologyChange_not_found (m : CtlMgr) (topologyRev : Revision)
    (engine : Nat → CtlChangeTopology → Except Error Revision) (now : Nat)
    (change : TopologyChange)
    (hrev : change.CurrentTopologyRev = [] ∨ change.CurrentTopologyRev = topologyRev)
    (hno : ∀ th ∈ m.tasks.taskHandles, th.task.Type_ ≠ TaskType.TaskTypeRebalance ∧
      th.task.Type_ ≠ TaskType.TaskTypePrepared) :
    (StartTopologyChange m topologyRev engine now change).2 = some Error.ErrNotFound ∧
    (StartTopologyChange m topologyRev engine now change).1 = m.Unlock ∧
    (StartTopologyChange m topologyRev engine now change).1.trace = m.trace := by
  have hc : ¬ (change.CurrentTopologyRev.length > 0 ∧ change.CurrentTopologyRev ≠ topologyRev) := by
    rintro ⟨h1, h2⟩
    rcases hrev with h | h
    · simp [h] at h1
    · exact h2 h
  have h : StartTopologyChange m topologyRev engine now change =
      (m.Unlock, some Error.ErrNotFound) := by
    unfold StartTopologyChange
    simp only [if_neg hc]
    rw [show (m.Lock).tasks.taskHandles = m.tasks.taskHandles from rfl,
      StartTopologyChange_loop_no_match engine now change _ _ _ _ _ hno]
    rfl
  rw [h]
  exact ⟨rfl, rfl, rfl⟩

/-- Witness of `StartTopologyChange_not_found`: a start on the empty
registry. -/
theorem StartTopologyChange_not_found_witness :
    (StartTopologyChange NewCtlMgr [] sampleEngine 0 sampleChange).2 = some Error.ErrNotFound :=
  (StartTopologyChange_not_found NewCtlMgr [] sampleEngine 0 sampleChange (Or.inl rfl)
    (by intro th hth; simp [NewCtlMgr] at hth)).1

/-- C5 as stated fails: with a Prepared task for change `a` only (no Rebalance
task, no task with id `prepare:b`), a start of change `b` with an empty
`CurrentTopologyRev` calls `ChangeTopology`, returns no error and leaves the
one task `rebalance:b`. -/
theorem StartTopologyChange_promotes_other_id :
    (∀ th ∈ preparedRegistry.tasks.taskHandles,
      th.task.Type_ ≠ TaskType.TaskTypeRebalance ∧ th.task.Id ≠ "prepare:" ++ otherChange.Id) ∧
    otherChange.CurrentTopologyRev = [] ∧
    (StartTopologyChange preparedRegistry [] sampleEngine 0 otherChange).2 = none ∧
    (StartTopologyChange preparedRegistry [] sampleEngine 0 otherChange).1.trace ≠
      preparedRegistry.trace ∧
    Event.changeTopology ⟨[], "rebalance", []⟩ "rebalance:b" ∈
      (StartTopologyChange preparedRegistry [] sampleEngine 0 otherChange).1.trace ∧
    (StartTopologyChange preparedRegistry [] sampleEngine 0 otherChange).1.tasks.taskHandles.map
      (fun th => th.task.Id) = ["rebalance:b"] := by
  decide

/-! ## `updateProgress` -/

/-- The loop of `updateProgress` when the callback carries neither a progress
structure nor an error: the handles with the id are dropped, the others kept,
and nothing is allocated. -/
theorem updateProgress_loop_drop (taskId : String) (progress : ℚ) :
    ∀ (l : List taskHandle) (m : CtlMgr) (u : Bool) (acc : List taskHandle),
      updateProgress.loop taskId none [] progress l m u acc =
        (m, u || l.any (fun th => th.task.Id = taskId),
          acc ++ l.filter (fun th => th.task.Id ≠ taskId)) := by
  intro l
  induction l with
  | nil => intro m u acc; simp [updateProgress.loop]
  | cons x rest ih =>
    intro m u acc
    unfold updateProgress.loop
    by_cases hx : x.task.Id = taskId
    · simp [hx, ih]
    · simp [hx, ih]

/-- The loop of `updateProgress` when the callback carries a progress
structure or an error: every handle with the id is replaced, at its place, by
`handleNext` with a revision allocated in this loop; the other handles are
kept; the registry changes in its counter and its history only. -/
theorem updateProgress_loop_keep (taskId : String) (p : Option ProgressEntries)
    (errs : List String) (progress : ℚ) (hkeep : p.isSome ∨ errs.length > 0) :
    ∀ (l : List taskHandle) (m : CtlMgr) (u : Bool) (acc : List taskHandle),
      ∃ (evs : List Event) (l1 : List taskHandle),
        updateProgress.loop taskId p errs progress l m u acc =
          ({ m with
              revNumNext := (updateProgress.loop taskId p errs progress l m u acc).1.revNumNext,
              trace := m.trace ++ evs },
            u || l.any (fun th => th.task.Id = taskId), acc ++ l1) ∧
        (∀ e ∈ evs, ∃ r, e = Event.allocRev r) ∧
        List.Forall₂ (fun th th1 =>
          if th.task.Id = taskId then
            ∃ r, Event.allocRev r ∈ evs ∧ th1 = updateProgress.handleNext p errs progress th r
          else th1 = th) l l1 := by
  intro l
  induction l with
  | nil =>
    intro m u acc
    exact ⟨[], [], by simp [updateProgress.loop], by simp, List.Forall₂.nil⟩
  | cons x rest ih =>
    intro m u acc
    by_cases hx : x.task.Id = taskId
    · obtain ⟨evs, l1, h1, h2, h3⟩ := ih (allocRevNumLOCKED m 0).2 true
        (acc ++ [updateProgress.handleNext p errs progress x (allocRevNumLOCKED m 0).1])
      have hstep : updateProgress.loop taskId p errs progress (x :: rest) m u acc =
          updateProgress.loop taskId p errs progress rest (allocRevNumLOCKED m 0).2 true
            (acc ++ [updateProgress.handleNext p errs progress x (allocRevNumLOCKED m 0).1]) := by
        rw [updateProgress.loop, if_pos hx, if_pos hkeep]
      refine ⟨Event.allocRev (allocRevNumLOCKED m 0).1 :: evs,
        updateProgress.handleNext p errs progress x (allocRevNumLOCKED m 0).1 :: l1, ?_, ?_, ?_⟩
      · rw [hstep, h1]
        simp [allocRevNumLOCKED, hx]
      · intro e he
        rcases List.mem_cons.mp he with rfl | he
        · exact ⟨_, rfl⟩
        · exact h2 e he
      · refine List.Forall₂.cons ?_ (h3.imp ?_)
        · rw [if_pos hx]
          exact ⟨_, List.mem_cons_self _ _, rfl⟩
        · intro a b hab
          by_cases ha : a.task.Id = taskId
          · rw [if_pos ha] at hab ⊢
            obtain ⟨r, hr, hb⟩ := hab
            exact ⟨r, List.mem_cons_of_mem _ hr, hb⟩
          · rw [if_neg ha] at hab ⊢
            exact hab
    · obtain ⟨evs, l1, h1, h2, h3⟩ := ih m u (acc ++ [x])
      have hstep : updateProgress.loop taskId p errs progress (x :: rest) m u acc =
          updateProgress.loop taskId p errs progress rest m u (acc ++ [x]) := by
        rw [updateProgress.loop, if_neg hx]
      refine ⟨evs, x :: l1, ?_, h2, List.Forall₂.cons (by rw [if_neg hx]) h3⟩
      rw [hstep, h1]
      simp [hx]

/-- What `updateTasksLOCKED` leaves when the body installs the list `l`. -/
theorem updateTasksLOCKED_eq (m : CtlMgr) (l : List taskHandle) :
    updateTasksLOCKED m (fun s => { s with taskHandles := l }) =
      { mu := m.mu,
        revNumNext := ((allocRevNumLOCKED m m.tasks.revNum).1 + 1) % 2 ^ 64,
        tasks := { revNum := (allocRevNumLOCKED m m.tasks.revNum).1, taskHandles := l },
        tasksWaitCh := none,
        chFresh := m.chFresh,
        trace := m.trace ++ Event.allocRev (allocRevNumLOCKED m m.tasks.revNum).1 ::
          (match m.tasksWaitCh with
           | some ch => [Event.closeCh ch]
           | none => []) } := by
  unfold updateTasksLOCKED
  cases h : m.tasksWaitCh <;> simp [allocRevNumLOCKED, h]

/-- Two `uint64` additions in a row. -/
theorem mod_add_mod64 (a s t : Nat) :
    ((a + s) % 2 ^ 64 + t) % 2 ^ 64 = (a + (s + t)) % 2 ^ 64 := by
  omega

/-- The innermost loop of `updateProgress.totals`. -/
theorem totals_level3 (l : List (String × ProgressEntry)) :
    ∀ acc : Nat × Nat, acc.1 < 2 ^ 64 → acc.2 < 2 ^ 64 →
      l.foldl (fun acc pe =>
        (add64 acc.1 (sub64 pe.2.CurrUUIDSeq.Seq pe.2.InitUUIDSeq.Seq),
         add64 acc.2 (sub64 pe.2.WantUUIDSeq.Seq pe.2.InitUUIDSeq.Seq))) acc =
      ((acc.1 + ((l.map (fun pe => pe.2)).map
          (fun pe => sub64 pe.CurrUUIDSeq.Seq pe.InitUUIDSeq.Seq)).sum) % 2 ^ 64,
       (acc.2 + ((l.map (fun pe => pe.2)).map
          (fun pe => sub64 pe.WantUUIDSeq.Seq pe.InitUUIDSeq.Seq)).sum) % 2 ^ 64) := by
  induction l with
  | nil =>
    intro acc h1 h2
    exact Prod.ext (by simpa using (Nat.mod_eq_of_lt h1).symm)
      (by simpa using (Nat.mod_eq_of_lt h2).symm)
  | cons x rest ih =>
    intro acc h1 h2
    rw [List.foldl_cons, ih _ (Nat.mod_lt _ (by decide)) (Nat.mod_lt _ (by decide))]
    simp only [add64, List.map_cons, List.sum_cons]
    rw [mod_add_mod64, mod_add_mod64]

/-- The middle loop of `updateProgress.totals`. -/
theorem totals_level2 (l : List (String × List (String × ProgressEntry))) :
    ∀ acc : Nat × Nat, acc.1 < 2 ^ 64 → acc.2 < 2 ^ 64 →
      l.foldl (fun acc p2 =>
        p2.2.foldl (fun acc pe =>
          (add64 acc.1 (sub64 pe.2.CurrUUIDSeq.Seq pe.2.InitUUIDSeq.Seq),
           add64 acc.2 (sub64 pe.2.WantUUIDSeq.Seq pe.2.InitUUIDSeq.Seq))) acc) acc =
      ((acc.1 + (((l.map (fun p2 => p2.2.map (fun pe => pe.2))).flatten).map
          (fun pe => sub64 pe.CurrUUIDSeq.Seq pe.InitUUIDSeq.Seq)).sum) % 2 ^ 64,
       (acc.2 + (((l.map (fun p2 => p2.2.map (fun pe => pe.2))).flatten).map
          (fun pe => sub64 pe.WantUUIDSeq.Seq pe.InitUUIDSeq.Seq)).sum) % 2 ^ 64) := by
  induction l with
  | nil =>
    intro acc h1 h2
    exact Prod.ext (by simpa using (Nat.mod_eq_of_lt h1).symm)
      (by simpa using (Nat.mod_eq_of_lt h2).symm)
  | cons x rest ih =>
    intro acc h1 h2
    rw [List.foldl_cons, totals_level3 x.2 acc h1 h2,
      ih _ (Nat.mod_lt _ (by decide)) (Nat.mod_lt _ (by decide))]
    simp only [List.map_cons, List.flatten_cons, List.map_append, List.sum_append]
    rw [mod_add_mod64, mod_add_mod64]

/-- The loops of `updateProgress` compute the spec's two totals. -/
theorem totals_eq (p : ProgressEntries) :
    updateProgress.totals p = (totalAchieved p, totalExpected p) := by
  have key : ∀ (l : ProgressEntries) (acc : Nat × Nat), acc.1 < 2 ^ 64 → acc.2 < 2 ^ 64 →
      l.foldl (fun acc p1 =>
        p1.2.foldl (fun acc p2 =>
          p2.2.foldl (fun acc pe =>
            (add64 acc.1 (sub64 pe.2.CurrUUIDSeq.Seq pe.2.InitUUIDSeq.Seq),
             add64 acc.2 (sub64 pe.2.WantUUIDSeq.Seq pe.2.InitUUIDSeq.Seq))) acc) acc) acc =
      ((acc.1 + ((progressEntriesOf l).map
          (fun pe => sub64 pe.CurrUUIDSeq.Seq pe.InitUUIDSeq.Seq)).sum) % 2 ^ 64,
       (acc.2 + ((progressEntriesOf l).map
          (fun pe => sub64 pe.WantUUIDSeq.Seq pe.InitUUIDSeq.Seq)).sum) % 2 ^ 64) := by
    intro l
    induction l with
    | nil =>
      intro acc h1 h2
      exact Prod.ext (by simpa [progressEntriesOf] using (Nat.mod_eq_of_lt h1).symm)
        (by simpa [progressEntriesOf] using (Nat.mod_eq_of_lt h2).symm)
    | cons x rest ih =>
      intro acc h1 h2
      rw [List.foldl_cons, totals_level2 x.2 acc h1 h2,
        ih _ (Nat.mod_lt _ (by decide)) (Nat.mod_lt _ (by decide))]
      simp only [progressEntriesOf, List.map_cons, List.flatten_cons, List.map_append,
        List.sum_append]
      rw [mod_add_mod64, mod_add_mod64]
  have h := key p (0, 0) (by decide) (by decide)
  simp only [Nat.zero_add] at h
  exact h

/-! ## `float64` rounding -/

/-- `roundHalfEven n d` in terms of the quotient and the remainder. -/
theorem roundHalfEven_eq (n d : Nat) (hd : 0 < d) :
    ∃ q r, n = d * q + r ∧ r < d ∧
      float64.roundHalfEven n d =
        if 2 * r < d then q else if d < 2 * r then q + 1 else if q % 2 = 0 then q else q + 1 :=
  ⟨n / d, n % d, (Nat.div_add_mod n d).symm, Nat.mod_lt n hd, rfl⟩

theorem roundHalfEven_le (n d N : Nat) (hd : 0 < d) (h : n ≤ N * d) :
    float64.roundHalfEven n d ≤ N := by
  obtain ⟨q, r, hn, hr, he⟩ := roundHalfEven_eq n d hd
  rw [he]
  have hq : q ≤ N := by
    by_contra hlt
    have : N + 1 ≤ q := by omega
    have h2 : d * (N + 1) ≤ d * q := Nat.mul_le_mul_left d this
    have h3 : d * (N + 1) = N * d + d := by ring
    omega
  rcases Nat.lt_or_ge q N with hlt | hge
  · split_ifs <;> omega
  · have hqN : q = N := by omega
    subst hqN
    have h3 : d * q = q * d := Nat.mul_comm _ _
    have hr0 : r = 0 := by omega
    subst hr0
    rw [if_pos (by omega)]

theorem le_roundHalfEven (n d N : Nat) (hd : 0 < d) (h : N * d ≤ n) :
    N ≤ float64.roundHalfEven n d := by
  obtain ⟨q, r, hn, hr, he⟩ := roundHalfEven_eq n d hd
  rw [he]
  have hq : N ≤ q := by
    by_contra hlt
    have : q + 1 ≤ N := by omega
    have h2 : (q + 1) * d ≤ N * d := Nat.mul_le_mul_right d this
    have h3 : (q + 1) * d = d * q + d := by ring
    omega
  split_ifs <;> omega

theorem roundHalfEven_mono (n1 n2 d : Nat) (hd : 0 < d) (h : n1 ≤ n2) :
    float64.roundHalfEven n1 d ≤ float64.roundHalfEven n2 d := by
  obtain ⟨q1, r1, hn1, hr1, he1⟩ := roundHalfEven_eq n1 d hd
  obtain ⟨q2, r2, hn2, hr2, he2⟩ := roundHalfEven_eq n2 d hd
  rw [he1, he2]
  have hq : q1 ≤ q2 := by
    by_contra hlt
    have : q2 + 1 ≤ q1 := by omega
    have h2 : d * (q2 + 1) ≤ d * q1 := Nat.mul_le_mul_left d this
    have h3 : d * (q2 + 1) = d * q2 + d := by ring
    omega
  rcases Nat.lt_or_ge q1 q2 with hlt | hge
  · split_ifs <;> omega
  · have hqq : q1 = q2 := by omega
    subst hqq
    split_ifs <;> omega

theorem roundHalfEven_mul (k d : Nat) (hd : 0 < d) : float64.roundHalfEven (k * d) d = k := by
  apply Nat.le_antisymm
  · exact roundHalfEven_le _ _ _ hd (le_refl _)
  · exact le_roundHalfEven _ _ _ hd (le_refl _)

/-- The rounded quotient is within one half of the quotient. -/
theorem roundHalfEven_error (n d : Nat) (hd : 0 < d) :
    2 * (float64.roundHalfEven n d * d) ≤ 2 * n + d ∧
    2 * n ≤ 2 * (float64.roundHalfEven n d * d) + d := by
  obtain ⟨q, r, hn, hr, he⟩ := roundHalfEven_eq n d hd
  rw [he]
  have h1 : (q + 1) * d = d * q + d := by ring
  have h2 : q * d = d * q := Nat.mul_comm _ _
  split_ifs
  · rw [h2]; omega
  · rw [h1]; omega
  · rw [h2]; omega
  · rw [h1]; omega


/-- Scaling up: while the quotient is below `2 ^ 53`, `normalize` only doubles
`x`, and with enough fuel it ends at `2 ^ 52` or above. -/
theorem normalize_up (y : Nat) :
    ∀ (fuel x up down : Nat), x < 2 ^ 53 * y →
      ∃ k, float64.normalize fuel x y up down = (x * 2 ^ k, y, up + k, down) ∧
        x * 2 ^ k < 2 ^ 53 * y ∧ (2 ^ 52 * y ≤ x * 2 ^ fuel → 2 ^ 52 * y ≤ x * 2 ^ k) := by
  intro fuel
  induction fuel with
  | zero =>
    intro x up down hx
    exact ⟨0, by simp [float64.normalize], by simpa using hx, fun h => h⟩
  | succ fuel ih =>
    intro x up down hx
    unfold float64.normalize
    by_cases h1 : x < 2 ^ 52 * y
    · rw [if_pos h1]
      obtain ⟨k, hk1, hk2, hk3⟩ := ih (2 * x) (up + 1) down (by omega)
      have e1 : 2 * x * 2 ^ k = x * 2 ^ (k + 1) := by ring
      have e2 : 2 * x * 2 ^ fuel = x * 2 ^ (fuel + 1) := by ring
      refine ⟨k + 1, ?_, ?_, ?_⟩
      · rw [hk1, e1, show up + 1 + k = up + (k + 1) by omega]
      · rw [← e1]; exact hk2
      · intro h
        rw [← e1]
        exact hk3 (by rw [e2]; exact h)
    · rw [if_neg h1, if_neg (by omega)]
      exact ⟨0, by simp, by simpa using hx, fun _ => by simpa using Nat.le_of_not_lt h1⟩

/-- Scaling down: while the quotient is `2 ^ 52` or above, `normalize` only
doubles `y`, and with enough fuel it ends below `2 ^ 53`. -/
theorem normalize_down (x : Nat) :
    ∀ (fuel y up down : Nat), 2 ^ 52 * y ≤ x →
      ∃ k, float64.normalize fuel x y up down = (x, y * 2 ^ k, up, down + k) ∧
        2 ^ 52 * (y * 2 ^ k) ≤ x ∧
        (x < 2 ^ 53 * (y * 2 ^ fuel) → x < 2 ^ 53 * (y * 2 ^ k)) := by
  intro fuel
  induction fuel with
  | zero =>
    intro y up down hx
    exact ⟨0, by simp [float64.normalize], by simpa using hx, fun h => h⟩
  | succ fuel ih =>
    intro y up down hx
    unfold float64.normalize
    rw [if_neg (by omega)]
    by_cases h2 : 2 ^ 53 * y ≤ x
    · rw [if_pos h2]
      obtain ⟨k, hk1, hk2, hk3⟩ := ih (2 * y) up (down + 1) (by omega)
      have e1 : 2 * y * 2 ^ k = y * 2 ^ (k + 1) := by ring
      have e2 : 2 * y * 2 ^ fuel = y * 2 ^ (fuel + 1) := by ring
      refine ⟨k + 1, ?_, ?_, ?_⟩
      · rw [hk1, e1, show down + 1 + k = down + (k + 1) by omega]
      · rw [← e1]; exact hk2
      · intro h
        rw [← e1]
        exact hk3 (by rw [e2]; exact h)
    · rw [if_neg h2]
      exact ⟨0, by simp, by simpa using hx, fun _ => by simpa using Nat.lt_of_not_le h2⟩


/-- A `uint64` below `2 ^ 53` converts to itself. -/
theorem ofUint64_small (u : Nat) (hu : u < 2 ^ 53) : float64.ofUint64 u = u := by
  unfold float64.ofUint64
  by_cases h0 : u = 0
  · rw [if_pos h0, h0]
  · rw [if_neg h0]
    obtain ⟨k, hk, _, _⟩ := normalize_up 1 192 u 0 0 (by omega)
    rw [hk]
    simp only []
    have h1 := roundHalfEven_mul (u * 2 ^ k) 1 (by omega)
    rw [Nat.mul_one] at h1
    rw [h1, Nat.pow_zero, Nat.mul_one, Nat.zero_add]
    exact Nat.mul_div_cancel _ (Nat.pos_pow_of_pos k (by omega))

/-- A `uint64` of `2 ^ 52` or more converts to a multiple of the power of two
that leaves 53 significant bits. -/
theorem ofUint64_large (u : Nat) (h1 : 2 ^ 52 ≤ u) (h2 : u < 2 ^ 64) :
    ∃ k, float64.ofUint64 u = float64.roundHalfEven u (2 ^ k) * 2 ^ k ∧
      2 ^ 52 * 2 ^ k ≤ u ∧ u < 2 ^ 53 * 2 ^ k := by
  unfold float64.ofUint64
  rw [if_neg (by omega)]
  obtain ⟨k, hk, hk1, hk2⟩ := normalize_down u 192 1 0 0 (by omega)
  rw [hk]
  simp only []
  simp only [Nat.one_mul] at hk1 hk2 ⊢
  refine ⟨k, ?_, hk1, hk2 ?_⟩
  · rw [Nat.zero_add, Nat.pow_zero, Nat.div_one]
  · have : (2 : Nat) ^ 64 ≤ 2 ^ 53 * 2 ^ 192 := by norm_num
    omega

theorem ofUint64_mono (a b : Nat) (hab : a ≤ b) (hb : b < 2 ^ 64) :
    float64.ofUint64 a ≤ float64.ofUint64 b := by
  rcases Nat.lt_or_ge b (2 ^ 53) with hbs | hbl
  · rw [ofUint64_small a (by omega), ofUint64_small b hbs]
    exact hab
  · obtain ⟨kb, hb1, hb2, hb3⟩ := ofUint64_large b (by omega) hb
    have hposb : 0 < 2 ^ kb := Nat.pos_pow_of_pos kb (by omega)
    have hlb : 2 ^ 52 * 2 ^ kb ≤ float64.roundHalfEven b (2 ^ kb) * 2 ^ kb :=
      Nat.mul_le_mul_right _ (le_roundHalfEven b (2 ^ kb) (2 ^ 52) hposb hb2)
    rcases Nat.lt_or_ge a (2 ^ 53) with has | hal
    · rw [ofUint64_small a has, hb1]
      have : 2 ≤ 2 ^ kb := by
        by_contra hlt
        have : 2 ^ kb = 1 := by omega
        omega
      omega
    · obtain ⟨ka, ha1, ha2, ha3⟩ := ofUint64_large a (by omega) (by omega)
      have hposa : 0 < 2 ^ ka := Nat.pos_pow_of_pos ka (by omega)
      rw [ha1, hb1]
      have hua : float64.roundHalfEven a (2 ^ ka) * 2 ^ ka ≤ 2 ^ 53 * 2 ^ ka :=
        Nat.mul_le_mul_right _ (roundHalfEven_le a (2 ^ ka) (2 ^ 53) hposa (by omega))
      have hlt : 2 ^ ka < 2 ^ (kb + 1) := by
        rw [Nat.pow_succ]
        omega
      have hk : ka ≤ kb := by
        have := (Nat.pow_lt_pow_iff_right (by omega : 1 < 2)).mp hlt
        omega
      rcases Nat.lt_or_ge ka kb with hk1 | hk1
      · have : 2 ^ (ka + 1) ≤ 2 ^ kb := Nat.pow_le_pow_right (by omega) hk1
        rw [Nat.pow_succ] at this
        omega
      · have hkk : ka = kb := by omega
        subst hkk
        exact Nat.mul_le_mul_right _ (roundHalfEven_mono a b _ hposa hab)

/-- The conversion is within `2 ^ -53` of the number, relatively. -/
theorem ofUint64_error (u : Nat) (hu : u < 2 ^ 64) :
    2 ^ 53 * (float64.ofUint64 u - u) ≤ u ∧ 2 ^ 53 * (u - float64.ofUint64 u) ≤ u := by
  rcases Nat.lt_or_ge u (2 ^ 53) with hs | hl
  · rw [ofUint64_small u hs]
    simp
  · obtain ⟨k, h1, h2, h3⟩ := ofUint64_large u (by omega) hu
    have hpos : 0 < 2 ^ k := Nat.pos_pow_of_pos k (by omega)
    obtain ⟨e1, e2⟩ := roundHalfEven_error u (2 ^ k) hpos
    rw [h1]
    constructor <;> omega

theorem ofUint64_pos (u : Nat) (h0 : 0 < u) (hu : u < 2 ^ 64) : 0 < float64.ofUint64 u := by
  have h := ofUint64_mono 1 u h0 hu
  rw [ofUint64_small 1 (by norm_num)] at h
  exact h

theorem ofUint64_le (u : Nat) (hu : u < 2 ^ 64) : float64.ofUint64 u ≤ 2 ^ 64 := by
  have h := ofUint64_mono u (2 ^ 64 - 1) (by omega) (by norm_num)
  have h1 : float64.ofUint64 (2 ^ 64 - 1) = 2 ^ 64 := by decide
  rw [h1] at h
  exact h


theorem nearest_nonneg (x y : Nat) : 0 ≤ float64.nearest x y := by
  unfold float64.nearest
  split
  · exact le_refl _
  · rcases float64.normalize 192 x y 0 0 with ⟨x1, y1, up, down⟩
    simp only []
    positivity

/-- The quotient of a number by one that is not smaller rounds to at most
`1`. -/
theorem nearest_le_one (x y : Nat) (hy : 0 < y) (hxy : x ≤ y) : float64.nearest x y ≤ 1 := by
  unfold float64.nearest
  split
  · exact zero_le_one
  · obtain ⟨k, hk, _, _⟩ := normalize_up y 192 x 0 0 (by omega)
    rw [hk]
    simp only []
    have hR : float64.roundHalfEven (x * 2 ^ k) y ≤ 2 ^ k :=
      roundHalfEven_le _ _ _ hy (by rw [Nat.mul_comm]; exact Nat.mul_le_mul_left _ hxy)
    have hR1 : (float64.roundHalfEven (x * 2 ^ k) y : ℚ) ≤ 2 ^ k := by exact_mod_cast hR
    rw [Nat.zero_add, pow_zero, mul_one, div_le_one (by positivity)]
    exact hR1

/-- The rounded quotient is within `2 ^ -53` of the quotient, relatively. -/
theorem nearest_error (x y : Nat) (hx : 0 < x) (hx2 : x ≤ 2 ^ 64) (hy : 0 < y)
    (hy2 : y ≤ 2 ^ 64) :
    |float64.nearest x y - (x : ℚ) / (y : ℚ)| ≤ (x : ℚ) / (y : ℚ) / 2 ^ 53 := by
  have hxq : (0 : ℚ) < x := by exact_mod_cast hx
  have hyq : (0 : ℚ) < y := by exact_mod_cast hy
  unfold float64.nearest
  rw [if_neg (by omega)]
  rcases Nat.lt_or_ge x (2 ^ 52 * y) with hlt | hge
  · obtain ⟨k, hk, _, hk2⟩ := normalize_up y 192 x 0 0 (by omega)
    have hfuel : 2 ^ 52 * y ≤ x * 2 ^ 192 := by
      have h1 : 2 ^ 52 * y ≤ 2 ^ 52 * 2 ^ 64 := Nat.mul_le_mul_left _ hy2
      have h2 : 1 * 2 ^ 192 ≤ x * 2 ^ 192 := Nat.mul_le_mul_right _ hx
      have h3 : (2 : Nat) ^ 52 * 2 ^ 64 ≤ 1 * 2 ^ 192 := by norm_num
      omega
    have hn := hk2 hfuel
    obtain ⟨e1, e2⟩ := roundHalfEven_error (x * 2 ^ k) y hy
    rw [hk]
    simp only []
    generalize float64.roundHalfEven (x * 2 ^ k) y = R at e1 e2
    have hP : (0 : ℚ) < 2 ^ k := by positivity
    have q1 : 2 * ((R : ℚ) * y) ≤ 2 * (x * 2 ^ k) + y := by exact_mod_cast e1
    have q2 : 2 * ((x : ℚ) * 2 ^ k) ≤ 2 * (R * y) + y := by exact_mod_cast e2
    have q3 : (2 : ℚ) ^ 52 * y ≤ x * 2 ^ k := by exact_mod_cast hn
    rw [Nat.zero_add, pow_zero, mul_one]
    have key : (R : ℚ) / 2 ^ k - x / y = (R * y - x * 2 ^ k) / (2 ^ k * y) := by
      field_simp
      ring
    have key2 : (x : ℚ) / y / 2 ^ 53 = (x * 2 ^ k / 2 ^ 53) / (2 ^ k * y) := by
      field_simp
      ring
    rw [key, key2, abs_div, abs_of_pos (by positivity : (0 : ℚ) < 2 ^ k * y)]
    apply div_le_div_of_nonneg_right _ (by positivity)
    rw [abs_le]
    constructor <;> linarith
  · obtain ⟨k, hk, hk1, _⟩ := normalize_down x 192 y 0 0 hge
    obtain ⟨e1, e2⟩ := roundHalfEven_error x (y * 2 ^ k) (by positivity)
    rw [hk]
    simp only []
    generalize float64.roundHalfEven x (y * 2 ^ k) = R at e1 e2
    have hP : (0 : ℚ) < 2 ^ k := by positivity
    have q1 : 2 * ((R : ℚ) * (y * 2 ^ k)) ≤ 2 * x + y * 2 ^ k := by exact_mod_cast e1
    have q2 : 2 * (x : ℚ) ≤ 2 * (R * (y * 2 ^ k)) + y * 2 ^ k := by exact_mod_cast e2
    have q3 : (2 : ℚ) ^ 52 * (y * 2 ^ k) ≤ x := by exact_mod_cast hk1
    rw [Nat.zero_add, pow_zero, div_one]
    have key : (R : ℚ) * 2 ^ k - x / y = (R * (y * 2 ^ k) - x) / y := by
      field_simp
      ring
    have key2 : (x : ℚ) / y / 2 ^ 53 = (x / 2 ^ 53) / y := by
      rw [div_right_comm]
    rw [key, key2, abs_div, abs_of_pos hyq]
    apply div_le_div_of_nonneg_right _ (le_of_lt hyq)
    rw [abs_le]
    constructor <;> linarith

/-! ## The progress value -/

/-- The progress `updateProgress` computes for a present structure is the
`float64` quotient of the spec's two totals. -/
theorem progress_eq_float64Progress (p : ProgressEntries) :
    updateProgress.progress (some p) = float64Progress p := by
  simp only [updateProgress.progress, float64Progress, totals_eq]

/-- A callback with neither a progress structure nor an error removes the
handles with the id and keeps the others. -/
theorem updateProgress_drop (m : CtlMgr) (taskId : String) :
    (updateProgress m taskId none []).tasks.taskHandles =
      m.tasks.taskHandles.filter (fun th => th.task.Id ≠ taskId) := by
  unfold updateProgress
  simp only []
  rw [updateProgress_loop_drop]
  by_cases hany : (m.Lock).tasks.taskHandles.any (fun th => th.task.Id = taskId) = true
  · simp only [hany, Bool.false_or, List.nil_append]
    rw [if_neg (by simp), updateTasksLOCKED_eq]
    rfl
  · have hany1 : (m.Lock).tasks.taskHandles.any (fun th => th.task.Id = taskId) = false := by
      simpa using hany
    simp only [hany1, Bool.false_or, if_true]
    symm
    apply List.filter_eq_self.mpr
    intro th hth
    have := List.any_eq_false.mp hany1 th hth
    simpa using this

/-- A callback with a progress structure or an error replaces every handle
with the id, at its place, by `handleNext` with a revision allocated during the
call, and keeps the others; the history only grows. -/
theorem updateProgress_keep (m : CtlMgr) (taskId : String) (p : Option ProgressEntries)
    (errs : List String) (hkeep : p.isSome ∨ errs.length > 0) :
    ∃ evs : List Event,
      (updateProgress m taskId p errs).trace = m.trace ++ evs ∧
      List.Forall₂ (fun th th1 =>
        if th.task.Id = taskId then
          ∃ r, Event.allocRev r ∈ evs ∧
            th1 = updateProgress.handleNext p errs (updateProgress.progress p) th r
        else th1 = th) m.tasks.taskHandles (updateProgress m taskId p errs).tasks.taskHandles := by
  obtain ⟨evs, l1, h1, _, h3⟩ := updateProgress_loop_keep taskId p errs
    (updateProgress.progress p) hkeep m.tasks.taskHandles m.Lock false []
  unfold updateProgress
  simp only []
  rw [show (m.Lock).tasks.taskHandles = m.tasks.taskHandles from rfl, h1]
  by_cases hany : m.tasks.taskHandles.any (fun th => th.task.Id = taskId) = true
  · simp only [hany, Bool.false_or, List.nil_append]
    rw [if_neg (by simp), updateTasksLOCKED_eq]
    refine ⟨evs ++ _, List.append_assoc _ _ _, ?_⟩
    refine h3.imp ?_
    intro a b hab
    by_cases ha : a.task.Id = taskId
    · rw [if_pos ha] at hab ⊢
      obtain ⟨r, hr, hb⟩ := hab
      exact ⟨r, List.mem_append_left _ hr, hb⟩
    · rw [if_neg ha] at hab ⊢
      exact hab
  · have hany1 : m.tasks.taskHandles.any (fun th => th.task.Id = taskId) = false := by
      simpa using hany
    simp only [hany1, Bool.false_or, if_true]
    have hno : ∀ th ∈ m.tasks.taskHandles, th.task.Id ≠ taskId := by
      intro th hth
      have := List.any_eq_false.mp hany1 th hth
      simpa using this
    refine ⟨evs, rfl, ?_⟩
    show List.Forall₂ _ m.tasks.taskHandles m.tasks.taskHandles
    have key : ∀ l : List taskHandle, (∀ th ∈ l, th.task.Id ≠ taskId) →
        List.Forall₂ (fun th th1 =>
          if th.task.Id = taskId then
            ∃ r, Event.allocRev r ∈ evs ∧
              th1 = updateProgress.handleNext p errs (updateProgress.progress p) th r
          else th1 = th) l l := by
      intro l
      induction l with
      | nil => intro _; exact List.Forall₂.nil
      | cons x rest ih =>
        intro h
        refine List.Forall₂.cons ?_ (ih (fun th hth => h th (List.mem_cons_of_mem _ hth)))
        rw [if_neg (h x (List.mem_cons_self _ _))]
    exact key _ hno

/-- C6, as the code has it: a progress callback with an absent progress
structure returns `DONE`.  With at least one error, every task with the
callback's task id stays at its place with the status Failed and a revision
allocated during the call, and every other handle is unchanged.  With no error
the tasks with the id are removed from the registry. -/
theorem onProgress_terminated (m : CtlMgr) (taskId : String) (table : String)
    (errs : List String) :
    (onProgress m taskId table none errs).2 = "DONE" ∧
    (errs ≠ [] → ∃ evs : List Event,
      (onProgress m taskId table none errs).1.trace = m.trace ++ evs ∧
      List.Forall₂ (fun th th1 =>
        if th.task.Id = taskId then
          th1.task.Id = taskId ∧ th1.task.Status = TaskStatus.TaskStatusFailed ∧
          ∃ r, Event.allocRev r ∈ evs ∧ th1.task.Rev = EncodeRev r
        else th1 = th) m.tasks.taskHandles (onProgress m taskId table none errs).1.tasks.taskHandles) ∧
    (errs = [] →
      (onProgress m taskId table none errs).1.tasks.taskHandles =
        m.tasks.taskHandles.filter (fun th => th.task.Id ≠ taskId)) := by
  refine ⟨rfl, ?_, ?_⟩
  · intro herrs
    have hkeep : (none : Option ProgressEntries).isSome ∨ errs.length > 0 :=
      Or.inr (List.length_pos.mpr herrs)
    obtain ⟨evs, h1, h2⟩ := updateProgress_keep m taskId none errs hkeep
    refine ⟨evs, h1, h2.imp ?_⟩
    intro a b hab
    by_cases ha : a.task.Id = taskId
    · rw [if_pos ha] at hab ⊢
      obtain ⟨r, hr, hb⟩ := hab
      subst hb
      exact ⟨ha, rfl, r, hr, rfl⟩
    · rw [if_neg ha] at hab ⊢
      exact hab
  · intro herrs
    subst herrs
    exact updateProgress_drop m taskId

/-- Witness of `onProgress_terminated`: the rebalance of `sampleChange` ends
with one error; the task stays, Failed. -/
theorem onProgress_terminated_witness :
    (onProgress startedRegistry "rebalance:a" "" none ["boom"]).2 = "DONE" ∧
    (onProgress startedRegistry "rebalance:a" "" none ["boom"]).1.tasks.taskHandles.map
      (fun th => (th.task.Id, th.task.Status)) =
      [("rebalance:a", TaskStatus.TaskStatusFailed)] :=
  ⟨(onProgress_terminated startedRegistry "rebalance:a" "" ["boom"]).1, by decide⟩

/-- C6 as stated fails for the empty list of errors: the registry holds the
task `rebalance:a`, the callback with an absent structure and no error returns
`DONE`, and afterwards no task is left. -/
theorem onProgress_terminated_without_errors_removes :
    (∃ th ∈ startedRegistry.tasks.taskHandles, th.task.Id = "rebalance:a") ∧
    (onProgress startedRegistry "rebalance:a" "" none []).2 = "DONE" ∧
    (onProgress startedRegistry "rebalance:a" "" none []).1.tasks.taskHandles = [] := by
  decide

/-! ## `float64` rounding gives a nearest `float64` -/

/-- No integer is nearer to the quotient than the rounded quotient. -/
theorem roundHalfEven_nearest (n d N : Nat) (hd : 0 < d) :
    |(float64.roundHalfEven n d : ℚ) - (n : ℚ) / (d : ℚ)| ≤ |(N : ℚ) - (n : ℚ) / (d : ℚ)| := by
  obtain ⟨q, r, hn, hr, he⟩ := roundHalfEven_eq n d hd
  have hdq : (0 : ℚ) < d := by exact_mod_cast hd
  have ht : (n : ℚ) / (d : ℚ) = (q : ℚ) + (r : ℚ) / (d : ℚ) := by
    rw [hn]
    push_cast
    field_simp
    ring
  have hρ0 : (0 : ℚ) ≤ (r : ℚ) / (d : ℚ) := by positivity
  have hρ1 : (r : ℚ) / (d : ℚ) < 1 := by
    rw [div_lt_one hdq]
    exact_mod_cast hr
  have h1 : 2 * r < d → 2 * ((r : ℚ) / (d : ℚ)) < 1 := by
    intro h
    have h' : (2 : ℚ) * r < d := by exact_mod_cast h
    rw [← mul_div_assoc, div_lt_one hdq]
    exact h'
  have h2 : d < 2 * r → 1 < 2 * ((r : ℚ) / (d : ℚ)) := by
    intro h
    have h' : (d : ℚ) < 2 * r := by exact_mod_cast h
    rw [← mul_div_assoc, one_lt_div hdq]
    exact h'
  have h3 : ¬ 2 * r < d → ¬ d < 2 * r → 2 * ((r : ℚ) / (d : ℚ)) = 1 := by
    intro ha hb
    have h' : 2 * r = d := by omega
    have h'' : (2 : ℚ) * r = d := by exact_mod_cast h'
    rw [← mul_div_assoc, h'']
    exact div_self (ne_of_gt hdq)
  rw [he, ht]
  rcases Nat.lt_or_ge q N with hN | hN
  · have hNq : (q : ℚ) + 1 ≤ (N : ℚ) := by exact_mod_cast hN
    rw [abs_of_nonneg (a := (N : ℚ) - _) (by linarith)]
    split_ifs with c1 c2 c3
    · have := h1 c1
      rw [abs_le]; constructor <;> linarith
    · have := h2 c2
      push_cast
      rw [abs_le]; constructor <;> linarith
    · have := h3 c1 c2
      rw [abs_le]; constructor <;> linarith
    · have := h3 c1 c2
      push_cast
      rw [abs_le]; constructor <;> linarith
  · have hNq : (N : ℚ) ≤ (q : ℚ) := by exact_mod_cast hN
    rw [abs_of_nonpos (a := (N : ℚ) - _) (by linarith)]
    split_ifs with c1 c2 c3
    · have := h1 c1
      rw [abs_le]; constructor <;> linarith
    · have := h2 c2
      push_cast
      rw [abs_le]; constructor <;> linarith
    · have := h3 c1 c2
      rw [abs_le]; constructor <;> linarith
    · have := h3 c1 c2
      push_cast
      rw [abs_le]; constructor <;> linarith

/-- A number that is nearest among the integers to a quotient of `2 ^ 52` or
more is nearest among the numbers with a 53-bit significand. -/
theorem nearest_core (t : ℚ) (R : Nat) (ht : 2 ^ 52 ≤ t)
    (hR : ∀ N : Nat, |(R : ℚ) - t| ≤ |(N : ℚ) - t|) (n : Nat) (s : Int) (hn : n < 2 ^ 53) :
    |(R : ℚ) - t| ≤ |(n : ℚ) * (2 : ℚ) ^ s - t| := by
  cases s with
  | ofNat j =>
    have h := hR (n * 2 ^ j)
    push_cast at h
    simpa using h
  | negSucc j =>
    have h := hR (2 ^ 52)
    push_cast at h
    have hnq : (n : ℚ) < 2 ^ 53 := by exact_mod_cast hn
    have hpow : (1 : ℚ) ≤ 2 ^ j := one_le_pow₀ (by norm_num)
    have hW : (n : ℚ) * (2 : ℚ) ^ (Int.negSucc j) < 2 ^ 52 := by
      rw [zpow_negSucc, pow_succ, ← div_eq_mul_inv, div_lt_iff₀ (by positivity)]
      nlinarith
    generalize (n : ℚ) * (2 : ℚ) ^ (Int.negSucc j) = W at hW ⊢
    rw [abs_of_nonpos (a := W - t) (by linarith)]
    have h52 : |(4503599627370496 : ℚ) - t| = t - 4503599627370496 := by
      rw [abs_of_nonpos (by norm_num at ht; linarith)]
      ring
    rw [h52] at h
    norm_num at hW ht
    linarith

/-- No number with a 53-bit significand is nearer to the quotient than
`float64.nearest`. -/
theorem nearest_minimal (x y : Nat) (hx2 : x ≤ 2 ^ 64) (hy : 0 < y) (hy2 : y ≤ 2 ^ 64)
    (w : ℚ) (hw : isFloat64 w) :
    |float64.nearest x y - (x : ℚ) / (y : ℚ)| ≤ |w - (x : ℚ) / (y : ℚ)| := by
  rcases Nat.eq_zero_or_pos x with h0 | hx
  · subst h0
    simp [float64.nearest]
  obtain ⟨n, e, hn, hwe⟩ := hw
  have hxq : (0 : ℚ) < x := by exact_mod_cast hx
  have hyq : (0 : ℚ) < y := by exact_mod_cast hy
  have h2 : (2 : ℚ) ≠ 0 := by norm_num
  unfold float64.nearest
  rw [if_neg (by omega)]
  rcases Nat.lt_or_ge x (2 ^ 52 * y) with hlt | hge
  · obtain ⟨k, hk, _, hk2⟩ := normalize_up y 192 x 0 0 (by omega)
    have hfuel : 2 ^ 52 * y ≤ x * 2 ^ 192 := by
      have h1 : 2 ^ 52 * y ≤ 2 ^ 52 * 2 ^ 64 := Nat.mul_le_mul_left _ hy2
      have h2 : 1 * 2 ^ 192 ≤ x * 2 ^ 192 := Nat.mul_le_mul_right _ hx
      have h3 : (2 : Nat) ^ 52 * 2 ^ 64 ≤ 1 * 2 ^ 192 := by norm_num
      omega
    have hn52 := hk2 hfuel
    have hP : (0 : ℚ) < 2 ^ k := by positivity
    have q3 : (2 : ℚ) ^ 52 * y ≤ x * 2 ^ k := by exact_mod_cast hn52
    have ht : (2 : ℚ) ^ 52 ≤ (x : ℚ) * 2 ^ k / y := by
      rw [le_div_iff₀ hyq]
      exact q3
    have hR : ∀ N : Nat, |(float64.roundHalfEven (x * 2 ^ k) y : ℚ) - (x : ℚ) * 2 ^ k / y| ≤
        |(N : ℚ) - (x : ℚ) * 2 ^ k / y| := by
      intro N
      have h := roundHalfEven_nearest (x * 2 ^ k) y N hy
      push_cast at h
      exact h
    have hcore := nearest_core _ _ ht hR n (e + k) hn
    rw [hk]
    simp only []
    rw [Nat.zero_add, pow_zero, mul_one]
    generalize float64.roundHalfEven (x * 2 ^ k) y = R at hcore
    have e1 : (R : ℚ) / 2 ^ k - x / y = ((R : ℚ) - x * 2 ^ k / y) / 2 ^ k := by
      field_simp
      ring
    have e2 : w - (x : ℚ) / y = ((n : ℚ) * 2 ^ (e + (k : ℤ)) - x * 2 ^ k / y) / 2 ^ k := by
      rw [hwe, zpow_add₀ h2, zpow_natCast]
      field_simp
      ring
    rw [e1, e2, abs_div, abs_div, abs_of_pos hP]
    exact div_le_div_of_nonneg_right hcore (le_of_lt hP)
  · obtain ⟨k, hk, hk1, _⟩ := normalize_down x 192 y 0 0 hge
    have hP : (0 : ℚ) < 2 ^ k := by positivity
    have q3 : (2 : ℚ) ^ 52 * (y * 2 ^ k) ≤ x := by exact_mod_cast hk1
    have ht : (2 : ℚ) ^ 52 ≤ (x : ℚ) / (y * 2 ^ k) := by
      rw [le_div_iff₀ (by positivity)]
      exact q3
    have hR : ∀ N : Nat, |(float64.roundHalfEven x (y * 2 ^ k) : ℚ) - (x : ℚ) / (y * 2 ^ k)| ≤
        |(N : ℚ) - (x : ℚ) / (y * 2 ^ k)| := by
      intro N
      have h := roundHalfEven_nearest x (y * 2 ^ k) N (by positivity)
      push_cast at h
      exact h
    have hcore := nearest_core _ _ ht hR n (e - k) hn
    rw [hk]
    simp only []
    rw [Nat.zero_add, pow_zero, div_one]
    generalize float64.roundHalfEven x (y * 2 ^ k) = R at hcore
    have e1 : (R : ℚ) * 2 ^ k - x / y = ((R : ℚ) - x / (y * 2 ^ k)) * 2 ^ k := by
      field_simp
      ring
    have e2 : w - (x : ℚ) / y = ((n : ℚ) * 2 ^ (e - (k : ℤ)) - x / (y * 2 ^ k)) * 2 ^ k := by
      rw [hwe, zpow_sub₀ h2, zpow_natCast]
      field_simp
      ring
    rw [e1, e2, abs_mul, abs_mul, abs_of_pos hP]
    exact mul_le_mul_of_nonneg_right hcore (le_of_lt hP)

/-- The value of `float64.nearest` has a 53-bit significand. -/
theorem nearest_isFloat64 (x y : Nat) (hx2 : x ≤ 2 ^ 64) (hy : 0 < y) (hy2 : y ≤ 2 ^ 64) :
    isFloat64 (float64.nearest x y) := by
  rcases Nat.eq_zero_or_pos x with h0 | hx
  · subst h0
    exact ⟨0, 0, by norm_num, by simp [float64.nearest]⟩
  have h2 : (2 : ℚ) ≠ 0 := by norm_num
  have hsig : ∀ (R : Nat) (s : Int), R ≤ 2 ^ 53 → isFloat64 ((R : ℚ) * (2 : ℚ) ^ s) := by
    intro R s hR
    rcases Nat.lt_or_ge R (2 ^ 53) with hlt | hge
    · exact ⟨R, s, hlt, rfl⟩
    · have hR53 : R = 2 ^ 53 := by omega
      refine ⟨2 ^ 52, s + 1, by norm_num, ?_⟩
      rw [hR53, zpow_add₀ h2, zpow_one]
      push_cast
      ring
  unfold float64.nearest
  rw [if_neg (by omega)]
  rcases Nat.lt_or_ge x (2 ^ 52 * y) with hlt | hge
  · obtain ⟨k, hk, hk1, _⟩ := normalize_up y 192 x 0 0 (by omega)
    have hR := roundHalfEven_le (x * 2 ^ k) y (2 ^ 53) hy (by omega)
    rw [hk]
    simp only []
    rw [Nat.zero_add, pow_zero, mul_one]
    have e1 : (float64.roundHalfEven (x * 2 ^ k) y : ℚ) / 2 ^ k =
        (float64.roundHalfEven (x * 2 ^ k) y : ℚ) * (2 : ℚ) ^ (-(k : ℤ)) := by
      rw [zpow_neg, zpow_natCast, div_eq_mul_inv]
    rw [e1]
    exact hsig _ _ hR
  · obtain ⟨k, hk, _, hk2⟩ := normalize_down x 192 y 0 0 hge
    have hfuel : x < 2 ^ 53 * (y * 2 ^ 192) := by
      have h1 : 1 * 2 ^ 192 ≤ y * 2 ^ 192 := Nat.mul_le_mul_right _ hy
      have h3 : (2 : Nat) ^ 64 < 2 ^ 53 * (1 * 2 ^ 192) := by norm_num
      have h4 : 2 ^ 53 * (1 * 2 ^ 192) ≤ 2 ^ 53 * (y * 2 ^ 192) := Nat.mul_le_mul_left _ h1
      omega
    have hR := roundHalfEven_le x (y * 2 ^ k) (2 ^ 53) (by positivity)
      (le_of_lt (hk2 hfuel))
    rw [hk]
    simp only []
    rw [Nat.zero_add, pow_zero, div_one]
    have e1 : (float64.roundHalfEven x (y * 2 ^ k) : ℚ) * 2 ^ k =
        (float64.roundHalfEven x (y * 2 ^ k) : ℚ) * (2 : ℚ) ^ ((k : ℤ)) := by
      rw [zpow_natCast]
    rw [e1]
    exact hsig _ _ hR

/-- The conversion of a `uint64` is the `float64` nearest to it. -/
theorem ofUint64_eq_nearest (u : Nat) (hu : u < 2 ^ 64) :
    ((float64.ofUint64 u : Nat) : ℚ) = float64.nearest u 1 := by
  unfold float64.ofUint64 float64.nearest
  by_cases h0 : u = 0
  · rw [if_pos h0, if_pos h0]
    rfl
  · rw [if_neg h0, if_neg h0]
    rcases Nat.lt_or_ge u (2 ^ 52 * 1) with hlt | hge
    · obtain ⟨k, hk, _, _⟩ := normalize_up 1 192 u 0 0 (by omega)
      rw [hk]
      simp only []
      have h1 := roundHalfEven_mul (u * 2 ^ k) 1 (by omega)
      rw [Nat.mul_one] at h1
      rw [h1, Nat.pow_zero, Nat.mul_one, Nat.zero_add,
        Nat.mul_div_cancel _ (Nat.pos_pow_of_pos k (by omega))]
      push_cast
      field_simp
    · obtain ⟨k, hk, _, _⟩ := normalize_down u 192 1 0 0 hge
      rw [hk]
      simp only []
      rw [Nat.zero_add, Nat.pow_zero, Nat.div_one]
      push_cast
      simp

theorem totalAchieved_lt (p : ProgressEntries) : totalAchieved p < 2 ^ 64 :=
  Nat.mod_lt _ (by decide)

theorem totalExpected_lt (p : ProgressEntries) : totalExpected p < 2 ^ 64 :=
  Nat.mod_lt _ (by decide)

/-- The rounded quotient is within `2 ^ -53` of the quotient, relatively, also
for the numerator `0`. -/
theorem nearest_error_of (x y : Nat) (hx2 : x ≤ 2 ^ 64) (hy : 0 < y) (hy2 : y ≤ 2 ^ 64) :
    |float64.nearest x y - (x : ℚ) / (y : ℚ)| ≤ (x : ℚ) / (y : ℚ) / 2 ^ 53 := by
  rcases Nat.eq_zero_or_pos x with h0 | hpos
  · subst h0
    simp [float64.nearest]
  · exact nearest_error x y hpos hx2 hy hy2

/-- The conversion of a `uint64`, as a rational number, is within `2 ^ -53`
of the number, relatively. -/
theorem ofUint64_error_abs (u : Nat) (hu : u < 2 ^ 64) :
    |((float64.ofUint64 u : Nat) : ℚ) - (u : ℚ)| ≤ (u : ℚ) / 2 ^ 53 := by
  obtain ⟨h1, h2⟩ := ofUint64_error u hu
  rw [abs_le]
  rcases Nat.le_total (float64.ofUint64 u) u with hle | hge
  · have q : (2 : ℚ) ^ 53 * ((u : ℚ) - (float64.ofUint64 u : ℚ)) ≤ (u : ℚ) := by
      rw [← Nat.cast_sub hle]
      exact_mod_cast h2
    have hq : ((float64.ofUint64 u : Nat) : ℚ) ≤ (u : ℚ) := by exact_mod_cast hle
    constructor <;> linarith
  · have q : (2 : ℚ) ^ 53 * ((float64.ofUint64 u : ℚ) - (u : ℚ)) ≤ (u : ℚ) := by
      rw [← Nat.cast_sub hge]
      exact_mod_cast h1
    have hq : (u : ℚ) ≤ ((float64.ofUint64 u : Nat) : ℚ) := by exact_mod_cast hge
    constructor <;> linarith

/-- What holds of two lists related handle by handle holds of every handle of
the second list, for some handle of the first. -/
theorem Forall2_mem_right {R : taskHandle → taskHandle → Prop} {l l1 : List taskHandle}
    (h : List.Forall₂ R l l1) : ∀ b ∈ l1, ∃ a ∈ l, R a b := by
  induction h with
  | nil => intro b hb; cases hb
  | @cons a b0 _ _ hab _ ih =>
    intro b hb
    rcases List.mem_cons.mp hb with rfl | hb
    · exact ⟨a, List.mem_cons_self _ _, hab⟩
    · obtain ⟨a1, ha1, hr⟩ := ih b hb
      exact ⟨a1, List.mem_cons_of_mem _ ha1, hr⟩

/-- A callback with a present structure stores the progress it computed in
every task with the id and leaves the other handles as they are. -/
theorem updateProgress_stored (m : CtlMgr) (taskId : String) (p : ProgressEntries)
    (errs : List String) :
    List.Forall₂ (fun th th1 =>
      if th.task.Id = taskId then
        th1.task.Id = taskId ∧ th1.task.Progress = updateProgress.progress (some p)
      else th1 = th)
      m.tasks.taskHandles (updateProgress m taskId (some p) errs).tasks.taskHandles := by
  obtain ⟨evs, _, h2⟩ := updateProgress_keep m taskId (some p) errs (Or.inl rfl)
  refine h2.imp ?_
  intro a b hab
  by_cases ha : a.task.Id = taskId
  · rw [if_pos ha] at hab ⊢
    obtain ⟨r, _, hb⟩ := hab
    subst hb
    exact ⟨ha, rfl⟩
  · rw [if_neg ha] at hab ⊢
    exact hab

theorem float64Progress_sampleEntries : float64Progress sampleEntries = 1 / 2 := by
  have hA : totalAchieved sampleEntries = 75 := by decide
  have hE : totalExpected sampleEntries = 150 := by decide
  unfold float64Progress
  rw [hA, hE, ofUint64_small 75 (by norm_num), ofUint64_small 150 (by norm_num)]
  simp [float64.nearest, float64.normalize, float64.roundHalfEven]
  norm_num

theorem float64Progress_thirdEntries :
    float64Progress thirdEntries = 6004799503160661 / 2 ^ 54 := by
  have hA : totalAchieved thirdEntries = 1 := by decide
  have hE : totalExpected thirdEntries = 3 := by decide
  unfold float64Progress
  rw [hA, hE, ofUint64_small 1 (by norm_num), ofUint64_small 3 (by norm_num)]
  simp [float64.nearest, float64.normalize, float64.roundHalfEven]

/-- C7, as amended: for a present structure the progress stored in every task
with the id is `0` when `totalExpected` is `0` and otherwise the `float64`
quotient `float64(totalAchieved) / float64(totalExpected)` of the spec's two
totals (both in unsigned 64-bit arithmetic), the other handles being
unchanged.  Each conversion and the division give a `float64` nearest to the
exact value: the result has a 53-bit significand and no number with a 53-bit
significand is nearer (`2 ^ 53 + 1` and `2 ^ 53 + 3`, each halfway between two
such numbers, go to the even significand); so a total below `2 ^ 53` converts to
itself and every total to within `2 ^ -53` of itself, relatively, and the
stored value is within `2 ^ -53`, relatively, of the quotient of the converted
totals, hence of `totalAchieved / totalExpected` when both totals are below
`2 ^ 53`.  For the spec's two entries the value is `1/2`; for an absent
structure every task left with the id has progress `0`. -/
theorem updateProgress_stores_progress (m : CtlMgr) (taskId : String) (p : ProgressEntries)
    (errs : List String) :
    updateProgress.progress (some p) = float64Progress p ∧
    List.Forall₂ (fun th th1 =>
      if th.task.Id = taskId then th1.task.Id = taskId ∧ th1.task.Progress = float64Progress p
      else th1 = th)
      m.tasks.taskHandles (updateProgress m taskId (some p) errs).tasks.taskHandles ∧
    (totalExpected p = 0 → float64Progress p = 0) ∧
    (∀ u : Nat, u < 2 ^ 64 →
      (u < 2 ^ 53 → float64.ofUint64 u = u) ∧
      isFloat64 ((float64.ofUint64 u : Nat) : ℚ) ∧
      (∀ w : ℚ, isFloat64 w → |((float64.ofUint64 u : Nat) : ℚ) - (u : ℚ)| ≤ |w - (u : ℚ)|) ∧
      |((float64.ofUint64 u : Nat) : ℚ) - (u : ℚ)| ≤ (u : ℚ) / 2 ^ 53) ∧
    (0 < totalExpected p →
      isFloat64 (float64Progress p) ∧
      (∀ w : ℚ, isFloat64 w →
        |float64Progress p -
            ((float64.ofUint64 (totalAchieved p) : Nat) : ℚ) /
              ((float64.ofUint64 (totalExpected p) : Nat) : ℚ)| ≤
          |w - ((float64.ofUint64 (totalAchieved p) : Nat) : ℚ) /
              ((float64.ofUint64 (totalExpected p) : Nat) : ℚ)|) ∧
      |float64Progress p -
          ((float64.ofUint64 (totalAchieved p) : Nat) : ℚ) /
            ((float64.ofUint64 (totalExpected p) : Nat) : ℚ)| ≤
        ((float64.ofUint64 (totalAchieved p) : Nat) : ℚ) /
          ((float64.ofUint64 (totalExpected p) : Nat) : ℚ) / 2 ^ 53) ∧
    (totalAchieved p < 2 ^ 53 → totalExpected p < 2 ^ 53 →
      |float64Progress p - specProgress p| ≤ specProgress p / 2 ^ 53) ∧
    (float64.ofUint64 (2 ^ 53 + 1) = 2 ^ 53 ∧ float64.ofUint64 (2 ^ 53 + 3) = 2 ^ 53 + 4) ∧
    float64Progress sampleEntries = 1 / 2 ∧
    updateProgress.progress (some sampleEntries) = 1 / 2 ∧
    (∀ th1 ∈ (updateProgress m taskId none errs).tasks.taskHandles,
      th1.task.Id = taskId → th1.task.Progress = 0) := by
  have hquot : 0 < totalExpected p →
      |float64Progress p -
          ((float64.ofUint64 (totalAchieved p) : Nat) : ℚ) /
            ((float64.ofUint64 (totalExpected p) : Nat) : ℚ)| ≤
        ((float64.ofUint64 (totalAchieved p) : Nat) : ℚ) /
          ((float64.ofUint64 (totalExpected p) : Nat) : ℚ) / 2 ^ 53 := by
    intro hpos
    unfold float64Progress
    rw [if_pos hpos]
    exact nearest_error_of _ _ (ofUint64_le _ (totalAchieved_lt p))
      (ofUint64_pos _ hpos (totalExpected_lt p)) (ofUint64_le _ (totalExpected_lt p))
  refine ⟨progress_eq_float64Progress p, ?_, ?_, ?_, ?_, ?_, ⟨by decide, by decide⟩,
    float64Progress_sampleEntries, ?_, ?_⟩
  · rw [← progress_eq_float64Progress]
    exact updateProgress_stored m taskId p errs
  · intro h0
    unfold float64Progress
    rw [if_neg (by omega)]
  · intro u hu
    refine ⟨ofUint64_small u, ?_, ?_, ofUint64_error_abs u hu⟩
    · rw [ofUint64_eq_nearest u hu]
      exact nearest_isFloat64 u 1 (by omega) (by omega) (by norm_num)
    · intro w hw
      have h := nearest_minimal u 1 (by omega) (by omega) (by norm_num) w hw
      rw [← ofUint64_eq_nearest u hu] at h
      simpa using h
  · intro hpos
    refine ⟨?_, ?_, hquot hpos⟩
    · unfold float64Progress
      rw [if_pos hpos]
      exact nearest_isFloat64 _ _ (ofUint64_le _ (totalAchieved_lt p))
        (ofUint64_pos _ hpos (totalExpected_lt p)) (ofUint64_le _ (totalExpected_lt p))
    · intro w hw
      unfold float64Progress
      rw [if_pos hpos]
      exact nearest_minimal _ _ (ofUint64_le _ (totalAchieved_lt p))
        (ofUint64_pos _ hpos (totalExpected_lt p)) (ofUint64_le _ (totalExpected_lt p)) w hw
  · intro hA hE
    rcases Nat.eq_zero_or_pos (totalExpected p) with h0 | hpos
    · unfold float64Progress specProgress
      rw [if_neg (by omega), if_neg (by omega)]
      simp
    · have h := hquot hpos
      rw [ofUint64_small _ hA, ofUint64_small _ hE] at h
      unfold specProgress
      rw [if_pos hpos]
      exact h
  · rw [progress_eq_float64Progress, float64Progress_sampleEntries]
  · intro th1 hth1 hid
    by_cases herrs : errs = []
    · subst herrs
      rw [updateProgress_drop] at hth1
      have := (List.mem_filter.mp hth1).2
      simp at this
      exact absurd hid this
    · obtain ⟨evs, _, h2⟩ := updateProgress_keep m taskId none errs
        (Or.inr (List.length_pos.mpr herrs))
      obtain ⟨a, _, hab⟩ := Forall2_mem_right h2 th1 hth1
      by_cases ha : a.task.Id = taskId
      · rw [if_pos ha] at hab
        obtain ⟨r, _, hb1⟩ := hab
        rw [hb1]
        rfl
      · rw [if_neg ha] at hab
        rw [hab] at hid
        exact absurd hid ha

/-- C7 as stated fails: for the one entry `(init=0, current=1, want=3)` the
totals are `1` and `3` and the exact quotient is `1/3`, but the progress
computed, and stored in the task `rebalance:a`, is the nearest `float64`,
`6004799503160661 / 2 ^ 54`. -/
theorem progress_of_third_is_rounded :
    totalAchieved thirdEntries = 1 ∧ totalExpected thirdEntries = 3 ∧
    specProgress thirdEntries = 1 / 3 ∧
    updateProgress.progress (some thirdEntries) = 6004799503160661 / 2 ^ 54 ∧
    (updateProgress startedRegistry "rebalance:a" (some thirdEntries) []).tasks.taskHandles.map
      (fun th => th.task.Id) = ["rebalance:a"] ∧
    (∀ th1 ∈
      (updateProgress startedRegistry "rebalance:a" (some thirdEntries) []).tasks.taskHandles,
      th1.task.Progress = 6004799503160661 / 2 ^ 54 ∧
      th1.task.Progress ≠ specProgress thirdEntries) := by
  have hA : totalAchieved thirdEntries = 1 := by decide
  have hE : totalExpected thirdEntries = 3 := by decide
  have hspec : specProgress thirdEntries = 1 / 3 := by
    unfold specProgress
    rw [hA, hE]
    norm_num
  have hprog : updateProgress.progress (some thirdEntries) = 6004799503160661 / 2 ^ 54 := by
    rw [progress_eq_float64Progress, float64Progress_thirdEntries]
  refine ⟨hA, hE, hspec, hprog, by decide, ?_⟩
  intro th1 hth1
  obtain ⟨a, ha, hab⟩ := Forall2_mem_right
    (updateProgress_stored startedRegistry "rebalance:a" thirdEntries []) th1 hth1
  have hid : a.task.Id = "rebalance:a" := by
    have hall : ∀ x ∈ startedRegistry.tasks.taskHandles, x.task.Id = "rebalance:a" := by decide
    exact hall a ha
  rw [if_pos hid, hprog] at hab
  rw [hab.2, hspec]
  exact ⟨rfl, by norm_num⟩

/-! ## `GetTaskList` -/

/-- The loop of `getTaskListLOCKED`, started with a slice that is not nil,
appends the tasks of the handles in order and leaves the revision alone. -/
theorem getTaskListLOCKED_loop (r : Revision) :
    ∀ (l : List taskHandle) (acc : List Task),
      l.foldl (fun (rv : TaskList) taskHandle =>
          { rv with Tasks := appendTask rv.Tasks taskHandle.task })
        ({ Rev := r, Tasks := some acc } : TaskList) =
      ({ Rev := r, Tasks := some (acc ++ l.map (fun th => th.task)) } : TaskList) := by
  intro l
  induction l with
  | nil => intro acc; simp
  | cons x rest ih =>
    intro acc
    rw [List.foldl_cons]
    show List.foldl _ ({ Rev := r, Tasks := some (acc ++ [x.task]) } : TaskList) rest = _
    rw [ih (acc ++ [x.task])]
    simp

/-- The snapshot `getTaskListLOCKED` builds: the encoded task-list revision
and, in a slice that is not nil, the tasks of all handles in registry
order. -/
theorem getTaskListLOCKED_eq (m : CtlMgr) :
    getTaskListLOCKED m =
      { Rev := EncodeRev m.tasks.revNum,
        Tasks := some (m.tasks.taskHandles.map (fun th => th.task)) } := by
  unfold getTaskListLOCKED
  rw [getTaskListLOCKED_loop, List.nil_append]


/-- The wait loop returns at once, with the snapshot of the registry it was
entered with, when the known revision differs from the task-list revision. -/
theorem GetTaskList_wait_stale (h : Nat) (m : CtlMgr) (evs : List WaitEvent)
    (hne : m.tasks.revNum ≠ h) :
    GetTaskList.wait h m evs = .returned (some (getTaskListLOCKED m)) none m.Unlock := by
  have hne1 : ¬ h = m.tasks.revNum := fun e => hne e.symm
  cases evs with
  | nil => rw [GetTaskList.wait, if_neg hne1]
  | cons ev evs => rw [GetTaskList.wait, if_neg hne1]

/-- A snapshot returned by the wait loop is the snapshot of the registry left
behind, whose task-list revision differs from the known revision; that
registry holds the tasks of the entry registry or of a registry found at a
wake-up. -/
theorem GetTaskList_wait_returned (h : Nat) :
    ∀ (evs : List WaitEvent) (m : CtlMgr) (tl : TaskList) (err : Option Error) (m1 : CtlMgr),
      GetTaskList.wait h m evs = .returned (some tl) err m1 →
      err = none ∧ tl = getTaskListLOCKED m1 ∧ m1.tasks.revNum ≠ h ∧ m1.mu = false ∧
      (m1.tasks = m.tasks ∨ ∃ s, WaitEvent.signalled s ∈ evs ∧ m1.tasks = s.tasks) := by
  intro evs
  induction evs with
  | nil =>
    intro m tl err m1 hret
    by_cases hm : h = m.tasks.revNum
    · rw [GetTaskList.wait, if_pos hm] at hret
      cases hret
    · rw [GetTaskList.wait, if_neg hm] at hret
      injection hret with h1 h2 h3
      injection h1 with h1
      subst h1 h2 h3
      exact ⟨rfl, rfl, fun e => hm e.symm, rfl, Or.inl rfl⟩
  | cons ev evs ih =>
    intro m tl err m1 hret
    by_cases hm : h = m.tasks.revNum
    · rw [GetTaskList.wait, if_pos hm] at hret
      cases ev with
      | cancel => simp at hret
      | signalled s =>
        simp only [] at hret
        obtain ⟨h1, h2, h3, h4, h5⟩ := ih s.Lock tl err m1 hret
        refine ⟨h1, h2, h3, h4, Or.inr ?_⟩
        rcases h5 with h5 | ⟨s1, hs1, h5⟩
        · exact ⟨s, List.mem_cons_self _ _, h5⟩
        · exact ⟨s1, List.mem_cons_of_mem _ hs1, h5⟩
    · rw [GetTaskList.wait, if_neg hm] at hret
      injection hret with h1 h2 h3
      injection h1 with h1
      subst h1 h2 h3
      exact ⟨rfl, rfl, fun e => hm e.symm, rfl, Or.inl rfl⟩

/-- While every wake-up finds the task-list revision equal to the known one,
the wait loop keeps waiting, and a cancel taken by the `select` then makes it
return `ErrCanceled` without a snapshot. -/
theorem GetTaskList_wait_cancel (h : Nat) (post : List WaitEvent) :
    ∀ (pre : List WaitEvent) (m : CtlMgr), m.tasks.revNum = h →
      (∀ ev ∈ pre, ∃ s, ev = WaitEvent.signalled s ∧ s.tasks.revNum = h) →
      ∃ m1, GetTaskList.wait h m (pre ++ WaitEvent.cancel :: post) =
        .returned none (some Error.ErrCanceled) m1 ∧ m1.mu = false := by
  intro pre
  induction pre with
  | nil =>
    intro m hm _
    rw [List.nil_append, GetTaskList.wait, if_pos hm.symm]
    exact ⟨_, rfl, rfl⟩
  | cons ev pre ih =>
    intro m hm hpre
    obtain ⟨s, hs, hsrev⟩ := hpre ev (List.mem_cons_self _ _)
    subst hs
    rw [List.cons_append, GetTaskList.wait, if_pos hm.symm]
    exact ih s.Lock hsrev (fun ev hev => hpre ev (List.mem_cons_of_mem _ hev))

/-- While every wake-up finds the task-list revision equal to the known one,
the wait loop is still blocked, with the mutex free and a wait channel in
place, once the events are used up. -/
theorem GetTaskList_wait_pending (h : Nat) :
    ∀ (pre : List WaitEvent) (m : CtlMgr), m.tasks.revNum = h →
      (∀ ev ∈ pre, ∃ s, ev = WaitEvent.signalled s ∧ s.tasks.revNum = h) →
      ∃ m1, GetTaskList.wait h m pre = .blocked m1 ∧ m1.mu = false ∧
        m1.tasksWaitCh ≠ none ∧ m1.tasks.revNum = h := by
  intro pre
  induction pre with
  | nil =>
    intro m hm _
    rw [GetTaskList.wait, if_pos hm.symm]
    cases hch : m.tasksWaitCh with
    | none => exact ⟨_, rfl, rfl, by simp [CtlMgr.Unlock], hm⟩
    | some ch => exact ⟨_, rfl, rfl, by simp [CtlMgr.Unlock, hch], hm⟩
  | cons ev pre ih =>
    intro m hm hpre
    obtain ⟨s, hs, hsrev⟩ := hpre ev (List.mem_cons_self _ _)
    subst hs
    rw [GetTaskList.wait, if_pos hm.symm]
    exact ih s.Lock hsrev (fun ev hev => hpre ev (List.mem_cons_of_mem _ hev))

/-- The first wake-up that finds a changed task-list revision makes the wait
loop return, with the snapshot of the registry found and the mutex free. -/
theorem GetTaskList_wait_delivers (h : Nat) (s : CtlMgr) (post : List WaitEvent)
    (hs : s.tasks.revNum ≠ h) :
    ∀ (pre : List WaitEvent) (m : CtlMgr), m.tasks.revNum = h →
      (∀ ev ∈ pre, ∃ s0, ev = WaitEvent.signalled s0 ∧ s0.tasks.revNum = h) →
      GetTaskList.wait h m (pre ++ WaitEvent.signalled s :: post) =
        .returned (some (getTaskListLOCKED s)) none s.Unlock := by
  intro pre
  induction pre with
  | nil =>
    intro m hm _
    rw [List.nil_append, GetTaskList.wait, if_pos hm.symm]
    simp only []
    rw [GetTaskList_wait_stale h s.Lock post hs]
    rfl
  | cons ev pre ih =>
    intro m hm hpre
    obtain ⟨s0, hs0, hsrev⟩ := hpre ev (List.mem_cons_self _ _)
    subst hs0
    rw [List.cons_append, GetTaskList.wait, if_pos hm.symm]
    exact ih s0.Lock hsrev (fun ev hev => hpre ev (List.mem_cons_of_mem _ hev))

/-- C8: for a non-empty known revision that decodes to `h`: a snapshot that
`GetTaskList` returns comes with no error, is the snapshot of the registry at
the return, and its revision number differs from `h`; if `h` differs from the
task-list revision on entry the call returns the entry snapshot whatever the
wait events, that is without waiting; if they are equal the call is blocked,
and stays blocked through every wake-up that finds the revision unchanged; at
the first wake-up that finds a changed revision it returns the snapshot of
the registry found, so a returned snapshot is always that of a registry found
at a wake-up with a changed revision; and when the `select` takes the cancel
channel, after any number of wake-ups that found the revision unchanged, the
call returns `ErrCanceled` and no snapshot. -/
theorem GetTaskList_long_poll (m : CtlMgr) (haveTasksRev : Revision) (h : Nat)
    (hlen : haveTasksRev ≠ []) (hdec : DecodeRev haveTasksRev = .ok h) :
    (∀ (evs : List WaitEvent) (tl : TaskList) (err : Option Error) (m1 : CtlMgr),
      GetTaskList m haveTasksRev evs = .returned (some tl) err m1 →
      err = none ∧ tl = getTaskListLOCKED m1 ∧ tl.Rev = EncodeRev m1.tasks.revNum ∧
      m1.tasks.revNum ≠ h ∧
      (m1.tasks = m.tasks ∨ ∃ s, WaitEvent.signalled s ∈ evs ∧ m1.tasks = s.tasks)) ∧
    (m.tasks.revNum ≠ h → ∀ evs : List WaitEvent,
      GetTaskList m haveTasksRev evs = .returned (some (getTaskListLOCKED m)) none m.Unlock) ∧
    (m.tasks.revNum = h → ∃ m1, GetTaskList m haveTasksRev [] = .blocked m1 ∧ m1.mu = false) ∧
    (m.tasks.revNum = h → ∀ pre : List WaitEvent,
      (∀ ev ∈ pre, ∃ s, ev = WaitEvent.signalled s ∧ s.tasks.revNum = h) →
      ∃ m1, GetTaskList m haveTasksRev pre = .blocked m1 ∧ m1.mu = false ∧
        m1.tasksWaitCh ≠ none) ∧
    (m.tasks.revNum = h → ∀ (pre : List WaitEvent) (s : CtlMgr) (post : List WaitEvent),
      (∀ ev ∈ pre, ∃ s0, ev = WaitEvent.signalled s0 ∧ s0.tasks.revNum = h) →
      s.tasks.revNum ≠ h →
      GetTaskList m haveTasksRev (pre ++ WaitEvent.signalled s :: post) =
        .returned (some (getTaskListLOCKED s)) none s.Unlock ∧
      (getTaskListLOCKED s).Rev = EncodeRev s.tasks.revNum ∧
      (getTaskListLOCKED s).Tasks = some (s.tasks.taskHandles.map (fun th => th.task))) ∧
    (m.tasks.revNum = h → ∀ (evs : List WaitEvent) (tl : TaskList) (err : Option Error)
      (m1 : CtlMgr), GetTaskList m haveTasksRev evs = .returned (some tl) err m1 →
      ∃ s, WaitEvent.signalled s ∈ evs ∧ m1.tasks = s.tasks ∧ s.tasks.revNum ≠ h) ∧
    (m.tasks.revNum = h → ∀ pre post : List WaitEvent,
      (∀ ev ∈ pre, ∃ s, ev = WaitEvent.signalled s ∧ s.tasks.revNum = h) →
      ∃ m1, GetTaskList m haveTasksRev (pre ++ WaitEvent.cancel :: post) =
        .returned none (some Error.ErrCanceled) m1) := by
  have hpos : haveTasksRev.length > 0 := List.length_pos.mpr hlen
  have hG : ∀ evs, GetTaskList m haveTasksRev evs = GetTaskList.wait h m.Lock evs := by
    intro evs
    unfold GetTaskList
    simp only [if_pos hpos, hdec]
  have hret : ∀ (evs : List WaitEvent) (tl : TaskList) (err : Option Error) (m1 : CtlMgr),
      GetTaskList m haveTasksRev evs = .returned (some tl) err m1 →
      err = none ∧ tl = getTaskListLOCKED m1 ∧ tl.Rev = EncodeRev m1.tasks.revNum ∧
      m1.tasks.revNum ≠ h ∧
      (m1.tasks = m.tasks ∨ ∃ s, WaitEvent.signalled s ∈ evs ∧ m1.tasks = s.tasks) := by
    intro evs tl err m1 hr
    rw [hG] at hr
    obtain ⟨h1, h2, h3, _, h5⟩ := GetTaskList_wait_returned h evs m.Lock tl err m1 hr
    exact ⟨h1, h2, by rw [h2, getTaskListLOCKED_eq], h3, h5⟩
  refine ⟨hret, ?_, ?_, ?_, ?_, ?_, ?_⟩
  · intro hne evs
    rw [hG, GetTaskList_wait_stale h m.Lock evs hne]
    rfl
  · intro heq
    rw [hG, GetTaskList.wait, if_pos (by exact heq.symm)]
    exact ⟨_, rfl, rfl⟩
  · intro heq pre hpre
    obtain ⟨m1, h1, h2, h3, _⟩ := GetTaskList_wait_pending h pre m.Lock heq hpre
    exact ⟨m1, by rw [hG, h1], h2, h3⟩
  · intro heq pre s post hpre hs
    refine ⟨?_, by rw [getTaskListLOCKED_eq], by rw [getTaskListLOCKED_eq]⟩
    rw [hG]
    exact GetTaskList_wait_delivers h s post hs pre m.Lock heq hpre
  · intro heq evs tl err m1 hr
    obtain ⟨_, _, _, h4, h5⟩ := hret evs tl err m1 hr
    rcases h5 with h5 | ⟨s, hs, h5⟩
    · rw [h5] at h4
      exact absurd heq h4
    · exact ⟨s, hs, h5, by rw [← h5]; exact h4⟩
  · intro heq pre post hpre
    obtain ⟨m1, h1, _⟩ := GetTaskList_wait_cancel h post pre m.Lock heq hpre
    exact ⟨m1, by rw [hG, h1]⟩

/-- Witness of `GetTaskList_long_poll`: the registry after one prepare has
task-list revision 2; a caller that knows revision 1 gets the snapshot at once;
a caller that knows revision 2 is blocked, and when it is woken after the
rebalance was started it returns the snapshot of that registry, of revision 4;
a caller that knows revision 2 and is canceled gets `ErrCanceled`. -/
theorem GetTaskList_long_poll_witness :
    GetTaskList preparedRegistry [49] [] =
      .returned (some (getTaskListLOCKED preparedRegistry)) none preparedRegistry.Unlock ∧
    (GetTaskList preparedRegistry [50] ([] ++ WaitEvent.signalled startedRegistry :: []) =
      .returned (some (getTaskListLOCKED startedRegistry)) none startedRegistry.Unlock ∧
      (getTaskListLOCKED startedRegistry).Rev = EncodeRev startedRegistry.tasks.revNum ∧
      (getTaskListLOCKED startedRegistry).Tasks =
        some (startedRegistry.tasks.taskHandles.map (fun th => th.task))) ∧
    ∃ m1, GetTaskList preparedRegistry [50] ([] ++ WaitEvent.cancel :: []) =
      .returned none (some Error.ErrCanceled) m1 :=
  ⟨(GetTaskList_long_poll preparedRegistry [49] 1 (by decide) (by decide)).2.1 (by decide) [],
   (GetTaskList_long_poll preparedRegistry [50] 2 (by decide) (by decide)).2.2.2.2.1 (by decide)
     [] startedRegistry [] (by intro ev hev; simp at hev) (by decide),
   (GetTaskList_long_poll preparedRegistry [50] 2 (by decide) (by decide)).2.2.2.2.2.2
     (by decide) [] [] (by intro ev hev; simp at hev)⟩

/-! ## Revisions along a run -/

theorem issued_append (m : CtlMgr) (evs : List Event) :
    issued { m with trace := m.trace ++ evs } =
      issued m ++ evs.filterMap (fun e => match e with | .allocRev rv => some rv | _ => none) := by
  simp [issued, List.filterMap_append]

theorem issued_mono {m m1 : CtlMgr} (h : m.trace <+: m1.trace) : issued m <+: issued m1 :=
  List.IsPrefix.filterMap _ h

theorem Advances_refl (m : CtlMgr) : Advances m m :=
  ⟨List.prefix_refl _, fun _ hg => ⟨hg, Or.inl rfl⟩⟩

theorem Advances_trans {a b c : CtlMgr} (hab : Advances a b) (hbc : Advances b c) :
    Advances a c := by
  refine ⟨hab.1.trans hbc.1, fun hbound hg => ?_⟩
  have hb : ∀ r ∈ issued b, r < 2 ^ 64 - 1 :=
    fun r hr => hbound r ((issued_mono hbc.1).subset hr)
  obtain ⟨hgb, htb⟩ := hab.2 hb hg
  obtain ⟨hgc, htc⟩ := hbc.2 hbound hgb
  refine ⟨hgc, ?_⟩
  rcases htb with htb | htb <;> rcases htc with htc | htc
  · exact Or.inl (htc.trans htb)
  · exact Or.inr (by rw [← htb]; exact htc)
  · exact Or.inr (by rw [htc]; exact htb)
  · exact Or.inr (lt_trans htb htc)

/-- A registry that agrees with `m` on history, counter and tasks comes after
it. -/
theorem Advances_of_same {m m1 : CtlMgr} (ht : m1.trace = m.trace)
    (hn : m1.revNumNext = m.revNumNext) (hk : m1.tasks = m.tasks) : Advances m m1 := by
  refine ⟨by rw [ht], fun _ hg => ⟨?_, Or.inl hk⟩⟩
  unfold Good issued at *
  rw [ht, hn, hk]
  exact hg

theorem Advances_lock (m : CtlMgr) : Advances m m.Lock := Advances_of_same rfl rfl rfl

theorem Advances_unlock (m : CtlMgr) : Advances m m.Unlock := Advances_of_same rfl rfl rfl

/-- Logging a call that is not an allocation. -/
theorem Advances_log (m : CtlMgr) (e : Event) (he : ∀ rv, e ≠ Event.allocRev rv) :
    Advances m (m.log e) := by
  have hi : issued (m.log e) = issued m := by
    unfold CtlMgr.log
    rw [issued_append]
    cases e <;> simp at he ⊢
  refine ⟨List.prefix_append _ _, fun _ hg => ⟨?_, Or.inl rfl⟩⟩
  unfold Good at *
  rw [hi]
  exact hg

/-- In a consistent registry an allocation from `0` or from the task-list
revision returns the counter. -/
theorem allocRevNumLOCKED_good (m : CtlMgr) (prev : Nat) (hg : Good m)
    (hprev : prev = 0 ∨ prev = m.tasks.revNum) :
    (allocRevNumLOCKED m prev).1 = m.revNumNext := by
  obtain ⟨h1, h2, _, _⟩ := hg
  have hp : prev + 1 ≤ m.revNumNext := by rcases hprev with h | h <;> omega
  have hmod : (prev + 1) % 2 ^ 64 = prev + 1 := Nat.mod_eq_of_lt (by omega)
  simp only [allocRevNumLOCKED, hmod]
  split <;> omega

theorem allocRevNumLOCKED_advances (m : CtlMgr) (prev : Nat)
    (hprev : prev = 0 ∨ prev = m.tasks.revNum) :
    Advances m (allocRevNumLOCKED m prev).2 := by
  have htr : (allocRevNumLOCKED m prev).2.trace =
      m.trace ++ [Event.allocRev (allocRevNumLOCKED m prev).1] := rfl
  have hiss : issued (allocRevNumLOCKED m prev).2 = issued m ++ [(allocRevNumLOCKED m prev).1] := by
    simp [issued, htr, List.filterMap_append]
  refine ⟨by rw [htr]; exact List.prefix_append _ _, fun hbound hg => ⟨?_, Or.inl rfl⟩⟩
  have hrv := allocRevNumLOCKED_good m prev hg hprev
  have hlt : (allocRevNumLOCKED m prev).1 < 2 ^ 64 - 1 :=
    hbound _ (by rw [hiss]; simp)
  have hnext : (allocRevNumLOCKED m prev).2.revNumNext = m.revNumNext + 1 := by
    show ((allocRevNumLOCKED m prev).1 + 1) % 2 ^ 64 = m.revNumNext + 1
    rw [hrv] at hlt ⊢
    exact Nat.mod_eq_of_lt (by omega)
  obtain ⟨h1, h2, h3, h4⟩ := hg
  rw [hrv] at hlt
  refine ⟨?_, ?_, ?_, ?_⟩
  · show m.tasks.revNum < (allocRevNumLOCKED m prev).2.revNumNext
    omega
  · omega
  · intro r hr
    rw [hiss, hrv] at hr
    rw [hnext]
    rcases List.mem_append.mp hr with hr | hr
    · exact lt_trans (h3 r hr) (Nat.lt_succ_self _)
    · rw [List.mem_singleton.mp hr]
      exact Nat.lt_succ_self _
  · rw [hiss, hrv]
    refine List.pairwise_append.mpr ⟨h4, List.pairwise_singleton _ _, ?_⟩
    intro a ha b hb
    rw [List.mem_singleton.mp hb]
    exact h3 a ha

theorem updateTasksLOCKED_advances (m : CtlMgr) (l : List taskHandle) :
    Advances m (updateTasksLOCKED m (fun s => { s with taskHandles := l })) := by
  have ha := allocRevNumLOCKED_advances m m.tasks.revNum (Or.inr rfl)
  rw [updateTasksLOCKED_eq]
  have hiss : ∀ w : Option Nat, issued
      { mu := m.mu,
        revNumNext := ((allocRevNumLOCKED m m.tasks.revNum).1 + 1) % 2 ^ 64,
        tasks := { revNum := (allocRevNumLOCKED m m.tasks.revNum).1, taskHandles := l },
        tasksWaitCh := none,
        chFresh := m.chFresh,
        trace := m.trace ++ Event.allocRev (allocRevNumLOCKED m m.tasks.revNum).1 ::
          (match w with
           | some ch => [Event.closeCh ch]
           | none => []) } = issued (allocRevNumLOCKED m m.tasks.revNum).2 := by
    intro w
    cases w <;> simp [issued, allocRevNumLOCKED, List.filterMap_append]
  refine ⟨List.prefix_append _ _, fun hbound hg => ?_⟩
  rw [hiss] at hbound
  obtain ⟨⟨_, g2, g3, g4⟩, _⟩ := ha.2 hbound hg
  have hrv := allocRevNumLOCKED_good m m.tasks.revNum hg (Or.inr rfl)
  have hlt : (allocRevNumLOCKED m m.tasks.revNum).1 < 2 ^ 64 - 1 :=
    hbound _ (by simp [issued, allocRevNumLOCKED, List.filterMap_append])
  refine ⟨⟨?_, g2, ?_, ?_⟩, Or.inr ?_⟩
  · show (allocRevNumLOCKED m m.tasks.revNum).1 <
      ((allocRevNumLOCKED m m.tasks.revNum).1 + 1) % 2 ^ 64
    rw [Nat.mod_eq_of_lt (by omega)]
    exact Nat.lt_succ_self _
  · rw [hiss]
    exact g3
  · rw [hiss]
    exact g4
  · show m.tasks.revNum < (allocRevNumLOCKED m m.tasks.revNum).1
    rw [hrv]
    exact hg.1

theorem Frame_refl (m : CtlMgr) : Frame m m := ⟨rfl, rfl, rfl, rfl⟩

theorem Frame_trans {a b c : CtlMgr} (hab : Frame a b) (hbc : Frame b c) : Frame a c :=
  ⟨hbc.1.trans hab.1, hbc.2.1.trans hab.2.1, hbc.2.2.1.trans hab.2.2.1,
    hbc.2.2.2.trans hab.2.2.2⟩

theorem CancelTask_loop_advances (taskId : String) (taskRev : Option Revision)
    (l : List taskHandle) (m : CtlMgr) (c : Bool) (acc : List taskHandle) :
    Advances m (CancelTask.loop taskId taskRev l m c acc).1 ∧
    Frame m (CancelTask.loop taskId taskRev l m c acc).1 ∧
    (CancelTask.loop taskId taskRev l m c acc).1.revNumNext = m.revNumNext := by
  obtain ⟨evs, h1, h2⟩ := CancelTask_loop_state taskId taskRev l m c acc
  rw [h1]
  refine ⟨⟨List.prefix_append _ _, fun _ hg => ⟨?_, Or.inl rfl⟩⟩, ⟨rfl, rfl, rfl, rfl⟩, rfl⟩
  have hi : issued { m with trace := m.trace ++ evs } = issued m := by
    rw [issued_append]
    have : evs.filterMap (fun e => match e with | .allocRev rv => some rv | _ => none) = [] := by
      apply List.filterMap_eq_nil_iff.mpr
      intro e he
      obtain ⟨rev, hrev⟩ := h2 e he
      rw [hrev]
    rw [this, List.append_nil]
  unfold Good at *
  rw [hi]
  exact hg

theorem startTopologyChangeTaskHandleLOCKED_advances (m : CtlMgr)
    (outcome : CtlChangeTopology → Except Error Revision) (now : Nat) (change : TopologyChange) :
    Advances m (startTopologyChangeTaskHandleLOCKED m outcome now change).1 ∧
    Frame m (startTopologyChangeTaskHandleLOCKED m outcome now change).1 := by
  unfold startTopologyChangeTaskHandleLOCKED
  cases change.Type_ with
  | TopologyChangeTypeOther => exact ⟨Advances_refl m, Frame_refl m⟩
  | TopologyChangeTypeRebalance =>
    simp only []
    split
    · exact ⟨Advances_log m _ (by intro rv; simp), ⟨rfl, rfl, rfl, rfl⟩⟩
    · exact ⟨Advances_trans (Advances_log m _ (by intro rv; simp))
        (allocRevNumLOCKED_advances _ _ (Or.inr rfl)), ⟨rfl, rfl, rfl, rfl⟩⟩
  | TopologyChangeTypeFailover =>
    simp only []
    split
    · exact ⟨Advances_log m _ (by intro rv; simp), ⟨rfl, rfl, rfl, rfl⟩⟩
    · exact ⟨Advances_trans (Advances_log m _ (by intro rv; simp))
        (allocRevNumLOCKED_advances _ _ (Or.inr rfl)), ⟨rfl, rfl, rfl, rfl⟩⟩

theorem StartTopologyChange_loop_advances
    (engine : Nat → CtlChangeTopology → Except Error Revision) (now : Nat)
    (change : TopologyChange) :
    ∀ (l : List taskHandle) (m : CtlMgr) (k : Nat) (s : Bool) (acc : List taskHandle),
      Advances m (StartTopologyChange.loop engine now change l m k s acc).1 ∧
      Frame m (StartTopologyChange.loop engine now change l m k s acc).1 := by
  intro l
  induction l with
  | nil => intro m k s acc; exact ⟨Advances_refl m, Frame_refl m⟩
  | cons x rest ih =>
    intro m k s acc
    unfold StartTopologyChange.loop
    by_cases h1 : x.task.Type_ = TaskType.TaskTypeRebalance
    · rw [if_pos h1]
      exact ⟨Advances_refl m, Frame_refl m⟩
    · rw [if_neg h1]
      by_cases h2 : x.task.Type_ = TaskType.TaskTypePrepared
      · rw [if_pos h2]
        have hs := startTopologyChangeTaskHandleLOCKED_advances m (engine k) now change
        rcases hst : startTopologyChangeTaskHandleLOCKED m (engine k) now change with ⟨m1, res⟩
        rw [hst] at hs
        cases res with
        | error err => exact hs
        | ok th1 =>
          have := ih m1 (k + 1) true (acc ++ [th1])
          exact ⟨Advances_trans hs.1 this.1, Frame_trans hs.2 this.2⟩
      · rw [if_neg h2]
        exact ih m k s (acc ++ [x])

theorem updateProgress_loop_advances (taskId : String) (p : Option ProgressEntries)
    (errs : List String) (progress : ℚ) :
    ∀ (l : List taskHandle) (m : CtlMgr) (u : Bool) (acc : List taskHandle),
      Advances m (updateProgress.loop taskId p errs progress l m u acc).1 ∧
      Frame m (updateProgress.loop taskId p errs progress l m u acc).1 := by
  intro l
  induction l with
  | nil => intro m u acc; exact ⟨Advances_refl m, Frame_refl m⟩
  | cons x rest ih =>
    intro m u acc
    unfold updateProgress.loop
    by_cases h1 : x.task.Id = taskId
    · rw [if_pos h1]
      by_cases h2 : p.isSome ∨ errs.length > 0
      · rw [if_pos h2]
        have := ih (allocRevNumLOCKED m 0).2 true
          (acc ++ [updateProgress.handleNext p errs progress x (allocRevNumLOCKED m 0).1])
        exact ⟨Advances_trans (allocRevNumLOCKED_advances m 0 (Or.inl rfl)) this.1,
          Frame_trans ⟨rfl, rfl, rfl, rfl⟩ this.2⟩
      · rw [if_neg h2]
        exact ih m true acc
    · rw [if_neg h1]
      exact ih m u (acc ++ [x])

theorem CancelTask_advances (m : CtlMgr) (taskId : String) (taskRev : Option Revision) :
    Advances m (CancelTask m taskId taskRev).1 := by
  have hl := (CancelTask_loop_advances taskId taskRev m.Lock.tasks.taskHandles m.Lock false []).1
  unfold CancelTask
  simp only []
  rcases hloop : CancelTask.loop taskId taskRev m.Lock.tasks.taskHandles m.Lock false []
    with ⟨m1, res⟩
  rw [hloop] at hl
  have h1 : Advances m m1 := Advances_trans (Advances_lock m) hl
  rcases res with err | ⟨c, next⟩
  · exact Advances_trans h1 (Advances_unlock m1)
  · cases c
    · exact Advances_trans h1 (Advances_unlock m1)
    · exact Advances_trans (Advances_trans h1 (updateTasksLOCKED_advances m1 next)) (Advances_unlock _)

theorem PrepareTopologyChange_advances (m : CtlMgr) (topologyRev : Revision) (now : Nat)
    (change : TopologyChange) :
    Advances m (PrepareTopologyChange m topologyRev now change).1 := by
  unfold PrepareTopologyChange
  simp only []
  split
  · exact Advances_trans (Advances_lock m) (Advances_unlock _)
  · split
    · exact Advances_trans (Advances_lock m) (Advances_unlock _)
    · exact Advances_trans (Advances_trans (Advances_trans (Advances_lock m)
        (allocRevNumLOCKED_advances m.Lock 0 (Or.inl rfl)))
        (updateTasksLOCKED_advances _ _)) (Advances_unlock _)

theorem StartTopologyChange_advances (m : CtlMgr) (topologyRev : Revision)
    (engine : Nat → CtlChangeTopology → Except Error Revision) (now : Nat)
    (change : TopologyChange) :
    Advances m (StartTopologyChange m topologyRev engine now change).1 := by
  have hl := (StartTopologyChange_loop_advances engine now change m.Lock.tasks.taskHandles
    m.Lock 0 false []).1
  unfold StartTopologyChange
  simp only []
  split
  · exact Advances_trans (Advances_lock m) (Advances_unlock _)
  · rcases hloop : StartTopologyChange.loop engine now change m.Lock.tasks.taskHandles
      m.Lock 0 false [] with ⟨m1, res⟩
    rw [hloop] at hl
    have h1 : Advances m m1 := Advances_trans (Advances_lock m) hl
    rcases res with err | ⟨c, next⟩
    · exact Advances_trans h1 (Advances_unlock m1)
    · cases c
      · exact Advances_trans h1 (Advances_unlock m1)
      · exact Advances_trans (Advances_trans h1 (updateTasksLOCKED_advances m1 next)) (Advances_unlock _)

theorem updateProgress_advances (m : CtlMgr) (taskId : String) (p : Option ProgressEntries)
    (errs : List String) : Advances m (updateProgress m taskId p errs) := by
  have hl := (updateProgress_loop_advances taskId p errs (updateProgress.progress p)
    m.Lock.tasks.taskHandles m.Lock false []).1
  unfold updateProgress
  simp only []
  rcases hloop : updateProgress.loop taskId p errs (updateProgress.progress p)
    m.Lock.tasks.taskHandles m.Lock false [] with ⟨m1, u, next⟩
  rw [hloop] at hl
  have h1 : Advances m m1 := Advances_trans (Advances_lock m) hl
  cases u
  · exact Advances_trans h1 (Advances_unlock m1)
  · exact Advances_trans (Advances_trans h1 (updateTasksLOCKED_advances m1 next)) (Advances_unlock _)

theorem step_advances (m : CtlMgr) (op : Op) : Advances m (step m op) := by
  cases op with
  | prepare topologyRev now change => exact PrepareTopologyChange_advances m topologyRev now change
  | start topologyRev engine now change =>
    exact StartTopologyChange_advances m topologyRev engine now change
  | cancel taskId taskRev => exact CancelTask_advances m taskId taskRev
  | progress taskId p errs => exact updateProgress_advances m taskId p errs

theorem run_advances (ops : List Op) : ∀ m : CtlMgr, Advances m (run m ops) := by
  induction ops with
  | nil => intro m; exact Advances_refl m
  | cons op ops ih => intro m; exact Advances_trans (step_advances m op) (ih (step m op))

theorem run_append (m : CtlMgr) (pre post : List Op) :
    run m (pre ++ post) = run (run m pre) post := by
  simp [run, List.foldl_append]

theorem Good_NewCtlMgr : Good NewCtlMgr := by
  refine ⟨by decide, by decide, ?_, ?_⟩
  · intro r hr
    simp [issued, NewCtlMgr] at hr
  · simp [issued, NewCtlMgr]

/-- C1: along every run from `NewCtlMgr` of prepare, start, cancel and
progress calls, with any arguments and engine answers, in which no issued
revision reaches `2 ^ 64 - 1`: the revisions returned by `allocRevNumLOCKED`,
in the order of the calls, are strictly increasing (each is greater than all
before it, no two are equal), and every call that changes the tasks leaves a
task-list revision strictly greater than before the call. -/
theorem revisions_strictly_increasing (ops : List Op)
    (hbound : ∀ r ∈ issued (run NewCtlMgr ops), r < 2 ^ 64 - 1) :
    (issued (run NewCtlMgr ops)).Pairwise (fun a b => a < b) ∧
    ∀ (pre : List Op) (op : Op) (post : List Op), ops = pre ++ op :: post →
      (step (run NewCtlMgr pre) op).tasks ≠ (run NewCtlMgr pre).tasks →
      (run NewCtlMgr pre).tasks.revNum < (step (run NewCtlMgr pre) op).tasks.revNum := by
  refine ⟨((run_advances ops NewCtlMgr).2 hbound Good_NewCtlMgr).1.2.2.2, ?_⟩
  intro pre op post hops hchg
  have hrun : run NewCtlMgr ops = run (step (run NewCtlMgr pre) op) post := by
    rw [hops, run_append]
    rfl
  have hb1 : ∀ r ∈ issued (step (run NewCtlMgr pre) op), r < 2 ^ 64 - 1 := by
    intro r hr
    apply hbound
    rw [hrun]
    exact (issued_mono (run_advances post _).1).subset hr
  have hb0 : ∀ r ∈ issued (run NewCtlMgr pre), r < 2 ^ 64 - 1 :=
    fun r hr => hb1 r ((issued_mono (step_advances _ op).1).subset hr)
  have hg0 := ((run_advances pre NewCtlMgr).2 hb0 Good_NewCtlMgr).1
  rcases ((step_advances (run NewCtlMgr pre) op).2 hb1 hg0).2 with h | h
  · exact absurd h hchg
  · exact h

/-- Witness of `revisions_strictly_increasing`: prepare, start, one progress
callback, cancel; the revisions issued are 1 to 7. -/
theorem revisions_strictly_increasing_witness :
    (issued (run NewCtlMgr
      [.prepare [] 0 sampleChange, .start [] sampleEngine 0 sampleChange,
       .progress "rebalance:a" (some sampleEntries) [], .cancel "rebalance:a" none])).Pairwise
      (fun a b => a < b) :=
  (revisions_strictly_increasing
    [.prepare [] 0 sampleChange, .start [] sampleEngine 0 sampleChange,
     .progress "rebalance:a" (some sampleEntries) [], .cancel "rebalance:a" none]
    (by decide)).1

/-! ## One topology change at a time -/

theorem startTopologyChangeTaskHandleLOCKED_type (m : CtlMgr)
    (outcome : CtlChangeTopology → Except Error Revision) (now : Nat) (change : TopologyChange)
    (th : taskHandle)
    (h : (startTopologyChangeTaskHandleLOCKED m outcome now change).2 = .ok th) :
    th.task.Type_ = TaskType.TaskTypeRebalance := by
  unfold startTopologyChangeTaskHandleLOCKED at h
  cases hc : change.Type_ <;> rw [hc] at h <;> simp only [] at h
  · split at h
    · simp at h
    · injection h with h
      rw [← h]
  · split at h
    · simp at h
    · injection h with h
      rw [← h]
  · simp at h

/-- A start that runs its loop to the end leaves as many Prepared or Rebalance
tasks as it found. -/
theorem StartTopologyChange_loop_countP
    (engine : Nat → CtlChangeTopology → Except Error Revision) (now : Nat)
    (change : TopologyChange) :
    ∀ (l : List taskHandle) (m : CtlMgr) (k : Nat) (s : Bool) (acc : List taskHandle)
      (s1 : Bool) (next : List taskHandle),
      (StartTopologyChange.loop engine now change l m k s acc).2 = .ok (s1, next) →
      next.countP isPreparedOrRebalance =
        acc.countP isPreparedOrRebalance + l.countP isPreparedOrRebalance := by
  intro l
  induction l with
  | nil =>
    intro m k s acc s1 next h
    simp [StartTopologyChange.loop] at h
    simp [h.2]
  | cons x rest ih =>
    intro m k s acc s1 next h
    unfold StartTopologyChange.loop at h
    by_cases h1 : x.task.Type_ = TaskType.TaskTypeRebalance
    · rw [if_pos h1] at h
      simp at h
    · rw [if_neg h1] at h
      by_cases h2 : x.task.Type_ = TaskType.TaskTypePrepared
      · rw [if_pos h2] at h
        rcases hst : startTopologyChangeTaskHandleLOCKED m (engine k) now change with ⟨m1, res⟩
        rw [hst] at h
        cases res with
        | error err => simp at h
        | ok th1 =>
          have hty := startTopologyChangeTaskHandleLOCKED_type m (engine k) now change th1
            (by rw [hst])
          rw [ih _ _ _ _ _ _ h]
          have hx : isPreparedOrRebalance x = true := by simp [isPreparedOrRebalance, h2]
          have hth : isPreparedOrRebalance th1 = true := by simp [isPreparedOrRebalance, hty]
          simp [List.countP_append, List.countP_cons, hx, hth]
          omega
      · rw [if_neg h2] at h
        rw [ih _ _ _ _ _ _ h]
        simp [List.countP_append, List.countP_cons]
        omega

/-- A progress callback does not add Prepared or Rebalance tasks. -/
theorem updateProgress_loop_countP (taskId : String) (p : Option ProgressEntries)
    (errs : List String) (progress : ℚ) :
    ∀ (l : List taskHandle) (m : CtlMgr) (u : Bool) (acc : List taskHandle),
      (updateProgress.loop taskId p errs progress l m u acc).2.2.countP isPreparedOrRebalance ≤
        acc.countP isPreparedOrRebalance + l.countP isPreparedOrRebalance := by
  intro l
  induction l with
  | nil => intro m u acc; simp [updateProgress.loop]
  | cons x rest ih =>
    intro m u acc
    unfold updateProgress.loop
    by_cases h1 : x.task.Id = taskId
    · rw [if_pos h1]
      by_cases h2 : p.isSome ∨ errs.length > 0
      · rw [if_pos h2]
        refine le_trans (ih _ _ _) ?_
        have : isPreparedOrRebalance
            (updateProgress.handleNext p errs progress x (allocRevNumLOCKED m 0).1) =
            isPreparedOrRebalance x := rfl
        simp [List.countP_append, List.countP_cons, this]
        omega
      · rw [if_neg h2]
        refine le_trans (ih _ _ _) ?_
        simp [List.countP_cons]
    · rw [if_neg h1]
      refine le_trans (ih _ _ _) ?_
      simp [List.countP_append, List.countP_cons]
      omega

/-- Every call keeps the number of Prepared or Rebalance tasks at one or
less. -/
theorem step_countP (m : CtlMgr) (op : Op)
    (h : m.tasks.taskHandles.countP isPreparedOrRebalance ≤ 1) :
    (step m op).tasks.taskHandles.countP isPreparedOrRebalance ≤ 1 := by
  cases op with
  | prepare topologyRev now change =>
    show (PrepareTopologyChange m topologyRev now change).1.tasks.taskHandles.countP _ ≤ 1
    unfold PrepareTopologyChange
    simp only []
    split
    · exact h
    · split
      · exact h
      · rename_i hany
        rw [updateTasksLOCKED_eq]
        show (m.tasks.taskHandles ++ [_]).countP isPreparedOrRebalance ≤ 1
        have h0 : m.tasks.taskHandles.countP isPreparedOrRebalance = 0 := by
          apply List.countP_eq_zero.mpr
          intro th hth hp
          exact hany (List.any_eq_true.mpr ⟨th, hth, hp⟩)
        rw [List.countP_append, h0]
        simp only [List.countP_cons, List.countP_nil]
        split <;> omega
  | start topologyRev engine now change =>
    show (StartTopologyChange m topologyRev engine now change).1.tasks.taskHandles.countP _ ≤ 1
    have hl := (StartTopologyChange_loop_advances engine now change m.Lock.tasks.taskHandles
      m.Lock 0 false []).2.1
    have hc := StartTopologyChange_loop_countP engine now change m.Lock.tasks.taskHandles
      m.Lock 0 false []
    unfold StartTopologyChange
    simp only []
    split
    · exact h
    · rcases hloop : StartTopologyChange.loop engine now change m.Lock.tasks.taskHandles
        m.Lock 0 false [] with ⟨m1, res⟩
      rw [hloop] at hl hc
      have hm1 : m1.tasks = m.tasks := hl
      rcases res with err | ⟨c, next⟩
      · show m1.tasks.taskHandles.countP _ ≤ 1
        rw [hm1]
        exact h
      · cases c
        · show m1.tasks.taskHandles.countP _ ≤ 1
          rw [hm1]
          exact h
        · have := hc true next rfl
          simp only [if_neg (by simp : ¬ (true = false))]
          rw [updateTasksLOCKED_eq]
          show next.countP isPreparedOrRebalance ≤ 1
          rw [this]
          simpa using h
  | cancel taskId taskRev =>
    show (CancelTask m taskId taskRev).1.tasks.taskHandles.countP _ ≤ 1
    have hl := (CancelTask_loop_advances taskId taskRev m.Lock.tasks.taskHandles
      m.Lock false []).2.1.1
    have hc := CancelTask_loop_ok taskId taskRev m.Lock.tasks.taskHandles m.Lock false []
    unfold CancelTask
    simp only []
    rcases hloop : CancelTask.loop taskId taskRev m.Lock.tasks.taskHandles m.Lock false []
      with ⟨m1, res⟩
    rw [hloop] at hl hc
    have hm1 : m1.tasks = m.tasks := hl
    rcases res with err | ⟨c, next⟩
    · show m1.tasks.taskHandles.countP _ ≤ 1
      rw [hm1]
      exact h
    · cases c
      · show m1.tasks.taskHandles.countP _ ≤ 1
        rw [hm1]
        exact h
      · have := (hc true next rfl).1
        simp only [if_neg (by simp : ¬ (true = false))]
        rw [updateTasksLOCKED_eq]
        show next.countP isPreparedOrRebalance ≤ 1
        rw [this, List.nil_append]
        exact le_trans (List.Sublist.countP_le _ (List.filter_sublist _)) h
  | progress taskId p errs =>
    show (updateProgress m taskId p errs).tasks.taskHandles.countP _ ≤ 1
    have hl := (updateProgress_loop_advances taskId p errs (updateProgress.progress p)
      m.Lock.tasks.taskHandles m.Lock false []).2.1
    have hc := updateProgress_loop_countP taskId p errs (updateProgress.progress p)
      m.Lock.tasks.taskHandles m.Lock false []
    unfold updateProgress
    simp only []
    rcases hloop : updateProgress.loop taskId p errs (updateProgress.progress p)
      m.Lock.tasks.taskHandles m.Lock false [] with ⟨m1, u, next⟩
    rw [hloop] at hl hc
    have hm1 : m1.tasks = m.tasks := hl
    cases u
    · show m1.tasks.taskHandles.countP _ ≤ 1
      rw [hm1]
      exact h
    · simp only [if_neg (by simp : ¬ (true = false))]
      rw [updateTasksLOCKED_eq]
      show next.countP isPreparedOrRebalance ≤ 1
      refine le_trans hc ?_
      simpa using h

theorem run_countP (ops : List Op) : ∀ m : CtlMgr,
    m.tasks.taskHandles.countP isPreparedOrRebalance ≤ 1 →
    (run m ops).tasks.taskHandles.countP isPreparedOrRebalance ≤ 1 := by
  induction ops with
  | nil => intro m h; exact h
  | cons op ops ih => intro m h; exact ih _ (step_countP m op h)

/-- C3: in every registry reached from `NewCtlMgr` by prepare, start, cancel
and progress calls, at most one task is of type Prepared or Rebalance. -/
theorem at_most_one_topology_change (ops : List Op) :
    ((run NewCtlMgr ops).tasks.taskHandles.filter
      (fun th => th.task.Type_ = TaskType.TaskTypePrepared ∨
        th.task.Type_ = TaskType.TaskTypeRebalance)).length ≤ 1 := by
  have h := run_countP ops NewCtlMgr (by decide)
  rw [List.countP_eq_length_filter] at h
  have he : (fun th : taskHandle => decide (th.task.Type_ = TaskType.TaskTypePrepared ∨
      th.task.Type_ = TaskType.TaskTypeRebalance)) = isPreparedOrRebalance := by
    funext th
    simp [isPreparedOrRebalance]
  rw [he]
  exact h

/-! ## `EncodeRev` and `DecodeRev` -/

/-- The digits of `EncodeRev` are never the empty list once the accumulator
is not. -/
theorem EncodeRev_digits_ne_nil : ∀ (fuel n : Nat) (acc : List Nat),
    acc ≠ [] → EncodeRev.digits fuel n acc ≠ [] := by
  intro fuel
  induction fuel with
  | zero => intro n acc h; simpa [EncodeRev.digits] using h
  | succ fuel ih =>
    intro n acc _
    unfold EncodeRev.digits
    split
    · simp
    · exact ih _ _ (by simp)

theorem EncodeRev_ne_nil (n : Nat) : EncodeRev n ≠ [] := by
  unfold EncodeRev EncodeRev.digits
  split
  · simp
  · exact EncodeRev_digits_ne_nil _ _ _ (by simp)

/-- Reading the digits written for `n` in front of `acc` brings the loop of
`DecodeRev` from `0` to `n`. -/
theorem DecodeRev_loop_digits : ∀ (fuel n : Nat) (acc : List Nat),
    n < fuel → n < 2 ^ 64 →
    DecodeRev.loop (EncodeRev.digits fuel n acc) 0 = DecodeRev.loop acc n := by
  intro fuel
  induction fuel with
  | zero => intro n acc h; omega
  | succ fuel ih =>
    intro n acc hf hn
    unfold EncodeRev.digits
    by_cases h10 : n / 10 = 0
    · rw [if_pos h10]
      have hlt : n < 10 := by omega
      have hmod : n % 10 = n := Nat.mod_eq_of_lt hlt
      rw [hmod, DecodeRev.loop]
      rw [if_pos (by omega), if_neg (by omega), if_neg (by omega)]
      congr 1
      omega
    · rw [if_neg h10]
      rw [ih (n / 10) _ (by omega) (by omega), DecodeRev.loop]
      rw [if_pos (by omega), if_neg (by omega), if_neg (by omega)]
      congr 1
      omega

/-- C20: for every revision number `n` of 64 bits, `DecodeRev (EncodeRev n)`
succeeds and returns `n`; hence `EncodeRev` is injective on 64-bit numbers. -/
theorem DecodeRev_EncodeRev (n : Nat) (hn : n < 2 ^ 64) :
    DecodeRev (EncodeRev n) = .ok n ∧
    ∀ k : Nat, k < 2 ^ 64 → EncodeRev n = EncodeRev k → n = k := by
  have key : ∀ a : Nat, a < 2 ^ 64 → DecodeRev (EncodeRev a) = .ok a := by
    intro a ha
    have hne := EncodeRev_ne_nil a
    unfold DecodeRev
    split
    · rename_i heq
      exact absurd heq hne
    · unfold EncodeRev
      rw [DecodeRev_loop_digits (a + 1) a [] (Nat.lt_succ_self _) ha]
      rfl
  refine ⟨key n hn, fun k hk heq => ?_⟩
  have h1 := key n hn
  rw [heq, key k hk] at h1
  injection h1 with h1
  exact h1.symm

/-- Witness of `DecodeRev_EncodeRev`: the largest 64-bit number. -/
theorem DecodeRev_EncodeRev_witness :
    DecodeRev (EncodeRev (2 ^ 64 - 1)) = .ok (2 ^ 64 - 1) :=
  (DecodeRev_EncodeRev (2 ^ 64 - 1) (by decide)).1

/-- C19: `GetTaskList` called with an empty known revision returns, whatever
the wait events (so without waiting), no error and a task list whose `Rev` is
`EncodeRev` of the task-list revision and whose `Tasks` are, in a slice that
is not nil, the tasks of all handles in registry order (the empty slice, not
the nil one, when the registry has no tasks); the registry left behind has the
tasks, the task-list revision, the counter, the wait channel, the channel
identities and the history it had before, and its mutex is free. -/
theorem GetTaskList_no_revision (m : CtlMgr) (evs : List WaitEvent) :
    (∃ m1, GetTaskList m [] evs =
      .returned
        (some { Rev := EncodeRev m.tasks.revNum,
                Tasks := some (m.tasks.taskHandles.map (fun th => th.task)) })
        none m1 ∧
      m1.tasks = m.tasks ∧ m1.revNumNext = m.revNumNext ∧ m1.tasksWaitCh = m.tasksWaitCh ∧
      m1.chFresh = m.chFresh ∧ m1.trace = m.trace ∧ m1.mu = false) ∧
    (getTaskListLOCKED m).Tasks ≠ none ∧
    (m.tasks.taskHandles = [] → (getTaskListLOCKED m).Tasks = some []) := by
  have h : GetTaskList m [] evs = .returned (some (getTaskListLOCKED m)) none m.Unlock := rfl
  refine ⟨⟨m.Unlock, ?_, rfl, rfl, rfl, rfl, rfl, rfl⟩, ?_, ?_⟩
  · rw [h, getTaskListLOCKED_eq]
  · rw [getTaskListLOCKED_eq]
    exact fun hn => Option.noConfusion hn
  · intro hnil
    rw [getTaskListLOCKED_eq, hnil]
    rfl

/-! ## The error message of a progress callback -/

/-- While the text built so far is not empty, the loop of
`updateProgress.errorMessage` is the accumulating loop of a newline join. -/
theorem errorMessage_foldl_go : ∀ (es : List String) (acc : String), acc.length > 0 →
    es.foldl (fun msg err => (if msg.length > 0 then msg ++ "\n" else msg) ++ err) acc =
      String.intercalate.go acc "\n" es := by
  intro es
  induction es with
  | nil => intro acc _; rfl
  | cons e es ih =>
    intro acc hacc
    rw [List.foldl_cons, if_pos hacc, String.intercalate.go]
    apply ih
    rw [String.length_append, String.length_append]
    omega

/-- The message built from a list whose first message is not empty is the
newline join of the list. -/
theorem errorMessage_cons (e : String) (es : List String) (he : e ≠ "") :
    updateProgress.errorMessage (e :: es) = "\n".intercalate (e :: es) := by
  have hlen : e.length > 0 := by
    rcases e with ⟨cs⟩
    cases cs with
    | nil => exact absurd rfl he
    | cons c cs => simp [String.length]
  unfold updateProgress.errorMessage
  rw [List.foldl_cons]
  have h0 : (if ("" : String).length > 0 then "" ++ "\n" else "") ++ e = e := by
    rw [if_neg (by decide)]
    exact String.empty_append e
  rw [h0, errorMessage_foldl_go es e hlen]
  rfl

/-- Empty messages at the front of the list leave no mark. -/
theorem errorMessage_dropWhile : ∀ errs : List String,
    updateProgress.errorMessage errs =
      updateProgress.errorMessage (errs.dropWhile (fun e => e = "")) := by
  intro errs
  induction errs with
  | nil => rfl
  | cons e es ih =>
    by_cases he : e = ""
    · subst he
      rw [List.dropWhile_cons_of_pos (by simp), ← ih]
      rfl
    · rw [List.dropWhile_cons_of_neg (by simpa using he)]

/-- What `updateProgress.errorMessage` builds: the newline join of the
messages that remain once the empty messages at the front are left out. -/
theorem errorMessage_eq (errs : List String) :
    updateProgress.errorMessage errs =
      "\n".intercalate (errs.dropWhile (fun e => e = "")) := by
  rw [errorMessage_dropWhile]
  cases h : errs.dropWhile (fun e => e = "") with
  | nil => rfl
  | cons e es =>
    apply errorMessage_cons
    have := List.head_dropWhile_not (fun e => decide (e = "")) errs (by rw [h]; simp)
    simp only [h, List.head_cons] at this
    simpa using this

/-- C16, as the code has it: after a progress callback that carries a
progress structure or an error, the error message of every task with the
callback's id is the newline join of the callback's messages, in order, once
the empty messages at the front of the list are left out (the other handles
are unchanged); when the first message is not empty this is the newline join
of all the messages, and with no errors it is the empty string. -/
theorem updateProgress_error_message (m : CtlMgr) (taskId : String)
    (p : Option ProgressEntries) (errs : List String) (hkeep : p.isSome ∨ errs ≠ []) :
    List.Forall₂ (fun th th1 =>
      if th.task.Id = taskId then
        th1.task.Id = taskId ∧
        th1.task.ErrorMessage = "\n".intercalate (errs.dropWhile (fun e => e = ""))
      else th1 = th)
      m.tasks.taskHandles (updateProgress m taskId p errs).tasks.taskHandles ∧
    (errs.head? ≠ some "" →
      "\n".intercalate (errs.dropWhile (fun e => e = "")) = "\n".intercalate errs) ∧
    (errs = [] → "\n".intercalate (errs.dropWhile (fun e => e = "")) = "") := by
  have hkeep1 : p.isSome ∨ errs.length > 0 := by
    rcases hkeep with h | h
    · exact Or.inl h
    · exact Or.inr (List.length_pos.mpr h)
  obtain ⟨evs, _, h2⟩ := updateProgress_keep m taskId p errs hkeep1
  refine ⟨h2.imp ?_, ?_, ?_⟩
  · intro a b hab
    by_cases ha : a.task.Id = taskId
    · rw [if_pos ha] at hab ⊢
      obtain ⟨r, _, hb⟩ := hab
      subst hb
      exact ⟨ha, errorMessage_eq errs⟩
    · rw [if_neg ha] at hab ⊢
      exact hab
  · intro hhead
    cases errs with
    | nil => rfl
    | cons e es =>
      have he : e ≠ "" := fun h => hhead (by rw [h]; rfl)
      rw [List.dropWhile_cons_of_neg (by simpa using he)]
  · intro h
    rw [h]
    rfl

/-- Witness of `updateProgress_error_message`: two errors reported for the
running rebalance. -/
theorem updateProgress_error_message_witness :
    List.Forall₂ (fun th th1 =>
      if th.task.Id = "rebalance:a" then
        th1.task.Id = "rebalance:a" ∧
        th1.task.ErrorMessage = "\n".intercalate (["e1", "e2"].dropWhile (fun e => e = ""))
      else th1 = th)
      startedRegistry.tasks.taskHandles
      (updateProgress startedRegistry "rebalance:a" none ["e1", "e2"]).tasks.taskHandles :=
  (updateProgress_error_message startedRegistry "rebalance:a" none ["e1", "e2"]
    (Or.inr (by decide))).1

/-- C16 as stated fails when the first message is empty: for the messages
`""` and `"a"` the task's error message is `"a"`, while the join with a newline
between consecutive messages is `"\na"`. -/
theorem updateProgress_error_message_skips_empty :
    (updateProgress startedRegistry "rebalance:a" none ["", "a"]).tasks.taskHandles.map
      (fun th => th.task.ErrorMessage) = ["a"] ∧
    "\n".intercalate ["", "a"] = "\na" ∧
    updateProgress.errorMessage ["", "a"] ≠ "\n".intercalate ["", "a"] := by
  decide

/-! ## Bounds of the progress value -/

/-- Sums of pointwise ordered terms are ordered. -/
theorem sum_map_le {α : Type} (f g : α → Nat) : ∀ l : List α,
    (∀ a ∈ l, f a ≤ g a) → (l.map f).sum ≤ (l.map g).sum := by
  intro l
  induction l with
  | nil => intro _; simp
  | cons x rest ih =>
    intro h
    simp only [List.map_cons, List.sum_cons]
    have h1 := h x (List.mem_cons_self _ _)
    have h2 := ih (fun a ha => h a (List.mem_cons_of_mem _ ha))
    omega

/-- C17, as the code has it: the progress computed from a three-level
structure, the `float64` quotient of the two totals, is never negative; it is
at most `1` whenever `totalAchieved` is at most `totalExpected`, and that is
the case when every entry has `initial ≤ current ≤ wanted` and the wanted
deltas sum to less than `2 ^ 64`. -/
theorem progress_bounds (p : ProgressEntries) :
    0 ≤ updateProgress.progress (some p) ∧
    (totalAchieved p ≤ totalExpected p → updateProgress.progress (some p) ≤ 1) ∧
    ((∀ pe ∈ progressEntriesOf p,
        pe.InitUUIDSeq.Seq ≤ pe.CurrUUIDSeq.Seq ∧ pe.CurrUUIDSeq.Seq ≤ pe.WantUUIDSeq.Seq ∧
        pe.WantUUIDSeq.Seq < 2 ^ 64) →
      ((progressEntriesOf p).map
        (fun pe => pe.WantUUIDSeq.Seq - pe.InitUUIDSeq.Seq)).sum < 2 ^ 64 →
      totalAchieved p ≤ totalExpected p ∧ updateProgress.progress (some p) ≤ 1) := by
  have hle : totalAchieved p ≤ totalExpected p → updateProgress.progress (some p) ≤ 1 := by
    intro h
    rw [progress_eq_float64Progress]
    unfold float64Progress
    split
    · rename_i hpos
      exact nearest_le_one _ _ (ofUint64_pos _ hpos (totalExpected_lt p))
        (ofUint64_mono _ _ h (totalExpected_lt p))
    · exact zero_le_one
  refine ⟨?_, hle, ?_⟩
  · rw [progress_eq_float64Progress]
    unfold float64Progress
    split
    · exact nearest_nonneg _ _
    · exact le_refl _
  · intro hent hsum
    have hA : ∀ pe ∈ progressEntriesOf p,
        sub64 pe.CurrUUIDSeq.Seq pe.InitUUIDSeq.Seq ≤
          sub64 pe.WantUUIDSeq.Seq pe.InitUUIDSeq.Seq := by
      intro pe hpe
      obtain ⟨h1, h2, h3⟩ := hent pe hpe
      unfold sub64
      omega
    have hW : ∀ pe ∈ progressEntriesOf p,
        sub64 pe.WantUUIDSeq.Seq pe.InitUUIDSeq.Seq ≤
          pe.WantUUIDSeq.Seq - pe.InitUUIDSeq.Seq := by
      intro pe hpe
      obtain ⟨h1, h2, h3⟩ := hent pe hpe
      unfold sub64
      omega
    have h1 := sum_map_le _ _ (progressEntriesOf p) hA
    have h2 := sum_map_le _ _ (progressEntriesOf p) hW
    have h3 : totalAchieved p ≤ totalExpected p := by
      unfold totalAchieved totalExpected
      rw [Nat.mod_eq_of_lt (by omega), Nat.mod_eq_of_lt (by omega)]
      exact h1
    exact ⟨h3, hle h3⟩

/-- Witness of `progress_bounds`: the two entries of the spec. -/
theorem progress_bounds_witness :
    totalAchieved sampleEntries ≤ totalExpected sampleEntries ∧
    updateProgress.progress (some sampleEntries) ≤ 1 :=
  (progress_bounds sampleEntries).2.2 (by decide) (by decide)

/-- C17 as stated fails: for the one entry `(init=0, current=100, want=50)`
the progress is `2`, which is not in `[0, 1]`. -/
theorem progress_exceeds_one :
    updateProgress.progress (some overshootEntries) = 2 ∧
    ¬ updateProgress.progress (some overshootEntries) ≤ 1 := by
  have h : updateProgress.progress (some overshootEntries) = 2 := by
    have hA : totalAchieved overshootEntries = 100 := by decide
    have hE : totalExpected overshootEntries = 50 := by decide
    rw [progress_eq_float64Progress]
    unfold float64Progress
    rw [hA, hE, ofUint64_small 100 (by norm_num), ofUint64_small 50 (by norm_num)]
    simp [float64.nearest, float64.normalize, float64.roundHalfEven]
    norm_num
  rw [h]
  exact ⟨rfl, by norm_num⟩
/-! ## Effects of the calls that succeed -/

/-- An allocation from a revision that is not the largest 64-bit number
returns a greater one, whatever the counter. -/
theorem allocRevNumLOCKED_gt (m : CtlMgr) (prev : Nat) (h : prev < 2 ^ 64 - 1) :
    prev < (allocRevNumLOCKED m prev).1 := by
  have h1 : (prev + 1) % 2 ^ 64 = prev + 1 := Nat.mod_eq_of_lt (by omega)
  simp only [allocRevNumLOCKED, h1]
  split <;> omega

/-- An allocation never returns less than the counter. -/
theorem allocRevNumLOCKED_ge (m : CtlMgr) (prev : Nat) :
    m.revNumNext ≤ (allocRevNumLOCKED m prev).1 := by
  simp only [allocRevNumLOCKED]
  split <;> omega

/-- What `updateTasksLOCKED` leaves, for any body. -/
theorem updateTasksLOCKED_body_eq (m : CtlMgr) (body : tasks → tasks) :
    updateTasksLOCKED m body =
      { mu := m.mu,
        revNumNext := ((allocRevNumLOCKED m (body m.tasks).revNum).1 + 1) % 2 ^ 64,
        tasks := { revNum := (allocRevNumLOCKED m (body m.tasks).revNum).1,
                   taskHandles := (body m.tasks).taskHandles },
        tasksWaitCh := none,
        chFresh := m.chFresh,
        trace := m.trace ++ Event.allocRev (allocRevNumLOCKED m (body m.tasks).revNum).1 ::
          (match m.tasksWaitCh with
           | some ch => [Event.closeCh ch]
           | none => []) } := by
  unfold updateTasksLOCKED
  cases h : m.tasksWaitCh <;> simp [allocRevNumLOCKED, h]

/-- A waiter that finds the revision it knows and no wait channel makes a new
channel, with the fresh identity, and blocks. -/
theorem GetTaskList_wait_blocks (m1 : CtlMgr) (h : m1.tasksWaitCh = none) :
    ∃ m2, GetTaskList.wait m1.tasks.revNum m1.Lock [] = .blocked m2 ∧
      m2.tasksWaitCh = some m1.chFresh := by
  have h1 : m1.Lock.tasksWaitCh = none := h
  have h2 : m1.tasks.revNum = m1.Lock.tasks.revNum := rfl
  rw [GetTaskList.wait, if_pos h2]
  simp only [h1]
  exact ⟨_, rfl, rfl⟩

/-- C18: `updateTasksLOCKED` installs the task handles the body produced,
gives the task list a revision returned by `allocRevNumLOCKED` that is greater
than the one the body left (as long as that one is not the largest 64-bit
number), and after that allocation closes the wait channel, if there is one,
and clears it: afterwards the registry has no wait channel, the history ends
with the allocation followed by the close, a waiter that knew the old revision
and retakes the mutex gets the new snapshot without waiting again, and a
waiter that blocks on the new revision makes a channel that is not the one
just closed. -/
theorem updateTasksLOCKED_spec (m : CtlMgr) (body : tasks → tasks)
    (hrev : (body m.tasks).revNum < 2 ^ 64 - 1) :
    (updateTasksLOCKED m body).tasks.taskHandles = (body m.tasks).taskHandles ∧
    (body m.tasks).revNum < (updateTasksLOCKED m body).tasks.revNum ∧
    (updateTasksLOCKED m body).tasksWaitCh = none ∧
    (m.tasksWaitCh = none →
      (updateTasksLOCKED m body).trace =
        m.trace ++ [Event.allocRev (updateTasksLOCKED m body).tasks.revNum]) ∧
    (∀ ch, m.tasksWaitCh = some ch →
      (updateTasksLOCKED m body).trace =
        m.trace ++ [Event.allocRev (updateTasksLOCKED m body).tasks.revNum, Event.closeCh ch]) ∧
    (∀ evs : List WaitEvent,
      GetTaskList.wait (body m.tasks).revNum (updateTasksLOCKED m body).Lock evs =
        .returned (some (getTaskListLOCKED (updateTasksLOCKED m body))) none
          (updateTasksLOCKED m body).Unlock) ∧
    (∀ ch, m.tasksWaitCh = some ch → ch < m.chFresh →
      ∃ m2, GetTaskList.wait (updateTasksLOCKED m body).tasks.revNum
          (updateTasksLOCKED m body).Lock [] = .blocked m2 ∧
        m2.tasksWaitCh = some m.chFresh ∧ m2.tasksWaitCh ≠ some ch) := by
  have hgt := allocRevNumLOCKED_gt m (body m.tasks).revNum hrev
  have hnone : (updateTasksLOCKED m body).tasksWaitCh = none := by
    rw [updateTasksLOCKED_body_eq]
  have hfresh : (updateTasksLOCKED m body).chFresh = m.chFresh := by
    rw [updateTasksLOCKED_body_eq]
  obtain ⟨m2, hm2, hch⟩ := GetTaskList_wait_blocks (updateTasksLOCKED m body) hnone
  rw [hfresh] at hch
  refine ⟨by rw [updateTasksLOCKED_body_eq], by rw [updateTasksLOCKED_body_eq]; exact hgt,
    hnone, ?_, ?_, ?_, ?_⟩
  rotate_right
  · intro ch _ hlt
    refine ⟨m2, hm2, hch, ?_⟩
    rw [hch]
    intro h
    injection h with h
    omega
  all_goals rw [updateTasksLOCKED_body_eq]
  · intro h
    simp only [h]
  · intro ch h
    simp only [h]
  · intro evs
    rw [GetTaskList_wait_stale _ _ evs (by
      show (allocRevNumLOCKED m (body m.tasks).revNum).1 ≠ (body m.tasks).revNum
      omega)]
    rfl

/-- Witness of `updateTasksLOCKED_spec`: a registry with wait channel 0 whose
tasks are emptied. -/
theorem updateTasksLOCKED_spec_witness :
    (updateTasksLOCKED { preparedRegistry with tasksWaitCh := some 0, chFresh := 1 }
      (fun s => { s with taskHandles := [] })).tasksWaitCh = none ∧
    (updateTasksLOCKED { preparedRegistry with tasksWaitCh := some 0, chFresh := 1 }
      (fun s => { s with taskHandles := [] })).trace =
      preparedRegistry.trace ++ [Event.allocRev 3, Event.closeCh 0] :=
  have h := updateTasksLOCKED_spec { preparedRegistry with tasksWaitCh := some 0, chFresh := 1 }
    (fun s => { s with taskHandles := [] }) (by decide)
  ⟨h.2.2.1, h.2.2.2.2.1 0 rfl⟩

/-- C13: when `PrepareTopologyChange` returns no error, the task list is the
previous one, unchanged and in order, followed by one new handle with no
`stop` whose task has the id `prepare:` plus the change id, type Prepared,
status Running, is cancelable, has progress 100, no detailed progress, an empty
error message, the change as payload and as `Rev` the encoding of a revision
allocated during the call; and the task-list revision has grown (as long as it
was not the largest 64-bit number). -/
theorem PrepareTopologyChange_success (m : CtlMgr) (topologyRev : Revision) (now : Nat)
    (change : TopologyChange)
    (hok : (PrepareTopologyChange m topologyRev now change).2 = none)
    (hrev : m.tasks.revNum < 2 ^ 64 - 1) :
    ∃ (r : Nat) (evs : List Event),
      (PrepareTopologyChange m topologyRev now change).1.trace = m.trace ++ evs ∧
      Event.allocRev r ∈ evs ∧
      (PrepareTopologyChange m topologyRev now change).1.tasks.taskHandles =
        m.tasks.taskHandles ++
          [{ startTime := now,
             task := { Rev := EncodeRev r,
                       Id := "prepare:" ++ change.Id,
                       Type_ := TaskType.TaskTypePrepared,
                       Status := TaskStatus.TaskStatusRunning,
                       IsCancelable := true,
                       Progress := 100,
                       DetailedProgress := none,
                       Description := "prepare topology change",
                       ErrorMessage := "",
                       Extra := [("topologyChange", change)] },
             stop := none }] ∧
      m.tasks.revNum < (PrepareTopologyChange m topologyRev now change).1.tasks.revNum := by
  unfold PrepareTopologyChange at hok ⊢
  simp only [] at hok ⊢
  by_cases h1 : change.CurrentTopologyRev.length > 0 ∧ change.CurrentTopologyRev ≠ topologyRev
  · rw [if_pos h1] at hok
    simp at hok
  · rw [if_neg h1] at hok ⊢
    by_cases h2 : m.Lock.tasks.taskHandles.any isPreparedOrRebalance = true
    · rw [if_pos h2] at hok
      simp at hok
    · rw [if_neg h2]
      rw [updateTasksLOCKED_eq]
      refine ⟨(allocRevNumLOCKED m.Lock 0).1, _, List.append_assoc _ _ _,
        List.mem_cons_self _ _, rfl, ?_⟩
      exact allocRevNumLOCKED_gt _ _ hrev

/-- Witness of `PrepareTopologyChange_success`: the first prepare on the
empty registry. -/
theorem PrepareTopologyChange_success_witness :
    ∃ (r : Nat) (evs : List Event),
      (PrepareTopologyChange NewCtlMgr [] 0 sampleChange).1.trace = NewCtlMgr.trace ++ evs ∧
      Event.allocRev r ∈ evs ∧
      (PrepareTopologyChange NewCtlMgr [] 0 sampleChange).1.tasks.taskHandles =
        NewCtlMgr.tasks.taskHandles ++
          [{ startTime := 0,
             task := { Rev := EncodeRev r,
                       Id := "prepare:" ++ sampleChange.Id,
                       Type_ := TaskType.TaskTypePrepared,
                       Status := TaskStatus.TaskStatusRunning,
                       IsCancelable := true,
                       Progress := 100,
                       DetailedProgress := none,
                       Description := "prepare topology change",
                       ErrorMessage := "",
                       Extra := [("topologyChange", sampleChange)] },
             stop := none }] ∧
      NewCtlMgr.tasks.revNum < (PrepareTopologyChange NewCtlMgr [] 0 sampleChange).1.tasks.revNum :=
  PrepareTopologyChange_success NewCtlMgr [] 0 sampleChange (by decide) (by decide)

/-- The `stop` call of a handle, as it is logged. -/
theorem CancelTask_loop_trace (taskId : String) (taskRev : Option Revision) :
    ∀ (l : List taskHandle) (m : CtlMgr) (c : Bool) (acc : List taskHandle)
      (c1 : Bool) (next : List taskHandle),
      (CancelTask.loop taskId taskRev l m c acc).2 = .ok (c1, next) →
      (CancelTask.loop taskId taskRev l m c acc).1 =
        { m with trace := (m.trace ++
            List.filterMap (fun th => th.stop.map Event.stopChangeTopology)
              (l.filter (fun th => th.task.Id = taskId))) } := by
  intro l
  induction l with
  | nil => intro m c acc c1 next _; simp [CancelTask.loop]
  | cons x rest ih =>
    intro m c acc c1 next h
    unfold CancelTask.loop at h ⊢
    by_cases hx : x.task.Id = taskId
    · rw [if_pos hx] at h ⊢
      by_cases h1 : taskRev.isSome ∧ taskRev ≠ some x.task.Rev
      · rw [if_pos h1] at h
        simp at h
      · rw [if_neg h1] at h ⊢
        by_cases h2 : x.task.IsCancelable = false
        · rw [if_pos h2] at h
          simp at h
        · rw [if_neg h2] at h ⊢
          rw [ih _ _ _ _ _ h, List.filter_cons_of_pos (by simpa using hx)]
          cases hs : x.stop with
          | none => simp [hs]
          | some rev => simp [hs, CtlMgr.log]
    · rw [if_neg hx] at h ⊢
      rw [ih _ _ _ _ _ h, List.filter_cons_of_neg (by simpa using hx)]

/-- C11: when `CancelTask` returns no error, the registry holds exactly the
handles whose task id differs from the given one, in their original order, so
no task with that id remains; the history grew by one `StopChangeTopology`
call for each canceled handle that has a `stop` (so exactly one call when one
task had the id and it has a `stop`, none when it has no `stop`), followed by
the allocation of the new task-list revision and the close of the wait channel
if there was one; and the task-list revision has grown (as long as it was not
the largest 64-bit number). -/
theorem CancelTask_success (m : CtlMgr) (taskId : String) (taskRev : Option Revision)
    (hok : (CancelTask m taskId taskRev).2 = none) (hrev : m.tasks.revNum < 2 ^ 64 - 1) :
    (CancelTask m taskId taskRev).1.tasks.taskHandles =
      m.tasks.taskHandles.filter (fun th => th.task.Id ≠ taskId) ∧
    (∀ th ∈ (CancelTask m taskId taskRev).1.tasks.taskHandles, th.task.Id ≠ taskId) ∧
    (CancelTask m taskId taskRev).1.trace =
      m.trace ++
        (m.tasks.taskHandles.filter (fun th => th.task.Id = taskId)).filterMap
          (fun th => th.stop.map Event.stopChangeTopology) ++
        Event.allocRev (CancelTask m taskId taskRev).1.tasks.revNum ::
          (match m.tasksWaitCh with
           | some ch => [Event.closeCh ch]
           | none => []) ∧
    (∀ th, m.tasks.taskHandles.filter (fun h => h.task.Id = taskId) = [th] →
      (m.tasks.taskHandles.filter (fun h => h.task.Id = taskId)).filterMap
          (fun h => h.stop.map Event.stopChangeTopology) =
        match th.stop with
        | some rev => [Event.stopChangeTopology rev]
        | none => []) ∧
    m.tasks.revNum < (CancelTask m taskId taskRev).1.tasks.revNum := by
  have hl := CancelTask_loop_ok taskId taskRev m.Lock.tasks.taskHandles m.Lock false []
  have ht := CancelTask_loop_trace taskId taskRev m.Lock.tasks.taskHandles m.Lock false []
  unfold CancelTask at hok ⊢
  simp only [] at hok ⊢
  rcases hloop : CancelTask.loop taskId taskRev m.Lock.tasks.taskHandles m.Lock false []
    with ⟨m1, res⟩
  rw [hloop] at hok hl ht
  rcases res with err | ⟨c, next⟩
  · simp at hok
  · cases c
    · simp at hok
    · have hnext := (hl true next rfl).1
      have hm1 : m1 = { m.Lock with trace := (m.Lock.trace ++
          List.filterMap (fun th => th.stop.map Event.stopChangeTopology)
            (m.Lock.tasks.taskHandles.filter (fun th => th.task.Id = taskId))) } :=
        ht true next rfl
      simp only [if_neg (by simp : ¬ (true = false))]
      rw [updateTasksLOCKED_eq, hnext, hm1]
      refine ⟨rfl, ?_, rfl, ?_, ?_⟩
      · intro th hth
        have := (List.mem_filter.mp hth).2
        simpa using this
      · intro th hth
        rw [hth]
        cases hs : th.stop <;> simp [List.filterMap, hs]
      · exact allocRevNumLOCKED_gt _ _ hrev

/-- Witness of `CancelTask_success`: the running rebalance is canceled; its
`stop` is called once. -/
theorem CancelTask_success_witness :
    (CancelTask startedRegistry "rebalance:a" none).1.tasks.taskHandles =
      startedRegistry.tasks.taskHandles.filter (fun th => th.task.Id ≠ "rebalance:a") ∧
    startedRegistry.tasks.revNum < (CancelTask startedRegistry "rebalance:a" none).1.tasks.revNum :=
  have h := CancelTask_success startedRegistry "rebalance:a" none (by decide) (by decide)
  ⟨h.1, h.2.2.2.2⟩

/-- The loop of `StartTopologyChange` over a stretch without Prepared tasks:
a Rebalance task in it ends the loop with `ErrConflict`, otherwise the stretch
is copied and the loop goes on behind it. -/
theorem StartTopologyChange_loop_skip
    (engine : Nat → CtlChangeTopology → Except Error Revision) (now : Nat)
    (change : TopologyChange) :
    ∀ (l1 l2 : List taskHandle) (m : CtlMgr) (k : Nat) (s : Bool) (acc : List taskHandle),
      (∀ x ∈ l1, x.task.Type_ ≠ TaskType.TaskTypePrepared) →
      StartTopologyChange.loop engine now change (l1 ++ l2) m k s acc =
        if l1.any (fun x => x.task.Type_ = TaskType.TaskTypeRebalance) then
          (m, .error Error.ErrConflict)
        else StartTopologyChange.loop engine now change l2 m k s (acc ++ l1) := by
  intro l1
  induction l1 with
  | nil => intro l2 m k s acc _; simp
  | cons x rest ih =>
    intro l2 m k s acc h
    have hx := h x (List.mem_cons_self _ _)
    have hrest : ∀ y ∈ rest, y.task.Type_ ≠ TaskType.TaskTypePrepared :=
      fun y hy => h y (List.mem_cons_of_mem _ hy)
    rw [List.cons_append, StartTopologyChange.loop]
    by_cases hr : x.task.Type_ = TaskType.TaskTypeRebalance
    · rw [if_pos hr]
      simp [hr]
    · rw [if_neg hr, if_neg hx, ih l2 m k s (acc ++ [x]) hrest]
      simp [hr]

/-- What `startTopologyChangeTaskHandleLOCKED` has done when it returns a
handle: it called `ChangeTopology` with a request for the task id `rebalance:`
plus the change id, the engine answered with a revision, one revision was
allocated after that, and the handle is the Rebalance handle whose `stop`
holds the engine's revision. -/
theorem startTopologyChangeTaskHandleLOCKED_ok (m : CtlMgr)
    (outcome : CtlChangeTopology → Except Error Revision) (now : Nat) (change : TopologyChange)
    (m1 : CtlMgr) (th1 : taskHandle)
    (h : startTopologyChangeTaskHandleLOCKED m outcome now change = (m1, .ok th1)) :
    ∃ (req : CtlChangeTopology) (rev : Revision) (r : Nat),
      outcome req = .ok rev ∧
      m1.trace = m.trace ++
        [Event.changeTopology req ("rebalance:" ++ change.Id), Event.allocRev r] ∧
      th1 =
        { startTime := now,
          task := { Rev := EncodeRev r,
                    Id := "rebalance:" ++ change.Id,
                    Type_ := TaskType.TaskTypeRebalance,
                    Status := TaskStatus.TaskStatusRunning,
                    IsCancelable := true,
                    Progress := 0,
                    DetailedProgress := some [],
                    Description := "topology change",
                    ErrorMessage := "",
                    Extra := [("topologyChange", change)] },
          stop := some rev } := by
  unfold startTopologyChangeTaskHandleLOCKED at h
  cases hc : change.Type_ <;> rw [hc] at h <;> simp only [] at h
  · split at h
    · simp at h
    · rename_i rev hrev
      injection h with h1 h2
      injection h2 with h2
      refine ⟨_, rev, _, hrev, ?_, h2.symm⟩
      rw [← h1]
      simp [allocRevNumLOCKED, CtlMgr.log]
  · split at h
    · simp at h
    · rename_i rev hrev
      injection h with h1 h2
      injection h2 with h2
      refine ⟨_, rev, _, hrev, ?_, h2.symm⟩
      rw [← h1]
      simp [allocRevNumLOCKED, CtlMgr.log]
  · simp at h

/-- C12: when `StartTopologyChange` returns no error from a registry whose
only Prepared task is `th`, the task list keeps its length and order with `th`
replaced at its place by a handle started at `now` whose task has the id
`rebalance:` plus the change id, type Rebalance, status Running, is cancelable,
has progress 0, an empty detailed-progress map, an empty error message, the
change as payload and a revision allocated during the call; every other handle
is unchanged; the `stop` of the new handle holds the revision the engine's
`ChangeTopology` returned for the request of this call, which is what
`StopChangeTopology` is called with; and the task-list revision has grown (as
long as it was not the largest 64-bit number). -/
theorem StartTopologyChange_success (m : CtlMgr) (topologyRev : Revision)
    (engine : Nat → CtlChangeTopology → Except Error Revision) (now : Nat)
    (change : TopologyChange) (l1 l2 : List taskHandle) (th : taskHandle)
    (hsplit : m.tasks.taskHandles = l1 ++ th :: l2)
    (hth : th.task.Type_ = TaskType.TaskTypePrepared)
    (hl1 : ∀ x ∈ l1, x.task.Type_ ≠ TaskType.TaskTypePrepared)
    (hl2 : ∀ x ∈ l2, x.task.Type_ ≠ TaskType.TaskTypePrepared)
    (hok : (StartTopologyChange m topologyRev engine now change).2 = none)
    (hrev : m.tasks.revNum < 2 ^ 64 - 1) :
    ∃ (req : CtlChangeTopology) (rev : Revision) (r : Nat) (evs : List Event),
      engine 0 req = .ok rev ∧
      (StartTopologyChange m topologyRev engine now change).1.trace = m.trace ++ evs ∧
      Event.changeTopology req ("rebalance:" ++ change.Id) ∈ evs ∧
      Event.allocRev r ∈ evs ∧
      (StartTopologyChange m topologyRev engine now change).1.tasks.taskHandles =
        l1 ++
          { startTime := now,
            task := { Rev := EncodeRev r,
                      Id := "rebalance:" ++ change.Id,
                      Type_ := TaskType.TaskTypeRebalance,
                      Status := TaskStatus.TaskStatusRunning,
                      IsCancelable := true,
                      Progress := 0,
                      DetailedProgress := some [],
                      Description := "topology change",
                      ErrorMessage := "",
                      Extra := [("topologyChange", change)] },
            stop := some rev } :: l2 ∧
      m.tasks.revNum < (StartTopologyChange m topologyRev engine now change).1.tasks.revNum := by
  have hfr := (startTopologyChangeTaskHandleLOCKED_advances m.Lock (engine 0) now change).2.1
  unfold StartTopologyChange at hok ⊢
  simp only [] at hok ⊢
  by_cases h1 : change.CurrentTopologyRev.length > 0 ∧ change.CurrentTopologyRev ≠ topologyRev
  · rw [if_pos h1] at hok
    simp at hok
  · rw [if_neg h1] at hok ⊢
    have hloop : StartTopologyChange.loop engine now change m.Lock.tasks.taskHandles
        m.Lock 0 false [] =
        if l1.any (fun x => x.task.Type_ = TaskType.TaskTypeRebalance) then
          (m.Lock, .error Error.ErrConflict)
        else
          match startTopologyChangeTaskHandleLOCKED m.Lock (engine 0) now change with
          | (m1, .error err) => (m1, .error err)
          | (m1, .ok th1) =>
            if l2.any (fun x => x.task.Type_ = TaskType.TaskTypeRebalance) then
              (m1, .error Error.ErrConflict)
            else (m1, .ok (true, l1 ++ th1 :: l2)) := by
      rw [show m.Lock.tasks.taskHandles = l1 ++ th :: l2 from hsplit,
        StartTopologyChange_loop_skip engine now change l1 (th :: l2) m.Lock 0 false [] hl1]
      by_cases hr1 : l1.any (fun x => x.task.Type_ = TaskType.TaskTypeRebalance) = true
      · rw [if_pos hr1, if_pos hr1]
      · rw [if_neg hr1, if_neg hr1, StartTopologyChange.loop,
          if_neg (by rw [hth]; decide), if_pos hth]
        rcases startTopologyChangeTaskHandleLOCKED m.Lock (engine 0) now change with ⟨m1, res⟩
        cases res with
        | error err => rfl
        | ok th1 =>
          simp only []
          have := StartTopologyChange_loop_skip engine now change l2 [] m1 (0 + 1) true
            ([] ++ l1 ++ [th1]) hl2
          rw [List.append_nil] at this
          rw [this]
          by_cases hr2 : l2.any (fun x => x.task.Type_ = TaskType.TaskTypeRebalance) = true
          · rw [if_pos hr2, if_pos hr2]
          · rw [if_neg hr2, if_neg hr2, StartTopologyChange.loop]
            simp
    rw [hloop] at hok ⊢
    by_cases hr1 : l1.any (fun x => x.task.Type_ = TaskType.TaskTypeRebalance) = true
    · rw [if_pos hr1] at hok
      simp at hok
    · rw [if_neg hr1] at hok ⊢
      rcases hst : startTopologyChangeTaskHandleLOCKED m.Lock (engine 0) now change
        with ⟨m1, res⟩
      rw [hst] at hok hfr
      cases res with
      | error err => simp at hok
      | ok th1 =>
        simp only [] at hok ⊢
        by_cases hr2 : l2.any (fun x => x.task.Type_ = TaskType.TaskTypeRebalance) = true
        · rw [if_pos hr2] at hok
          simp at hok
        · rw [if_neg hr2]
          simp only [if_neg (by simp : ¬ (true = false))]
          obtain ⟨req, rev, r, hreq, htr, hth1⟩ :=
            startTopologyChangeTaskHandleLOCKED_ok m.Lock (engine 0) now change m1 th1 hst
          have hm1 : m1.tasks = m.tasks := hfr
          rw [updateTasksLOCKED_eq]
          refine ⟨req, rev, r,
            [Event.changeTopology req ("rebalance:" ++ change.Id), Event.allocRev r] ++
              Event.allocRev (allocRevNumLOCKED m1 m1.tasks.revNum).1 ::
                (match m1.tasksWaitCh with
                 | some ch => [Event.closeCh ch]
                 | none => []), hreq, ?_, ?_, ?_, ?_, ?_⟩
          rotate_left
          · exact List.mem_append_left _ (List.mem_cons_self _ _)
          · exact List.mem_append_left _ (List.mem_cons_of_mem _ (List.mem_cons_self _ _))
          · show l1 ++ th1 :: l2 = _
            rw [hth1]
          · show m.tasks.revNum < (allocRevNumLOCKED m1 m1.tasks.revNum).1
            rw [hm1]
            exact allocRevNumLOCKED_gt _ _ hrev
          · show m1.trace ++ _ = m.trace ++ (_ ++ _)
            rw [htr]
            exact List.append_assoc _ _ _

/-- Witness of `StartTopologyChange_success`: the start of the prepared
change `a`. -/
theorem StartTopologyChange_success_witness :
    ∃ (req : CtlChangeTopology) (rev : Revision) (r : Nat) (evs : List Event),
      sampleEngine 0 req = .ok rev ∧
      (StartTopologyChange preparedRegistry [] sampleEngine 0 sampleChange).1.trace =
        preparedRegistry.trace ++ evs ∧
      Event.changeTopology req ("rebalance:" ++ sampleChange.Id) ∈ evs ∧
      Event.allocRev r ∈ evs ∧
      (StartTopologyChange preparedRegistry [] sampleEngine 0 sampleChange).1.tasks.taskHandles =
        [] ++
          { startTime := 0,
            task := { Rev := EncodeRev r,
                      Id := "rebalance:" ++ sampleChange.Id,
                      Type_ := TaskType.TaskTypeRebalance,
                      Status := TaskStatus.TaskStatusRunning,
                      IsCancelable := true,
                      Progress := 0,
                      DetailedProgress := some [],
                      Description := "topology change",
                      ErrorMessage := "",
                      Extra := [("topologyChange", sampleChange)] },
            stop := some rev } :: [] ∧
      preparedRegistry.tasks.revNum <
        (StartTopologyChange preparedRegistry [] sampleEngine 0 sampleChange).1.tasks.revNum :=
  StartTopologyChange_success preparedRegistry [] sampleEngine 0 sampleChange [] []
    preparedHandle (by decide) (by decide) (by decide) (by decide) (by decide) (by decide)

/-- After a start that returned no error the registry holds a Rebalance task
and no Prepared task. -/
theorem StartTopologyChange_loop_result
    (engine : Nat → CtlChangeTopology → Except Error Revision) (now : Nat)
    (change : TopologyChange) :
    ∀ (l : List taskHandle) (m : CtlMgr) (k : Nat) (s : Bool) (acc : List taskHandle)
      (s1 : Bool) (next : List taskHandle),
      (StartTopologyChange.loop engine now change l m k s acc).2 = .ok (s1, next) →
      ∃ l1, next = acc ++ l1 ∧
        (∀ y ∈ l1, y.task.Type_ ≠ TaskType.TaskTypePrepared) ∧
        (s1 = true → s = true ∨ ∃ y ∈ l1, y.task.Type_ = TaskType.TaskTypeRebalance) := by
  intro l
  induction l with
  | nil =>
    intro m k s acc s1 next h
    simp [StartTopologyChange.loop] at h
    exact ⟨[], by simp [h.2], by simp, fun hs => Or.inl (by rw [h.1]; exact hs)⟩
  | cons x rest ih =>
    intro m k s acc s1 next h
    unfold StartTopologyChange.loop at h
    by_cases h1 : x.task.Type_ = TaskType.TaskTypeRebalance
    · rw [if_pos h1] at h
      simp at h
    · rw [if_neg h1] at h
      by_cases h2 : x.task.Type_ = TaskType.TaskTypePrepared
      · rw [if_pos h2] at h
        rcases hst : startTopologyChangeTaskHandleLOCKED m (engine k) now change with ⟨m1, res⟩
        rw [hst] at h
        cases res with
        | error err => simp at h
        | ok th1 =>
          have hty := startTopologyChangeTaskHandleLOCKED_type m (engine k) now change th1
            (by rw [hst])
          obtain ⟨l1, hn, hp, _⟩ := ih _ _ _ _ _ _ h
          refine ⟨th1 :: l1, by rw [hn]; simp, ?_, fun _ => Or.inr ⟨th1, List.mem_cons_self _ _, hty⟩⟩
          intro y hy
          rcases List.mem_cons.mp hy with rfl | hy
          · rw [hty]; decide
          · exact hp y hy
      · rw [if_neg h2] at h
        obtain ⟨l1, hn, hp, hs⟩ := ih _ _ _ _ _ _ h
        refine ⟨x :: l1, by rw [hn]; simp, ?_, ?_⟩
        · intro y hy
          rcases List.mem_cons.mp hy with rfl | hy
          · exact h2
          · exact hp y hy
        · intro hs1
          rcases hs hs1 with h3 | ⟨y, hy, hyt⟩
          · exact Or.inl h3
          · exact Or.inr ⟨y, List.mem_cons_of_mem _ hy, hyt⟩

/-- A prepare on a registry that holds a Prepared or Rebalance task
conflicts. -/
theorem PrepareTopologyChange_conflict_of_any (m1 : CtlMgr) (topologyRev : Revision) (now : Nat)
    (change : TopologyChange)
    (hany : m1.tasks.taskHandles.any isPreparedOrRebalance = true) :
    (PrepareTopologyChange m1 topologyRev now change).2 = some Error.ErrConflict := by
  have hany1 : m1.Lock.tasks.taskHandles.any isPreparedOrRebalance = true := hany
  unfold PrepareTopologyChange
  simp only []
  by_cases h1 : change.CurrentTopologyRev.length > 0 ∧ change.CurrentTopologyRev ≠ topologyRev
  · rw [if_pos h1]
  · rw [if_neg h1, if_pos hany1]

/-- A start on a registry that holds a Rebalance task and no Prepared task
conflicts. -/
theorem StartTopologyChange_conflict_of_rebalance (m1 : CtlMgr) (topologyRev : Revision)
    (engine : Nat → CtlChangeTopology → Except Error Revision) (now : Nat)
    (change : TopologyChange)
    (hp : ∀ y ∈ m1.tasks.taskHandles, y.task.Type_ ≠ TaskType.TaskTypePrepared)
    (hr : ∃ y ∈ m1.tasks.taskHandles, y.task.Type_ = TaskType.TaskTypeRebalance) :
    (StartTopologyChange m1 topologyRev engine now change).2 = some Error.ErrConflict := by
  have hskip := StartTopologyChange_loop_skip engine now change
    m1.Lock.tasks.taskHandles [] m1.Lock 0 false [] hp
  rw [List.append_nil] at hskip
  have hany : m1.Lock.tasks.taskHandles.any
      (fun x => x.task.Type_ = TaskType.TaskTypeRebalance) = true := by
    obtain ⟨y, hy, hyt⟩ := hr
    exact List.any_eq_true.mpr ⟨y, hy, by simpa using hyt⟩
  unfold StartTopologyChange
  simp only []
  by_cases h1 : change.CurrentTopologyRev.length > 0 ∧ change.CurrentTopologyRev ≠ topologyRev
  · rw [if_pos h1]
  · rw [if_neg h1, hskip, if_pos hany]

/-- C14: after a `PrepareTopologyChange` that returned no error, a second
`PrepareTopologyChange` issued next, for any change, returns `ErrConflict`;
after a `StartTopologyChange` that returned no error (in particular one that
followed a successful prepare), a second `StartTopologyChange` issued next, for
any change and any engine, returns `ErrConflict`.  This holds from every
registry, hence from every reachable one. -/
theorem second_call_conflicts (m : CtlMgr) :
    (∀ (topologyRev : Revision) (now : Nat) (change : TopologyChange),
      (PrepareTopologyChange m topologyRev now change).2 = none →
      ∀ (topologyRev2 : Revision) (now2 : Nat) (change2 : TopologyChange),
        (PrepareTopologyChange (PrepareTopologyChange m topologyRev now change).1
          topologyRev2 now2 change2).2 = some Error.ErrConflict) ∧
    (∀ (topologyRev : Revision) (engine : Nat → CtlChangeTopology → Except Error Revision)
      (now : Nat) (change : TopologyChange),
      (StartTopologyChange m topologyRev engine now change).2 = none →
      ∀ (topologyRev2 : Revision) (engine2 : Nat → CtlChangeTopology → Except Error Revision)
        (now2 : Nat) (change2 : TopologyChange),
        (StartTopologyChange (StartTopologyChange m topologyRev engine now change).1
          topologyRev2 engine2 now2 change2).2 = some Error.ErrConflict) := by
  constructor
  · intro topologyRev now change hok topologyRev2 now2 change2
    have hex : ∃ th ∈ (PrepareTopologyChange m topologyRev now change).1.tasks.taskHandles,
        isPreparedOrRebalance th = true := by
      unfold PrepareTopologyChange at hok ⊢
      simp only [] at hok ⊢
      split at hok
      · simp at hok
      · rename_i h1
        rw [if_neg h1]
        split at hok
        · simp at hok
        · rename_i h2
          rw [if_neg h2, updateTasksLOCKED_eq]
          exact ⟨_, List.mem_append_right _ (List.mem_singleton_self _), rfl⟩
    exact PrepareTopologyChange_conflict_of_any _ topologyRev2 now2 change2
      (List.any_eq_true.mpr hex)
  · intro topologyRev engine now change hok topologyRev2 engine2 now2 change2
    have hex : (∀ y ∈ (StartTopologyChange m topologyRev engine now change).1.tasks.taskHandles,
          y.task.Type_ ≠ TaskType.TaskTypePrepared) ∧
        ∃ y ∈ (StartTopologyChange m topologyRev engine now change).1.tasks.taskHandles,
          y.task.Type_ = TaskType.TaskTypeRebalance := by
      have hl := StartTopologyChange_loop_result engine now change m.Lock.tasks.taskHandles
        m.Lock 0 false []
      unfold StartTopologyChange at hok ⊢
      simp only [] at hok ⊢
      split at hok
      · simp at hok
      · rename_i h1
        rw [if_neg h1]
        rcases hloop : StartTopologyChange.loop engine now change m.Lock.tasks.taskHandles
          m.Lock 0 false [] with ⟨m1, res⟩
        rw [hloop] at hok hl
        rcases res with err | ⟨c, next⟩
        · simp at hok
        · cases c
          · simp at hok
          · obtain ⟨l1, hn, hp, hs⟩ := hl true next rfl
            simp only [if_neg (by simp : ¬ (true = false))]
            rw [updateTasksLOCKED_eq]
            show (∀ y ∈ next, _) ∧ ∃ y ∈ next, _
            rw [hn, List.nil_append]
            refine ⟨hp, ?_⟩
            rcases hs rfl with h | h
            · simp at h
            · exact h
    exact StartTopologyChange_conflict_of_rebalance _ topologyRev2 engine2 now2 change2
      hex.1 hex.2

/-- Witness of `second_call_conflicts`: from the empty registry, a second
prepare after a prepare, and, from the prepared registry, a second start after
a start, both conflict. -/
theorem second_call_conflicts_witness :
    (PrepareTopologyChange (PrepareTopologyChange NewCtlMgr [] 0 sampleChange).1
      [] 1 otherChange).2 = some Error.ErrConflict ∧
    (StartTopologyChange (StartTopologyChange preparedRegistry [] sampleEngine 0 sampleChange).1
      [] sampleEngine 1 otherChange).2 = some Error.ErrConflict :=
  ⟨(second_call_conflicts NewCtlMgr).1 [] 0 sampleChange (by decide) [] 1 otherChange,
   (second_call_conflicts preparedRegistry).2 [] sampleEngine 0 sampleChange (by decide)
     [] sampleEngine 1 otherChange⟩

/-- A revision is among the issued ones exactly when its allocation is in the
history. -/
theorem mem_issued (m : CtlMgr) (r : Nat) : r ∈ issued m ↔ Event.allocRev r ∈ m.trace := by
  unfold issued
  rw [List.mem_filterMap]
  constructor
  · rintro ⟨e, he, h⟩
    cases e <;> simp at h
    rw [← h]
    exact he
  · intro h
    exact ⟨_, h, rfl⟩

/-- The loop of `updateProgress` with a progress structure or an error, with
the revisions it allocates: as long as none of them reaches `2 ^ 64 - 1`, the
counter does not go down and every revision given to a task is at or above the
counter the loop started with. -/
theorem updateProgress_loop_revs (taskId : String) (p : Option ProgressEntries)
    (errs : List String) (progress : ℚ) (hkeep : p.isSome ∨ errs.length > 0) :
    ∀ (l : List taskHandle) (m : CtlMgr) (u : Bool) (acc : List taskHandle),
      ∃ (evs : List Event) (l1 : List taskHandle),
        (updateProgress.loop taskId p errs progress l m u acc).1.trace = m.trace ++ evs ∧
        (updateProgress.loop taskId p errs progress l m u acc).2.2 = acc ++ l1 ∧
        ((∀ r, Event.allocRev r ∈ evs → r < 2 ^ 64 - 1) →
          m.revNumNext ≤ (updateProgress.loop taskId p errs progress l m u acc).1.revNumNext ∧
          List.Forall₂ (fun th th1 =>
            if th.task.Id = taskId then
              ∃ r, Event.allocRev r ∈ evs ∧ m.revNumNext ≤ r ∧
                th1 = updateProgress.handleNext p errs progress th r
            else th1 = th) l l1) := by
  intro l
  induction l with
  | nil =>
    intro m u acc
    exact ⟨[], [], by simp [updateProgress.loop], by simp [updateProgress.loop],
      fun _ => ⟨le_refl _, List.Forall₂.nil⟩⟩
  | cons x rest ih =>
    intro m u acc
    by_cases hx : x.task.Id = taskId
    · obtain ⟨evs, l1, h1, h2, h3⟩ := ih (allocRevNumLOCKED m 0).2 true
        (acc ++ [updateProgress.handleNext p errs progress x (allocRevNumLOCKED m 0).1])
      have hstep : updateProgress.loop taskId p errs progress (x :: rest) m u acc =
          updateProgress.loop taskId p errs progress rest (allocRevNumLOCKED m 0).2 true
            (acc ++ [updateProgress.handleNext p errs progress x (allocRevNumLOCKED m 0).1]) := by
        rw [updateProgress.loop, if_pos hx, if_pos hkeep]
      refine ⟨Event.allocRev (allocRevNumLOCKED m 0).1 :: evs,
        updateProgress.handleNext p errs progress x (allocRevNumLOCKED m 0).1 :: l1, ?_, ?_, ?_⟩
      · rw [hstep, h1]
        simp [allocRevNumLOCKED]
      · rw [hstep, h2]
        simp
      · intro hb
        have hge := allocRevNumLOCKED_ge m 0
        have hlt := hb _ (List.mem_cons_self _ _)
        have hnext : (allocRevNumLOCKED m 0).2.revNumNext = (allocRevNumLOCKED m 0).1 + 1 := by
          show ((allocRevNumLOCKED m 0).1 + 1) % 2 ^ 64 = _
          exact Nat.mod_eq_of_lt (by omega)
        obtain ⟨h4, h5⟩ := h3 (fun r hr => hb r (List.mem_cons_of_mem _ hr))
        rw [hstep]
        refine ⟨by omega, List.Forall₂.cons ?_ (h5.imp ?_)⟩
        · rw [if_pos hx]
          exact ⟨_, List.mem_cons_self _ _, hge, rfl⟩
        · intro a b hab
          by_cases ha : a.task.Id = taskId
          · rw [if_pos ha] at hab ⊢
            obtain ⟨r, hr, hr1, hb1⟩ := hab
            exact ⟨r, List.mem_cons_of_mem _ hr, by omega, hb1⟩
          · rw [if_neg ha] at hab ⊢
            exact hab
    · obtain ⟨evs, l1, h1, h2, h3⟩ := ih m u (acc ++ [x])
      have hstep : updateProgress.loop taskId p errs progress (x :: rest) m u acc =
          updateProgress.loop taskId p errs progress rest m u (acc ++ [x]) := by
        rw [updateProgress.loop, if_neg hx]
      refine ⟨evs, x :: l1, by rw [hstep, h1], by rw [hstep, h2]; simp, ?_⟩
      intro hb
      obtain ⟨h4, h5⟩ := h3 hb
      rw [hstep]
      exact ⟨h4, List.Forall₂.cons (by rw [if_neg hx]) h5⟩

/-- A progress callback with a present progress structure, in a run where no
issued revision reaches `2 ^ 64 - 1`: what happens to each handle, with the
new revision compared with any old one below the counter. -/
theorem updateProgress_present_handles (m : CtlMgr) (taskId : String) (p : ProgressEntries)
    (errs : List String)
    (hbound : ∀ r ∈ issued (updateProgress m taskId (some p) errs), r < 2 ^ 64 - 1)
    (hrev : m.tasks.revNum < 2 ^ 64 - 1) :
    ∃ evs : List Event,
      (updateProgress m taskId (some p) errs).trace = m.trace ++ evs ∧
      List.Forall₂ (fun th th1 =>
        if th.task.Id = taskId then
          th1.startTime = th.startTime ∧
          (∃ r, Event.allocRev r ∈ evs ∧ th1.task.Rev = EncodeRev r ∧
            ∀ r0, th.task.Rev = EncodeRev r0 → r0 < m.revNumNext → r0 < r) ∧
          th1.task.Progress = float64Progress p ∧
          th1.task.Id = th.task.Id ∧ th1.task.Type_ = th.task.Type_ ∧
          th1.task.Status = th.task.Status ∧ th1.task.IsCancelable = th.task.IsCancelable ∧
          th1.task.DetailedProgress = th.task.DetailedProgress ∧
          th1.task.Description = th.task.Description ∧ th1.task.Extra = th.task.Extra
        else th1 = th)
        m.tasks.taskHandles (updateProgress m taskId (some p) errs).tasks.taskHandles ∧
      ((∃ th ∈ m.tasks.taskHandles, th.task.Id = taskId) →
        m.tasks.revNum < (updateProgress m taskId (some p) errs).tasks.revNum) := by
  have hkeep : (some p).isSome ∨ errs.length > 0 := Or.inl rfl
  obtain ⟨evs, l1, h1, h2, h3⟩ := updateProgress_loop_revs taskId (some p) errs
    (updateProgress.progress (some p)) hkeep m.tasks.taskHandles m.Lock false []
  obtain ⟨_, _, hk, _, _⟩ := updateProgress_loop_keep taskId (some p) errs
    (updateProgress.progress (some p)) hkeep m.tasks.taskHandles m.Lock false []
  have hfr := (updateProgress_loop_advances taskId (some p) errs
    (updateProgress.progress (some p)) m.tasks.taskHandles m.Lock false []).2.1
  have hu : (updateProgress.loop taskId (some p) errs (updateProgress.progress (some p))
      m.tasks.taskHandles m.Lock false []).2.1 =
      m.tasks.taskHandles.any (fun th => th.task.Id = taskId) := by
    rw [hk]
    simp
  have hrel : ∀ a b : taskHandle,
      (if a.task.Id = taskId then
        ∃ r, Event.allocRev r ∈ evs ∧ m.Lock.revNumNext ≤ r ∧
          b = updateProgress.handleNext (some p) errs (updateProgress.progress (some p)) a r
      else b = a) →
      (if a.task.Id = taskId then
        b.startTime = a.startTime ∧
        (∃ r, Event.allocRev r ∈ evs ∧ b.task.Rev = EncodeRev r ∧
          ∀ r0, a.task.Rev = EncodeRev r0 → r0 < m.revNumNext → r0 < r) ∧
        b.task.Progress = float64Progress p ∧
        b.task.Id = a.task.Id ∧ b.task.Type_ = a.task.Type_ ∧
        b.task.Status = a.task.Status ∧ b.task.IsCancelable = a.task.IsCancelable ∧
        b.task.DetailedProgress = a.task.DetailedProgress ∧
        b.task.Description = a.task.Description ∧ b.task.Extra = a.task.Extra
      else b = a) := by
    intro a b hab
    by_cases ha : a.task.Id = taskId
    · rw [if_pos ha] at hab ⊢
      obtain ⟨r, hr, hge, hb⟩ := hab
      subst hb
      refine ⟨rfl, ⟨r, hr, rfl, fun r0 _ hr0 => lt_of_lt_of_le hr0 hge⟩,
        progress_eq_float64Progress p, rfl, rfl, rfl, rfl, rfl, rfl, rfl⟩
    · rw [if_neg ha] at hab ⊢
      exact hab
  unfold updateProgress at hbound ⊢
  simp only [] at hbound ⊢
  rcases hloop : updateProgress.loop taskId (some p) errs (updateProgress.progress (some p))
    m.Lock.tasks.taskHandles m.Lock false [] with ⟨m1, u, next⟩
  have hloop1 : updateProgress.loop taskId (some p) errs (updateProgress.progress (some p))
    m.tasks.taskHandles m.Lock false [] = (m1, u, next) := hloop
  rw [hloop] at hbound
  rw [hloop1] at h1 h2 h3 hfr hu
  simp only [] at h1 h2 h3 hfr hu hbound ⊢
  have hm1 : m1.tasks = m.tasks := hfr
  rw [List.nil_append] at h2
  cases u
  · simp only [if_true] at hbound ⊢
    have hb : ∀ r, Event.allocRev r ∈ evs → r < 2 ^ 64 - 1 := by
      intro r hr
      apply hbound r
      rw [mem_issued]
      show Event.allocRev r ∈ m1.trace
      rw [h1]
      exact List.mem_append_right _ hr
    refine ⟨evs, h1, ?_, ?_⟩
    · show List.Forall₂ _ m.tasks.taskHandles m1.tasks.taskHandles
      rw [hm1]
      have hno : ∀ th ∈ m.tasks.taskHandles, th.task.Id ≠ taskId := by
        intro th hth
        have := List.any_eq_false.mp hu.symm th hth
        simpa using this
      have key : ∀ l : List taskHandle, (∀ th ∈ l, th.task.Id ≠ taskId) →
          List.Forall₂ (fun th th1 =>
            if th.task.Id = taskId then
              th1.startTime = th.startTime ∧
              (∃ r, Event.allocRev r ∈ evs ∧ th1.task.Rev = EncodeRev r ∧
                ∀ r0, th.task.Rev = EncodeRev r0 → r0 < m.revNumNext → r0 < r) ∧
              th1.task.Progress = float64Progress p ∧
              th1.task.Id = th.task.Id ∧ th1.task.Type_ = th.task.Type_ ∧
              th1.task.Status = th.task.Status ∧
              th1.task.IsCancelable = th.task.IsCancelable ∧
              th1.task.DetailedProgress = th.task.DetailedProgress ∧
              th1.task.Description = th.task.Description ∧ th1.task.Extra = th.task.Extra
            else th1 = th) l l := by
        intro l
        induction l with
        | nil => intro _; exact List.Forall₂.nil
        | cons x rest ih =>
          intro h
          refine List.Forall₂.cons ?_ (ih (fun th hth => h th (List.mem_cons_of_mem _ hth)))
          rw [if_neg (h x (List.mem_cons_self _ _))]
      exact key _ hno
    · rintro ⟨th, hth, hid⟩
      have := List.any_eq_false.mp hu.symm th hth
      simp [hid] at this
  · simp only [if_neg (by simp : ¬ (true = false))] at hbound ⊢
    rw [updateTasksLOCKED_eq] at hbound ⊢
    have hb : ∀ r, Event.allocRev r ∈ evs → r < 2 ^ 64 - 1 := by
      intro r hr
      apply hbound r
      rw [mem_issued]
      show Event.allocRev r ∈ m1.trace ++ _
      rw [h1]
      exact List.mem_append_left _ (List.mem_append_right _ hr)
    obtain ⟨_, h5⟩ := h3 hb
    refine ⟨evs ++ Event.allocRev (allocRevNumLOCKED m1 m1.tasks.revNum).1 ::
      (match m1.tasksWaitCh with
       | some ch => [Event.closeCh ch]
       | none => []), ?_, ?_, ?_⟩
    · show m1.trace ++ _ = m.trace ++ (evs ++ _)
      rw [h1]
      exact List.append_assoc _ _ _
    · show List.Forall₂ _ m.tasks.taskHandles next
      rw [h2]
      refine h5.imp ?_
      intro a b hab
      have := hrel a b hab
      by_cases ha : a.task.Id = taskId
      · rw [if_pos ha] at this ⊢
        obtain ⟨g1, ⟨r, hr, g2, g3⟩, g4⟩ := this
        exact ⟨g1, ⟨r, List.mem_append_left _ hr, g2, g3⟩, g4⟩
      · rw [if_neg ha] at this ⊢
        exact this
    · intro _
      show m.tasks.revNum < (allocRevNumLOCKED m1 m1.tasks.revNum).1
      rw [hm1]
      exact allocRevNumLOCKED_gt _ _ hrev

/-- Relating two lists handle by handle, with the handle of the first list
known to be in it. -/
theorem Forall2_imp_mem {R S : taskHandle → taskHandle → Prop} {l l1 : List taskHandle}
    (h : List.Forall₂ R l l1) (hRS : ∀ a ∈ l, ∀ b, R a b → S a b) : List.Forall₂ S l l1 := by
  induction h with
  | nil => exact List.Forall₂.nil
  | @cons a b _ _ hab _ ih =>
    exact List.Forall₂.cons (hRS a (List.mem_cons_self _ _) b hab)
      (ih (fun a1 ha1 b1 hr => hRS a1 (List.mem_cons_of_mem _ ha1) b1 hr))

/-- C15: a progress callback with a present progress structure, in a run
where no issued revision reaches `2 ^ 64 - 1`: every task with the callback's
id is replaced at its place by a handle with the same start time whose task is
a copy with a `Rev` that encodes a revision allocated during the call, greater
than the revision the old `Rev` encoded when that is below the counter, and
with the aggregated progress (the `float64` quotient of the two totals), while
its id, type, status, cancelable flag, detailed progress, description and
payload are unchanged; every other handle is unchanged and keeps its place;
when a task has the id the task-list revision has grown; and in a settled
registry, as every registry reached from `NewCtlMgr` is, the new `Rev` of each
task with the id encodes a revision strictly greater than the one its old
`Rev` encodes. -/
theorem updateProgress_present (m : CtlMgr) (taskId : String) (p : ProgressEntries)
    (errs : List String)
    (hbound : ∀ r ∈ issued (updateProgress m taskId (some p) errs), r < 2 ^ 64 - 1)
    (hrev : m.tasks.revNum < 2 ^ 64 - 1) :
    ∃ evs : List Event,
      (updateProgress m taskId (some p) errs).trace = m.trace ++ evs ∧
      List.Forall₂ (fun th th1 =>
        if th.task.Id = taskId then
          th1.startTime = th.startTime ∧
          (∃ r, Event.allocRev r ∈ evs ∧ th1.task.Rev = EncodeRev r ∧
            ∀ r0, th.task.Rev = EncodeRev r0 → r0 < m.revNumNext → r0 < r) ∧
          th1.task.Progress = float64Progress p ∧
          th1.task.Id = th.task.Id ∧ th1.task.Type_ = th.task.Type_ ∧
          th1.task.Status = th.task.Status ∧ th1.task.IsCancelable = th.task.IsCancelable ∧
          th1.task.DetailedProgress = th.task.DetailedProgress ∧
          th1.task.Description = th.task.Description ∧ th1.task.Extra = th.task.Extra
        else th1 = th)
        m.tasks.taskHandles (updateProgress m taskId (some p) errs).tasks.taskHandles ∧
      ((∃ th ∈ m.tasks.taskHandles, th.task.Id = taskId) →
        m.tasks.revNum < (updateProgress m taskId (some p) errs).tasks.revNum) ∧
      (Settled m →
        List.Forall₂ (fun th th1 =>
          th.task.Id = taskId →
            ∃ r0 r, th.task.Rev = EncodeRev r0 ∧ th1.task.Rev = EncodeRev r ∧
              Event.allocRev r ∈ evs ∧ r0 < r)
          m.tasks.taskHandles (updateProgress m taskId (some p) errs).tasks.taskHandles) := by
  obtain ⟨evs, h1, h2, h3⟩ := updateProgress_present_handles m taskId p errs hbound hrev
  refine ⟨evs, h1, h2, h3, fun hs => ?_⟩
  refine Forall2_imp_mem h2 ?_
  intro a ha b hab hid
  rw [if_pos hid] at hab
  obtain ⟨_, ⟨r, hr, hrb, hlt⟩, _⟩ := hab
  obtain ⟨r0, hr0, hr0lt⟩ := hs.2.2 a ha
  exact ⟨r0, r, hr0, hrb, hr, hlt r0 hr0 (by have := hs.1; omega)⟩

/-- Witness of `updateProgress_present`: the spec's two entries reported for
the running rebalance, whose task goes from revision 3 to revision 5 while the
task list goes from revision 4 to revision 6. -/
theorem updateProgress_present_witness :
    (startedRegistry.tasks.revNum <
      (updateProgress startedRegistry "rebalance:a" (some sampleEntries) []).tasks.revNum) ∧
    startedRegistry.tasks.taskHandles.map (fun th => th.task.Rev) = [EncodeRev 3] ∧
    (updateProgress startedRegistry "rebalance:a" (some sampleEntries) []).tasks.taskHandles.map
      (fun th => th.task.Rev) = [EncodeRev 5] := by
  obtain ⟨_, _, _, h, _⟩ := updateProgress_present startedRegistry "rebalance:a" sampleEntries []
    (by decide) (by decide)
  exact ⟨h (by decide), by decide, by decide⟩

/-! ## `DecodeRev` on every byte string -/

/-- Reading more digits does not make the value smaller. -/
theorem foldl_digits_ge : ∀ (cs : List Nat) (a : Nat),
    a ≤ cs.foldl (fun acc c => acc * 10 + (c - 48)) a := by
  intro cs
  induction cs with
  | nil => intro a; exact le_refl _
  | cons c cs ih =>
    intro a
    rw [List.foldl_cons]
    exact le_trans (by omega) (ih _)

/-- The loop of `DecodeRev`, started below `2 ^ 64`, succeeds exactly on
digits whose value stays below `2 ^ 64`, and returns that value. -/
theorem DecodeRev_loop_ok : ∀ (cs : List Nat) (n v : Nat), n ≤ 2 ^ 64 - 1 →
    (DecodeRev.loop cs n = .ok v ↔
      (∀ c ∈ cs, 48 ≤ c ∧ c ≤ 57) ∧
      cs.foldl (fun acc c => acc * 10 + (c - 48)) n = v ∧ v ≤ 2 ^ 64 - 1) := by
  intro cs
  induction cs with
  | nil =>
    intro n v hn
    simp only [DecodeRev.loop, List.foldl_nil]
    constructor
    · intro h
      injection h with h
      exact ⟨by simp, h, by omega⟩
    · rintro ⟨_, h, _⟩
      rw [h]
  | cons c cs ih =>
    intro n v hn
    rw [DecodeRev.loop, List.foldl_cons]
    have hmono := foldl_digits_ge cs (n * 10 + (c - 48))
    by_cases hd : 48 ≤ c ∧ c ≤ 57
    · rw [if_pos hd]
      by_cases h1 : n ≥ (2 ^ 64 - 1) / 10 + 1
      · rw [if_pos h1]
        constructor
        · intro h; cases h
        · rintro ⟨_, h, hv⟩
          omega
      · rw [if_neg h1]
        by_cases h2 : n * 10 + (c - 48) > 2 ^ 64 - 1
        · rw [if_pos h2]
          constructor
          · intro h; cases h
          · rintro ⟨_, h, hv⟩
            omega
        · rw [if_neg h2, ih _ v (by omega)]
          constructor
          · rintro ⟨ha, hb⟩
            exact ⟨fun x hx => by
              rcases List.mem_cons.mp hx with rfl | hx
              · exact hd
              · exact ha x hx, hb⟩
          · rintro ⟨ha, hb⟩
            exact ⟨fun x hx => ha x (List.mem_cons_of_mem _ hx), hb⟩
    · rw [if_neg hd]
      constructor
      · intro h; cases h
      · rintro ⟨ha, _⟩
        exact absurd (ha c (List.mem_cons_self _ _)) hd

/-- C21: `DecodeRev` is a total function; it returns the number `n` exactly
when the byte string is not empty, holds only the digits `0` to `9`, and
denotes `n` with `n ≤ 2 ^ 64 - 1`; on every other byte string (empty,
holding a byte that is not a digit, such as a sign, or denoting a larger
number) it returns an error. -/
theorem DecodeRev_spec (b : Revision) :
    (∀ n : Nat, DecodeRev b = .ok n ↔
      (b ≠ [] ∧ (∀ c ∈ b, 48 ≤ c ∧ c ≤ 57) ∧ decimalValue b = n ∧ n ≤ 2 ^ 64 - 1)) ∧
    ((b = [] ∨ (∃ c ∈ b, ¬ (48 ≤ c ∧ c ≤ 57)) ∨ decimalValue b > 2 ^ 64 - 1) →
      ∃ err, DecodeRev b = .error err) ∧
    ((∃ n, DecodeRev b = .ok n) ∨ ∃ err, DecodeRev b = .error err) := by
  have hiff : ∀ n : Nat, DecodeRev b = .ok n ↔
      (b ≠ [] ∧ (∀ c ∈ b, 48 ≤ c ∧ c ≤ 57) ∧ decimalValue b = n ∧ n ≤ 2 ^ 64 - 1) := by
    intro n
    cases b with
    | nil =>
      simp only [DecodeRev]
      constructor
      · intro h; cases h
      · rintro ⟨h, _⟩; exact absurd rfl h
    | cons c cs =>
      have : DecodeRev (c :: cs) = DecodeRev.loop (c :: cs) 0 := rfl
      rw [this, DecodeRev_loop_ok (c :: cs) 0 n (by omega)]
      unfold decimalValue
      constructor
      · rintro ⟨h1, h2⟩
        exact ⟨by simp, h1, h2⟩
      · rintro ⟨_, h1, h2⟩
        exact ⟨h1, h2⟩
  have htot : (∃ n, DecodeRev b = .ok n) ∨ ∃ err, DecodeRev b = .error err := by
    cases h : DecodeRev b with
    | ok n => exact Or.inl ⟨n, rfl⟩
    | error err => exact Or.inr ⟨err, rfl⟩
  refine ⟨hiff, ?_, htot⟩
  intro hbad
  rcases htot with ⟨n, hn⟩ | h
  · obtain ⟨h1, h2, h3, h4⟩ := (hiff n).mp hn
    rcases hbad with hb | ⟨c, hc, hcd⟩ | hb
    · exact absurd hb h1
    · exact absurd (h2 c hc) hcd
    · omega
  · exact h

/-! ## The `stop` of a handle across progress updates -/

/-- C24, at the input where the code departs from it: the handle that a
progress update puts in place keeps the start time but has no `stop` (for
every registry and every callback that carries a progress structure or an
error).  The rebalance started for change `a` has a `stop` that calls
`StopChangeTopology` with the engine's revision, and a cancel right away makes
that call; after one progress callback the handle has no `stop`, and the
cancel, which still succeeds and removes the task, makes no
`StopChangeTopology` call: the history grows by the allocation only. -/
theorem progress_update_drops_stop :
    (∀ (m : CtlMgr) (taskId : String) (p : Option ProgressEntries) (errs : List String),
      p.isSome ∨ errs.length > 0 →
      List.Forall₂ (fun th th1 =>
        if th.task.Id = taskId then th1.startTime = th.startTime ∧ th1.stop = none
        else th1 = th)
        m.tasks.taskHandles (updateProgress m taskId p errs).tasks.taskHandles) ∧
    startedRegistry.tasks.taskHandles.map (fun th => (th.task.Id, th.startTime, th.stop)) =
      [("rebalance:a", 0, some [55])] ∧
    (CancelTask startedRegistry "rebalance:a" none).2 = none ∧
    (CancelTask startedRegistry "rebalance:a" none).1.trace =
      startedRegistry.trace ++ [Event.stopChangeTopology [55], Event.allocRev 5] ∧
    progressedRegistry.tasks.taskHandles.map (fun th => (th.task.Id, th.startTime, th.stop)) =
      [("rebalance:a", 0, none)] ∧
    (CancelTask progressedRegistry "rebalance:a" none).2 = none ∧
    (CancelTask progressedRegistry "rebalance:a" none).1.tasks.taskHandles = [] ∧
    (CancelTask progressedRegistry "rebalance:a" none).1.trace =
      progressedRegistry.trace ++ [Event.allocRev 7] := by
  refine ⟨?_, by decide, by decide, by decide, by decide, by decide, by decide, by decide⟩
  intro m taskId p errs hkeep
  obtain ⟨evs, _, h2⟩ := updateProgress_keep m taskId p errs hkeep
  refine h2.imp ?_
  intro a b hab
  by_cases ha : a.task.Id = taskId
  · rw [if_pos ha] at hab ⊢
    obtain ⟨r, _, hb⟩ := hab
    subst hb
    exact ⟨rfl, rfl⟩
  · rw [if_neg ha] at hab ⊢
    exact hab

/-! ## The mutex -/

/-- The wait loop of `GetTaskList` leaves the mutex free, whether it returns
or blocks. -/
theorem GetTaskList_wait_mu (h : Nat) : ∀ (evs : List WaitEvent) (m : CtlMgr),
    (GetTaskList.wait h m evs).registry.mu = false := by
  intro evs
  induction evs with
  | nil =>
    intro m
    rw [GetTaskList.wait]
    split <;> rfl
  | cons ev evs ih =>
    intro m
    rw [GetTaskList.wait]
    split
    · cases ev with
      | cancel => rfl
      | signalled s => exact ih s.Lock
    · rfl

theorem CancelTask_mu (m : CtlMgr) (taskId : String) (taskRev : Option Revision) :
    (CancelTask m taskId taskRev).1.mu = false := by
  unfold CancelTask
  simp only []
  rcases CancelTask.loop taskId taskRev m.Lock.tasks.taskHandles m.Lock false []
    with ⟨m1, res⟩
  rcases res with err | ⟨c, next⟩
  · rfl
  · cases c <;> rfl

theorem PrepareTopologyChange_mu (m : CtlMgr) (topologyRev : Revision) (now : Nat)
    (change : TopologyChange) : (PrepareTopologyChange m topologyRev now change).1.mu = false := by
  unfold PrepareTopologyChange
  simp only []
  split
  · rfl
  · split <;> rfl

theorem StartTopologyChange_mu (m : CtlMgr) (topologyRev : Revision)
    (engine : Nat → CtlChangeTopology → Except Error Revision) (now : Nat)
    (change : TopologyChange) :
    (StartTopologyChange m topologyRev engine now change).1.mu = false := by
  unfold StartTopologyChange
  simp only []
  split
  · rfl
  · rcases StartTopologyChange.loop engine now change m.Lock.tasks.taskHandles m.Lock 0 false []
      with ⟨m1, res⟩
    rcases res with err | ⟨c, next⟩
    · rfl
    · cases c <;> rfl

theorem updateProgress_mu (m : CtlMgr) (taskId : String) (p : Option ProgressEntries)
    (errs : List String) : (updateProgress m taskId p errs).mu = false := by
  unfold updateProgress
  simp only []
  rcases updateProgress.loop taskId p errs (updateProgress.progress p)
    m.Lock.tasks.taskHandles m.Lock false [] with ⟨m1, u, next⟩
  cases u <;> rfl

/-- C25, at the input where the code departs from it: `GetTaskList` called
with a non-empty known revision that does not decode returns the decode error
with the mutex still held (for the one-byte revision `x` on the new registry:
`ErrSyntax`, mutex held).  On every other path the mutex is free afterwards:
`GetTaskList` with an empty revision or one that decodes, whether it returns a
snapshot, returns on cancellation or is blocked in its wait, and `CancelTask`,
`PrepareTopologyChange`, `StartTopologyChange` and `updateProgress` on all
their returns. -/
theorem GetTaskList_decode_error_keeps_mutex :
    (∀ (m : CtlMgr) (haveTasksRev : Revision) (evs : List WaitEvent) (err : Error),
      haveTasksRev ≠ [] → DecodeRev haveTasksRev = .error err →
      GetTaskList m haveTasksRev evs = .returned none (some err) m.Lock ∧
      (GetTaskList m haveTasksRev evs).registry.mu = true) ∧
    GetTaskList NewCtlMgr [120] [] =
      .returned none (some Error.ErrSyntax) { NewCtlMgr with mu := true } ∧
    (∀ (m : CtlMgr) (haveTasksRev : Revision) (evs : List WaitEvent),
      (haveTasksRev = [] ∨ ∃ h, DecodeRev haveTasksRev = .ok h) →
      (GetTaskList m haveTasksRev evs).registry.mu = false) ∧
    (∀ (m : CtlMgr) (taskId : String) (taskRev : Option Revision),
      (CancelTask m taskId taskRev).1.mu = false) ∧
    (∀ (m : CtlMgr) (topologyRev : Revision) (now : Nat) (change : TopologyChange),
      (PrepareTopologyChange m topologyRev now change).1.mu = false) ∧
    (∀ (m : CtlMgr) (topologyRev : Revision)
      (engine : Nat → CtlChangeTopology → Except Error Revision) (now : Nat)
      (change : TopologyChange),
      (StartTopologyChange m topologyRev engine now change).1.mu = false) ∧
    (∀ (m : CtlMgr) (taskId : String) (p : Option ProgressEntries) (errs : List String),
      (updateProgress m taskId p errs).mu = false) := by
  refine ⟨?_, rfl, ?_, CancelTask_mu, PrepareTopologyChange_mu, StartTopologyChange_mu,
    updateProgress_mu⟩
  · intro m haveTasksRev evs err hne hdec
    have hpos : haveTasksRev.length > 0 := List.length_pos.mpr hne
    have h : GetTaskList m haveTasksRev evs = .returned none (some err) m.Lock := by
      unfold GetTaskList
      simp only [if_pos hpos, hdec]
    rw [h]
    exact ⟨rfl, rfl⟩
  · intro m haveTasksRev evs hrev
    rcases hrev with h | ⟨h, hdec⟩
    · rw [h]
      rfl
    · by_cases hpos : haveTasksRev.length > 0
      · have : GetTaskList m haveTasksRev evs = GetTaskList.wait h m.Lock evs := by
          unfold GetTaskList
          simp only [if_pos hpos, hdec]
        rw [this]
        exact GetTaskList_wait_mu h evs m.Lock
      · have : GetTaskList m haveTasksRev evs =
            .returned (some (getTaskListLOCKED m.Lock)) none m.Lock.Unlock := by
          unfold GetTaskList
          simp only [if_neg hpos]
        rw [this]
        rfl

/-! ## The request of a start and the registry after a failed start -/

/-- The loop that collects the member node ids builds the list of the node
ids in order. -/
theorem foldl_nodeIds (nodes : List KeepNode) : ∀ acc : List String,
    nodes.foldl (fun acc node => acc ++ [node.NodeInfo.NodeId]) acc =
      acc ++ nodes.map (fun node => node.NodeInfo.NodeId) := by
  induction nodes with
  | nil => intro acc; simp
  | cons x rest ih => intro acc; simp [ih]

/-- The three ways `startTopologyChangeTaskHandleLOCKED` ends: a change type
without a mode gives `ErrNotSupported` and touches nothing; otherwise
`ChangeTopology` is called with the request of the spec, and either its error
is returned, or one revision is allocated from the task-list revision and the
Rebalance handle is returned. -/
theorem startTopologyChangeTaskHandleLOCKED_cases (m : CtlMgr)
    (outcome : CtlChangeTopology → Except Error Revision) (now : Nat) (change : TopologyChange) :
    (change.Type_ = TopologyChangeType.TopologyChangeTypeOther ∧
      startTopologyChangeTaskHandleLOCKED m outcome now change =
        (m, .error Error.ErrNotSupported)) ∨
    ∃ mode, modeFor change mode ∧
      ((∃ err, outcome (requestOf change mode) = .error err ∧
          startTopologyChangeTaskHandleLOCKED m outcome now change =
            (m.log (Event.changeTopology (requestOf change mode) ("rebalance:" ++ change.Id)),
              .error err)) ∨
       (∃ rev, outcome (requestOf change mode) = .ok rev ∧
          startTopologyChangeTaskHandleLOCKED m outcome now change =
            ((allocRevNumLOCKED
                (m.log (Event.changeTopology (requestOf change mode) ("rebalance:" ++ change.Id)))
                m.tasks.revNum).2,
              .ok (rebalanceHandle now change
                (allocRevNumLOCKED
                  (m.log (Event.changeTopology (requestOf change mode)
                    ("rebalance:" ++ change.Id)))
                  m.tasks.revNum).1 rev)))) := by
  have hreq : ∀ mode : String,
      ({ Rev := change.CurrentTopologyRev, Mode := mode,
         MemberNodeUUIDs := change.KeepNodes.foldl
           (fun acc node => acc ++ [node.NodeInfo.NodeId]) [] } : CtlChangeTopology) =
        requestOf change mode := by
    intro mode
    unfold requestOf
    rw [foldl_nodeIds, List.nil_append]
  unfold startTopologyChangeTaskHandleLOCKED
  cases hc : change.Type_ with
  | TopologyChangeTypeOther => exact Or.inl ⟨rfl, rfl⟩
  | TopologyChangeTypeRebalance =>
    refine Or.inr ⟨"rebalance", Or.inl ⟨hc, rfl⟩, ?_⟩
    simp only [hreq]
    cases ho : outcome (requestOf change "rebalance") with
    | error err => exact Or.inl ⟨err, rfl, rfl⟩
    | ok rev => exact Or.inr ⟨rev, rfl, rfl⟩
  | TopologyChangeTypeFailover =>
    refine Or.inr ⟨"failover-hard", Or.inr ⟨hc, rfl⟩, ?_⟩
    simp only [hreq]
    cases ho : outcome (requestOf change "failover-hard") with
    | error err => exact Or.inl ⟨err, rfl, rfl⟩
    | ok rev => exact Or.inr ⟨rev, rfl, rfl⟩

/-- With at most one Prepared or Rebalance handle, the list has none, or
splits around the one it has. -/
theorem countP_le_one_split : ∀ l : List taskHandle,
    l.countP isPreparedOrRebalance ≤ 1 →
    (∀ x ∈ l, isPreparedOrRebalance x = false) ∨
    ∃ l1 th l2, l = l1 ++ th :: l2 ∧ isPreparedOrRebalance th = true ∧
      (∀ x ∈ l1, isPreparedOrRebalance x = false) ∧
      (∀ x ∈ l2, isPreparedOrRebalance x = false) := by
  intro l
  induction l with
  | nil => intro _; exact Or.inl (by simp)
  | cons x rest ih =>
    intro h
    by_cases hx : isPreparedOrRebalance x = true
    · rw [List.countP_cons_of_pos _ _ hx] at h
      have h0 : rest.countP isPreparedOrRebalance = 0 := by omega
      have hrest : ∀ y ∈ rest, isPreparedOrRebalance y = false := by
        intro y hy
        have := List.countP_eq_zero.mp h0 y hy
        simpa using this
      exact Or.inr ⟨[], x, rest, rfl, hx, by simp, hrest⟩
    · have hx1 : isPreparedOrRebalance x = false := by simpa using hx
      rw [List.countP_cons_of_neg _ _ hx] at h
      rcases ih h with h1 | ⟨l1, th, l2, hl, hth, hl1, hl2⟩
      · refine Or.inl ?_
        intro y hy
        rcases List.mem_cons.mp hy with rfl | hy
        · exact hx1
        · exact h1 y hy
      · refine Or.inr ⟨x :: l1, th, l2, by rw [hl]; rfl, hth, ?_, hl2⟩
        intro y hy
        rcases List.mem_cons.mp hy with rfl | hy
        · exact hx1
        · exact hl1 y hy

theorem not_topology_types (x : taskHandle) (h : isPreparedOrRebalance x = false) :
    x.task.Type_ ≠ TaskType.TaskTypeRebalance ∧ x.task.Type_ ≠ TaskType.TaskTypePrepared := by
  unfold isPreparedOrRebalance at h
  simp at h
  exact ⟨h.2, h.1⟩

/-- The loop of `StartTopologyChange` walks over handles that are neither
Prepared nor Rebalance and goes on behind them. -/
theorem StartTopologyChange_loop_pass
    (engine : Nat → CtlChangeTopology → Except Error Revision) (now : Nat)
    (change : TopologyChange) (l1 l2 : List taskHandle) (m : CtlMgr) (k : Nat) (s : Bool)
    (acc : List taskHandle) (h : ∀ x ∈ l1, isPreparedOrRebalance x = false) :
    StartTopologyChange.loop engine now change (l1 ++ l2) m k s acc =
      StartTopologyChange.loop engine now change l2 m k s (acc ++ l1) := by
  rw [StartTopologyChange_loop_skip engine now change l1 l2 m k s acc
    (fun x hx => (not_topology_types x (h x hx)).2)]
  have hany : l1.any (fun x => x.task.Type_ = TaskType.TaskTypeRebalance) = false := by
    apply List.any_eq_false.mpr
    intro x hx
    simpa using (not_topology_types x (h x hx)).1
  rw [hany]
  rfl

/-- Every way `StartTopologyChange` ends on a registry with at most one
Prepared or Rebalance task: with `ErrConflict`, `ErrNotFound` or
`ErrNotSupported` and the registry as before (mutex released); with the
engine's error after one `ChangeTopology` call, the registry as before but for
that call in the history; or with no error, the one Prepared task replaced by
the Rebalance handle. -/
theorem StartTopologyChange_cases (m : CtlMgr) (topologyRev : Revision)
    (engine : Nat → CtlChangeTopology → Except Error Revision) (now : Nat)
    (change : TopologyChange)
    (hone : m.tasks.taskHandles.countP isPreparedOrRebalance ≤ 1) :
    StartTopologyChange m topologyRev engine now change = (m.Unlock, some Error.ErrConflict) ∨
    StartTopologyChange m topologyRev engine now change = (m.Unlock, some Error.ErrNotFound) ∨
    (change.Type_ = TopologyChangeType.TopologyChangeTypeOther ∧
      StartTopologyChange m topologyRev engine now change =
        (m.Unlock, some Error.ErrNotSupported)) ∨
    (∃ mode err, modeFor change mode ∧ engine 0 (requestOf change mode) = .error err ∧
      StartTopologyChange m topologyRev engine now change =
        ((m.Lock.log (Event.changeTopology (requestOf change mode)
            ("rebalance:" ++ change.Id))).Unlock, some err)) ∨
    (∃ mode rev l1 th l2, modeFor change mode ∧ engine 0 (requestOf change mode) = .ok rev ∧
      m.tasks.taskHandles = l1 ++ th :: l2 ∧
      th.task.Type_ = TaskType.TaskTypePrepared ∧
      (∀ x ∈ l1, isPreparedOrRebalance x = false) ∧
      (∀ x ∈ l2, isPreparedOrRebalance x = false) ∧
      StartTopologyChange m topologyRev engine now change =
        ((updateTasksLOCKED
            (allocRevNumLOCKED
              (m.Lock.log (Event.changeTopology (requestOf change mode)
                ("rebalance:" ++ change.Id))) m.tasks.revNum).2
            (fun s => { s with taskHandles :=
              (l1 ++ rebalanceHandle now change
                (allocRevNumLOCKED
                  (m.Lock.log (Event.changeTopology (requestOf change mode)
                    ("rebalance:" ++ change.Id))) m.tasks.revNum).1 rev :: l2) })).Unlock,
          none)) := by
  unfold StartTopologyChange
  simp only []
  by_cases h1 : change.CurrentTopologyRev.length > 0 ∧ change.CurrentTopologyRev ≠ topologyRev
  · rw [if_pos h1]
    exact Or.inl rfl
  · rw [if_neg h1]
    rcases countP_le_one_split _ hone with hnone | ⟨l1, th, l2, hl, hth, hl1, hl2⟩
    · rw [show m.Lock.tasks.taskHandles = m.tasks.taskHandles from rfl,
        StartTopologyChange_loop_no_match engine now change _ _ _ _ _
          (fun x hx => not_topology_types x (hnone x hx))]
      exact Or.inr (Or.inl rfl)
    · rw [show m.Lock.tasks.taskHandles = l1 ++ th :: l2 from hl,
        StartTopologyChange_loop_pass engine now change l1 (th :: l2) m.Lock 0 false [] hl1,
        StartTopologyChange.loop]
      by_cases hr : th.task.Type_ = TaskType.TaskTypeRebalance
      · rw [if_pos hr]
        exact Or.inl rfl
      · have hp : th.task.Type_ = TaskType.TaskTypePrepared := by
          unfold isPreparedOrRebalance at hth
          simp at hth
          rcases hth with h | h
          · exact h
          · exact absurd h hr
        rw [if_neg hr, if_pos hp]
        rcases startTopologyChangeTaskHandleLOCKED_cases m.Lock (engine 0) now change with
          ⟨hother, hs⟩ | ⟨mode, hmode, ⟨err, herr, hs⟩ | ⟨rev, hrev, hs⟩⟩
        · rw [hs]
          exact Or.inr (Or.inr (Or.inl ⟨hother, rfl⟩))
        · rw [hs]
          exact Or.inr (Or.inr (Or.inr (Or.inl ⟨mode, err, hmode, herr, rfl⟩)))
        · rw [hs]
          simp only []
          have hpass := StartTopologyChange_loop_no_match engine now change l2
            (allocRevNumLOCKED
              (m.Lock.log (Event.changeTopology (requestOf change mode)
                ("rebalance:" ++ change.Id))) m.Lock.tasks.revNum).2 (0 + 1) true
            ([] ++ l1 ++ [rebalanceHandle now change
              (allocRevNumLOCKED
                (m.Lock.log (Event.changeTopology (requestOf change mode)
                  ("rebalance:" ++ change.Id))) m.Lock.tasks.revNum).1 rev])
            (fun x hx => not_topology_types x (hl2 x hx))
          rw [hpass]
          refine Or.inr (Or.inr (Or.inr (Or.inr
            ⟨mode, rev, l1, th, l2, hmode, hrev, hl, hp, hl1, hl2, ?_⟩)))
          simp only [if_neg (by simp : ¬ (true = false))]
          have hlist : [] ++ l1 ++ [rebalanceHandle now change
              (allocRevNumLOCKED
                (m.Lock.log (Event.changeTopology (requestOf change mode)
                  ("rebalance:" ++ change.Id))) m.Lock.tasks.revNum).1 rev] ++ l2 =
              l1 ++ rebalanceHandle now change
                (allocRevNumLOCKED
                  (m.Lock.log (Event.changeTopology (requestOf change mode)
                    ("rebalance:" ++ change.Id))) m.tasks.revNum).1 rev :: l2 := by
            simp
            rfl
          rw [hlist]
          rfl

/-- A `GetTaskList` that has returned or is blocked has left the tasks as they
were. -/
theorem GetTaskList_registry_tasks (m : CtlMgr) (haveTasksRev : Revision) :
    (GetTaskList m haveTasksRev []).registry.tasks = m.tasks := by
  unfold GetTaskList
  simp only []
  by_cases hlen : haveTasksRev.length > 0
  · rw [if_pos hlen]
    cases DecodeRev haveTasksRev with
    | error err => rfl
    | ok h =>
      simp only []
      rw [GetTaskList.wait]
      by_cases hh : h = m.Lock.tasks.revNum
      · rw [if_pos hh]
        cases hch : m.Lock.tasksWaitCh <;> rfl
      · rw [if_neg hh]
        rfl
  · rw [if_neg hlen]
    rfl

theorem runCalls_countP (calls : List Call) : ∀ m : CtlMgr,
    m.tasks.taskHandles.countP isPreparedOrRebalance ≤ 1 →
    (runCalls m calls).tasks.taskHandles.countP isPreparedOrRebalance ≤ 1 := by
  induction calls with
  | nil => intro m h; exact h
  | cons c calls ih =>
    intro m h
    apply ih
    cases c with
    | op o => exact step_countP m o h
    | getTaskList haveTasksRev =>
      show (GetTaskList m haveTasksRev []).registry.tasks.taskHandles.countP _ ≤ 1
      rw [GetTaskList_registry_tasks]
      exact h

/-- In a registry with at most one Prepared or Rebalance task, a
`StartTopologyChange` that returns an error has changed nothing but the
history and the mutex. -/
theorem StartTopologyChange_error_frame_of (m : CtlMgr) (topologyRev : Revision)
    (engine : Nat → CtlChangeTopology → Except Error Revision) (now : Nat)
    (change : TopologyChange) (err : Error)
    (hone : m.tasks.taskHandles.countP isPreparedOrRebalance ≤ 1)
    (herr : (StartTopologyChange m topologyRev engine now change).2 = some err) :
    (StartTopologyChange m topologyRev engine now change).1.tasks = m.tasks ∧
    (StartTopologyChange m topologyRev engine now change).1.revNumNext = m.revNumNext ∧
    (StartTopologyChange m topologyRev engine now change).1.tasksWaitCh = m.tasksWaitCh ∧
    (StartTopologyChange m topologyRev engine now change).1.chFresh = m.chFresh ∧
    (StartTopologyChange m topologyRev engine now change).1.mu = false ∧
    (err = Error.ErrConflict ∨ err = Error.ErrNotFound ∨ err = Error.ErrNotSupported ∨
      ∃ mode, modeFor change mode ∧ engine 0 (requestOf change mode) = .error err) := by
  rcases StartTopologyChange_cases m topologyRev engine now change hone with
    h | h | ⟨_, h⟩ | ⟨mode, e, hmode, he, h⟩ | ⟨mode, rev, l1, th, l2, _, _, _, _, _, _, h⟩
  · rw [h] at herr ⊢
    injection herr with herr
    exact ⟨rfl, rfl, rfl, rfl, rfl, Or.inl herr.symm⟩
  · rw [h] at herr ⊢
    injection herr with herr
    exact ⟨rfl, rfl, rfl, rfl, rfl, Or.inr (Or.inl herr.symm)⟩
  · rw [h] at herr ⊢
    injection herr with herr
    exact ⟨rfl, rfl, rfl, rfl, rfl, Or.inr (Or.inr (Or.inl herr.symm))⟩
  · rw [h] at herr ⊢
    injection herr with herr
    subst herr
    exact ⟨rfl, rfl, rfl, rfl, rfl, Or.inr (Or.inr (Or.inr ⟨mode, hmode, he⟩))⟩
  · rw [h] at herr
    simp at herr

/-- C27: in every registry reached from `NewCtlMgr` by prepare, start, cancel,
progress and `GetTaskList` calls, so with or without a waiter and its wait
channel, when `StartTopologyChange` returns an error, the tasks (the task list
and the task-list revision), the allocator counter and the wait channel are
the same as before the call, no channel was made, and the mutex is free; the
error is `ErrConflict`, `ErrNotFound`, `ErrNotSupported`, or the error the
engine's `ChangeTopology` returned for the request of the call, passed on
unchanged. -/
theorem StartTopologyChange_error_frame (calls : List Call) (topologyRev : Revision)
    (engine : Nat → CtlChangeTopology → Except Error Revision) (now : Nat)
    (change : TopologyChange) (err : Error)
    (herr : (StartTopologyChange (runCalls NewCtlMgr calls) topologyRev engine now change).2 =
      some err) :
    (StartTopologyChange (runCalls NewCtlMgr calls) topologyRev engine now change).1.tasks =
      (runCalls NewCtlMgr calls).tasks ∧
    (StartTopologyChange (runCalls NewCtlMgr calls) topologyRev engine now change).1.revNumNext =
      (runCalls NewCtlMgr calls).revNumNext ∧
    (StartTopologyChange (runCalls NewCtlMgr calls) topologyRev engine now change).1.tasksWaitCh =
      (runCalls NewCtlMgr calls).tasksWaitCh ∧
    (StartTopologyChange (runCalls NewCtlMgr calls) topologyRev engine now change).1.chFresh =
      (runCalls NewCtlMgr calls).chFresh ∧
    (StartTopologyChange (runCalls NewCtlMgr calls) topologyRev engine now change).1.mu = false ∧
    (err = Error.ErrConflict ∨ err = Error.ErrNotFound ∨ err = Error.ErrNotSupported ∨
      ∃ mode, modeFor change mode ∧ engine 0 (requestOf change mode) = .error err) :=
  StartTopologyChange_error_frame_of (runCalls NewCtlMgr calls) topologyRev engine now change err
    (runCalls_countP calls NewCtlMgr (by decide)) herr

/-- Witness of `StartTopologyChange_error_frame`: after one prepare and a
`GetTaskList` that knows the revision 2 and so waits on the channel 0, a start
whose change type has no mode returns `ErrNotSupported`, and the channel 0 is
still in place. -/
theorem StartTopologyChange_error_frame_witness :
    (runCalls NewCtlMgr [.op (.prepare [] 0 sampleChange), .getTaskList [50]]).tasksWaitCh =
      some 0 ∧
    (StartTopologyChange
      (runCalls NewCtlMgr [.op (.prepare [] 0 sampleChange), .getTaskList [50]]) [57]
      sampleEngine 0 unsupportedChange).1.tasksWaitCh = some 0 ∧
    (StartTopologyChange
      (runCalls NewCtlMgr [.op (.prepare [] 0 sampleChange), .getTaskList [50]]) [57]
      sampleEngine 0 unsupportedChange).1.tasks =
      (runCalls NewCtlMgr [.op (.prepare [] 0 sampleChange), .getTaskList [50]]).tasks :=
  have h := StartTopologyChange_error_frame
    [.op (.prepare [] 0 sampleChange), .getTaskList [50]] [57] sampleEngine 0
    unsupportedChange Error.ErrNotSupported (by decide)
  ⟨by decide, h.2.2.1.trans (by decide), h.1⟩

/-- With a change type that has no mode the loop of `StartTopologyChange`
leaves the registry alone and never sets `started`. -/
theorem StartTopologyChange_loop_other
    (engine : Nat → CtlChangeTopology → Except Error Revision) (now : Nat)
    (change : TopologyChange)
    (hother : change.Type_ = TopologyChangeType.TopologyChangeTypeOther) :
    ∀ (l : List taskHandle) (m : CtlMgr) (k : Nat) (s : Bool) (acc : List taskHandle),
      (StartTopologyChange.loop engine now change l m k s acc).1 = m ∧
      ∀ s1 next, (StartTopologyChange.loop engine now change l m k s acc).2 = .ok (s1, next) →
        s1 = s := by
  intro l
  induction l with
  | nil =>
    intro m k s acc
    refine ⟨rfl, ?_⟩
    intro s1 next h
    simp [StartTopologyChange.loop] at h
    exact h.1.symm
  | cons x rest ih =>
    intro m k s acc
    unfold StartTopologyChange.loop
    by_cases h1 : x.task.Type_ = TaskType.TaskTypeRebalance
    · rw [if_pos h1]
      exact ⟨rfl, fun s1 next h => by simp at h⟩
    · rw [if_neg h1]
      by_cases h2 : x.task.Type_ = TaskType.TaskTypePrepared
      · rw [if_pos h2]
        rcases startTopologyChangeTaskHandleLOCKED_cases m (engine k) now change with
          ⟨_, hs⟩ | ⟨mode, hmode, _⟩
        · rw [hs]
          exact ⟨rfl, fun s1 next h => by simp at h⟩
        · rcases hmode with ⟨h, _⟩ | ⟨h, _⟩ <;> rw [hother] at h <;> cases h
      · rw [if_neg h2]
        exact ih m k s (acc ++ [x])

/-- Every `ChangeTopology` call that the loop of `StartTopologyChange` adds
to the history carries the request of the spec and the rebalance task id. -/
theorem StartTopologyChange_loop_requests
    (engine : Nat → CtlChangeTopology → Except Error Revision) (now : Nat)
    (change : TopologyChange) :
    ∀ (l : List taskHandle) (m : CtlMgr) (k : Nat) (s : Bool) (acc : List taskHandle),
      ∃ evs : List Event,
        (StartTopologyChange.loop engine now change l m k s acc).1.trace = m.trace ++ evs ∧
        ∀ req taskId, Event.changeTopology req taskId ∈ evs →
          ∃ mode, modeFor change mode ∧ req = requestOf change mode ∧
            taskId = "rebalance:" ++ change.Id := by
  intro l
  induction l with
  | nil => intro m k s acc; exact ⟨[], by simp [StartTopologyChange.loop], by simp⟩
  | cons x rest ih =>
    intro m k s acc
    unfold StartTopologyChange.loop
    by_cases h1 : x.task.Type_ = TaskType.TaskTypeRebalance
    · rw [if_pos h1]
      exact ⟨[], by simp, by simp⟩
    · rw [if_neg h1]
      by_cases h2 : x.task.Type_ = TaskType.TaskTypePrepared
      · rw [if_pos h2]
        rcases startTopologyChangeTaskHandleLOCKED_cases m (engine k) now change with
          ⟨_, hs⟩ | ⟨mode, hmode, ⟨err, _, hs⟩ | ⟨rev, _, hs⟩⟩
        · rw [hs]
          exact ⟨[], by simp, by simp⟩
        · rw [hs]
          refine ⟨[Event.changeTopology (requestOf change mode) ("rebalance:" ++ change.Id)],
            rfl, ?_⟩
          intro req taskId hmem
          simp only [List.mem_singleton] at hmem
          injection hmem with hr ht
          exact ⟨mode, hmode, hr, ht⟩
        · rw [hs]
          simp only []
          obtain ⟨evs, he1, he2⟩ := ih
            (allocRevNumLOCKED
              (m.log (Event.changeTopology (requestOf change mode)
                ("rebalance:" ++ change.Id))) m.tasks.revNum).2 (k + 1) true
            (acc ++ [rebalanceHandle now change
              (allocRevNumLOCKED
                (m.log (Event.changeTopology (requestOf change mode)
                  ("rebalance:" ++ change.Id))) m.tasks.revNum).1 rev])
          refine ⟨Event.changeTopology (requestOf change mode) ("rebalance:" ++ change.Id) ::
            Event.allocRev (allocRevNumLOCKED
              (m.log (Event.changeTopology (requestOf change mode)
                ("rebalance:" ++ change.Id))) m.tasks.revNum).1 :: evs, ?_, ?_⟩
          · rw [he1]
            simp [allocRevNumLOCKED, CtlMgr.log]
          · intro req taskId hmem
            rcases List.mem_cons.mp hmem with h | h
            · injection h with hr ht
              exact ⟨mode, hmode, hr, ht⟩
            · rcases List.mem_cons.mp h with h | h
              · cases h
              · exact he2 req taskId h
      · rw [if_neg h2]
        exact ih m k s (acc ++ [x])

theorem modeFor_unique {change : TopologyChange} {mode mode1 : String}
    (h : modeFor change mode) (h1 : modeFor change mode1) : mode1 = mode := by
  rcases h with ⟨a, b⟩ | ⟨a, b⟩ <;> rcases h1 with ⟨a1, b1⟩ | ⟨a1, b1⟩
  · rw [b, b1]
  · rw [a] at a1; cases a1
  · rw [a] at a1; cases a1
  · rw [b, b1]

/-- For a change of type Rebalance or Failover, when the call passes the
topology-revision test and the first Prepared or Rebalance task of the registry
is a Prepared one, `StartTopologyChange` calls `ChangeTopology`, and its first
call carries the request of the spec for the task id `rebalance:` plus the
change id. -/
theorem StartTopologyChange_calls_engine (m : CtlMgr) (topologyRev : Revision)
    (engine : Nat → CtlChangeTopology → Except Error Revision) (now : Nat)
    (change : TopologyChange) (mode : String) (hmode : modeFor change mode)
    (hrev : change.CurrentTopologyRev = [] ∨ change.CurrentTopologyRev = topologyRev)
    (l1 : List taskHandle) (th : taskHandle) (l2 : List taskHandle)
    (hl : m.tasks.taskHandles = l1 ++ th :: l2)
    (hth : th.task.Type_ = TaskType.TaskTypePrepared)
    (hl1 : ∀ x ∈ l1, isPreparedOrRebalance x = false) :
    ∃ evs, (StartTopologyChange m topologyRev engine now change).1.trace =
      m.trace ++ Event.changeTopology (requestOf change mode) ("rebalance:" ++ change.Id) ::
        evs := by
  have hpre : ∀ t : List Event,
      (m.trace ++ [Event.changeTopology (requestOf change mode) ("rebalance:" ++ change.Id)])
        <+: t →
      ∃ evs, t = m.trace ++
        Event.changeTopology (requestOf change mode) ("rebalance:" ++ change.Id) :: evs := by
    rintro t ⟨s, hs⟩
    exact ⟨s, by rw [← hs]; simp⟩
  apply hpre
  have h1 : ¬ (change.CurrentTopologyRev.length > 0 ∧
      change.CurrentTopologyRev ≠ topologyRev) := by
    rintro ⟨ha, hb⟩
    rcases hrev with h | h
    · rw [h] at ha; simp at ha
    · exact hb h
  unfold StartTopologyChange
  simp only []
  rw [if_neg h1, show m.Lock.tasks.taskHandles = l1 ++ th :: l2 from hl,
    StartTopologyChange_loop_pass engine now change l1 (th :: l2) m.Lock 0 false [] hl1,
    StartTopologyChange.loop, if_neg (by rw [hth]; decide), if_pos hth]
  rcases startTopologyChangeTaskHandleLOCKED_cases m.Lock (engine 0) now change with
    ⟨hother, _⟩ | ⟨mode1, hmode1, ⟨err, _, hs⟩ | ⟨rev, _, hs⟩⟩
  · rcases hmode with ⟨h, _⟩ | ⟨h, _⟩ <;> rw [hother] at h <;> cases h
  · rw [hs, modeFor_unique hmode hmode1]
    exact List.prefix_refl _
  · rw [hs, modeFor_unique hmode hmode1]
    simp only []
    generalize hM : (allocRevNumLOCKED
      (m.Lock.log (Event.changeTopology (requestOf change mode) ("rebalance:" ++ change.Id)))
      m.Lock.tasks.revNum).2 = M
    have hM1 : (m.trace ++
        [Event.changeTopology (requestOf change mode) ("rebalance:" ++ change.Id)]) <+:
        M.trace := by
      rw [← hM]
      exact List.prefix_append _ _
    generalize hacc : ([] ++ l1 ++ [rebalanceHandle now change
      (allocRevNumLOCKED
        (m.Lock.log (Event.changeTopology (requestOf change mode) ("rebalance:" ++ change.Id)))
        m.Lock.tasks.revNum).1 rev]) = acc
    have hadv := (StartTopologyChange_loop_advances engine now change l2 M (0 + 1) true acc).1.1
    rcases hloop : StartTopologyChange.loop engine now change l2 M (0 + 1) true acc
      with ⟨m1, res⟩
    rw [hloop] at hadv
    have hm1 : (m.trace ++
        [Event.changeTopology (requestOf change mode) ("rebalance:" ++ change.Id)]) <+:
        m1.trace := hM1.trans hadv
    rcases res with err | ⟨c, next⟩
    · exact hm1
    · cases c
      · exact hm1
      · simp only [if_neg (by simp : ¬ (true = false))]
        exact hm1.trans (updateTasksLOCKED_advances m1 next).1

/-- The shape of every `ChangeTopology` call that `StartTopologyChange` makes,
and what the call does for a change type without a mode. -/
theorem StartTopologyChange_request_shape (m : CtlMgr) (topologyRev : Revision)
    (engine : Nat → CtlChangeTopology → Except Error Revision) (now : Nat)
    (change : TopologyChange) :
    (∃ evs : List Event,
      (StartTopologyChange m topologyRev engine now change).1.trace = m.trace ++ evs ∧
      ∀ req taskId, Event.changeTopology req taskId ∈ evs →
        taskId = "rebalance:" ++ change.Id ∧
        ((change.Type_ = TopologyChangeType.TopologyChangeTypeRebalance ∧
            req.Mode = "rebalance") ∨
         (change.Type_ = TopologyChangeType.TopologyChangeTypeFailover ∧
            req.Mode = "failover-hard")) ∧
        req.Rev = change.CurrentTopologyRev ∧
        req.MemberNodeUUIDs = change.KeepNodes.map (fun node => node.NodeInfo.NodeId)) ∧
    (change.Type_ = TopologyChangeType.TopologyChangeTypeOther →
      (StartTopologyChange m topologyRev engine now change).1.trace = m.trace) ∧
    (change.Type_ = TopologyChangeType.TopologyChangeTypeOther →
      (change.CurrentTopologyRev = [] ∨ change.CurrentTopologyRev = topologyRev) →
      ∀ (l1 : List taskHandle) (th : taskHandle) (l2 : List taskHandle),
        m.tasks.taskHandles = l1 ++ th :: l2 →
        th.task.Type_ = TaskType.TaskTypePrepared →
        (∀ x ∈ l1, isPreparedOrRebalance x = false) →
        StartTopologyChange m topologyRev engine now change =
          (m.Unlock, some Error.ErrNotSupported)) := by
  have hshape : ∀ (evs : List Event),
      (∀ req taskId, Event.changeTopology req taskId ∈ evs →
        ∃ mode, modeFor change mode ∧ req = requestOf change mode ∧
          taskId = "rebalance:" ++ change.Id) →
      ∀ req taskId, Event.changeTopology req taskId ∈ evs →
        taskId = "rebalance:" ++ change.Id ∧
        ((change.Type_ = TopologyChangeType.TopologyChangeTypeRebalance ∧
            req.Mode = "rebalance") ∨
         (change.Type_ = TopologyChangeType.TopologyChangeTypeFailover ∧
            req.Mode = "failover-hard")) ∧
        req.Rev = change.CurrentTopologyRev ∧
        req.MemberNodeUUIDs = change.KeepNodes.map (fun node => node.NodeInfo.NodeId) := by
    intro evs h req taskId hmem
    obtain ⟨mode, hmode, hreq, hid⟩ := h req taskId hmem
    subst hreq
    refine ⟨hid, ?_, rfl, rfl⟩
    rcases hmode with ⟨h1, h2⟩ | ⟨h1, h2⟩
    · exact Or.inl ⟨h1, h2⟩
    · exact Or.inr ⟨h1, h2⟩
  refine ⟨?_, ?_, ?_⟩
  · obtain ⟨evs, he1, he2⟩ := StartTopologyChange_loop_requests engine now change
      m.Lock.tasks.taskHandles m.Lock 0 false []
    unfold StartTopologyChange
    simp only []
    by_cases h1 : change.CurrentTopologyRev.length > 0 ∧ change.CurrentTopologyRev ≠ topologyRev
    · rw [if_pos h1]
      exact ⟨[], by simp [CtlMgr.Unlock, CtlMgr.Lock], by simp⟩
    · rw [if_neg h1]
      rcases hloop : StartTopologyChange.loop engine now change m.Lock.tasks.taskHandles
        m.Lock 0 false [] with ⟨m1, res⟩
      rw [hloop] at he1
      have he1a : m1.trace = m.trace ++ evs := he1
      rcases res with err | ⟨c, next⟩
      · exact ⟨evs, he1a, hshape evs he2⟩
      · cases c
        · exact ⟨evs, he1a, hshape evs he2⟩
        · simp only [if_neg (by simp : ¬ (true = false))]
          rw [updateTasksLOCKED_eq]
          refine ⟨evs ++ Event.allocRev (allocRevNumLOCKED m1 m1.tasks.revNum).1 ::
            (match m1.tasksWaitCh with
             | some ch => [Event.closeCh ch]
             | none => []), ?_, ?_⟩
          · show m1.trace ++ _ = m.trace ++ (evs ++ _)
            rw [he1a]
            exact List.append_assoc _ _ _
          · apply hshape
            intro req taskId hmem
            rcases List.mem_append.mp hmem with h | h
            · exact he2 req taskId h
            · rcases List.mem_cons.mp h with h | h
              · cases h
              · cases hw : m1.tasksWaitCh with
                | none => rw [hw] at h; simp at h
                | some ch => rw [hw] at h; simp at h
  · intro hother
    obtain ⟨hm, hs⟩ := StartTopologyChange_loop_other engine now change hother
      m.Lock.tasks.taskHandles m.Lock 0 false []
    unfold StartTopologyChange
    simp only []
    by_cases h1 : change.CurrentTopologyRev.length > 0 ∧ change.CurrentTopologyRev ≠ topologyRev
    · rw [if_pos h1]
      rfl
    · rw [if_neg h1]
      rcases hloop : StartTopologyChange.loop engine now change m.Lock.tasks.taskHandles
        m.Lock 0 false [] with ⟨m1, res⟩
      rw [hloop] at hm hs
      have hm1 : m1 = m.Lock := hm
      rcases res with err | ⟨c, next⟩
      · rw [hm1]; rfl
      · have hc := hs c next rfl
        rw [hc, hm1]
        rfl
  · intro hother hrev l1 th l2 hl hth hl1
    have h1 : ¬ (change.CurrentTopologyRev.length > 0 ∧
        change.CurrentTopologyRev ≠ topologyRev) := by
      rintro ⟨ha, hb⟩
      rcases hrev with h | h
      · rw [h] at ha; simp at ha
      · exact hb h
    unfold StartTopologyChange
    simp only []
    rw [if_neg h1, show m.Lock.tasks.taskHandles = l1 ++ th :: l2 from hl,
      StartTopologyChange_loop_pass engine now change l1 (th :: l2) m.Lock 0 false [] hl1,
      StartTopologyChange.loop, if_neg (by rw [hth]; decide), if_pos hth]
    rcases startTopologyChangeTaskHandleLOCKED_cases m.Lock (engine 0) now change with
      ⟨_, hs⟩ | ⟨mode, hmode, _⟩
    · rw [hs]
      rfl
    · rcases hmode with ⟨h, _⟩ | ⟨h, _⟩ <;> rw [hother] at h <;> cases h

/-- C22, as the code has it: for a change of type Rebalance or Failover, when
the call passes the topology-revision test and the first Prepared or
Rebalance task of the registry is a Prepared one, `StartTopologyChange` calls
`ChangeTopology`, first with the request of the spec; and every
`ChangeTopology` call that `StartTopologyChange` makes is for the task id
`rebalance:` plus the change id and carries a request whose mode is
`rebalance` for a change of type Rebalance and `failover-hard` for one of type
Failover, whose `Rev` is the change's `CurrentTopologyRev`, and whose member
node ids are the node ids of `KeepNodes` in order.  For every other change
type the engine is never called (the history is unchanged), and
`StartTopologyChange` returns `ErrNotSupported`, leaving the registry as it
was, when the call passes the topology-revision test and the first Prepared or
Rebalance task of the registry is a Prepared one. -/
theorem StartTopologyChange_request (m : CtlMgr) (topologyRev : Revision)
    (engine : Nat → CtlChangeTopology → Except Error Revision) (now : Nat)
    (change : TopologyChange) :
    (∀ mode : String, modeFor change mode →
      (change.CurrentTopologyRev = [] ∨ change.CurrentTopologyRev = topologyRev) →
      ∀ (l1 : List taskHandle) (th : taskHandle) (l2 : List taskHandle),
        m.tasks.taskHandles = l1 ++ th :: l2 →
        th.task.Type_ = TaskType.TaskTypePrepared →
        (∀ x ∈ l1, isPreparedOrRebalance x = false) →
        ∃ evs, (StartTopologyChange m topologyRev engine now change).1.trace =
          m.trace ++
            Event.changeTopology
              { Rev := change.CurrentTopologyRev, Mode := mode,
                MemberNodeUUIDs := change.KeepNodes.map (fun node => node.NodeInfo.NodeId) }
              ("rebalance:" ++ change.Id) :: evs) ∧
    (∃ evs : List Event,
      (StartTopologyChange m topologyRev engine now change).1.trace = m.trace ++ evs ∧
      ∀ req taskId, Event.changeTopology req taskId ∈ evs →
        taskId = "rebalance:" ++ change.Id ∧
        ((change.Type_ = TopologyChangeType.TopologyChangeTypeRebalance ∧
            req.Mode = "rebalance") ∨
         (change.Type_ = TopologyChangeType.TopologyChangeTypeFailover ∧
            req.Mode = "failover-hard")) ∧
        req.Rev = change.CurrentTopologyRev ∧
        req.MemberNodeUUIDs = change.KeepNodes.map (fun node => node.NodeInfo.NodeId)) ∧
    (change.Type_ = TopologyChangeType.TopologyChangeTypeOther →
      (StartTopologyChange m topologyRev engine now change).1.trace = m.trace) ∧
    (change.Type_ = TopologyChangeType.TopologyChangeTypeOther →
      (change.CurrentTopologyRev = [] ∨ change.CurrentTopologyRev = topologyRev) →
      ∀ (l1 : List taskHandle) (th : taskHandle) (l2 : List taskHandle),
        m.tasks.taskHandles = l1 ++ th :: l2 →
        th.task.Type_ = TaskType.TaskTypePrepared →
        (∀ x ∈ l1, isPreparedOrRebalance x = false) →
        StartTopologyChange m topologyRev engine now change =
          (m.Unlock, some Error.ErrNotSupported)) := by
  obtain ⟨h1, h2, h3⟩ := StartTopologyChange_request_shape m topologyRev engine now change
  refine ⟨?_, h1, h2, h3⟩
  intro mode hmode hrev l1 th l2 hl hth hl1
  exact StartTopologyChange_calls_engine m topologyRev engine now change mode hmode hrev
    l1 th l2 hl hth hl1

/-- Witness of `StartTopologyChange_request`: on the prepared registry, a
start of the rebalance `a` calls `ChangeTopology` with mode `rebalance`, the
empty revision and the node `n1`; a start whose change type has no mode and
whose revision is the engine's returns `ErrNotSupported` and leaves the
history unchanged. -/
theorem StartTopologyChange_request_witness :
    (∃ evs, (StartTopologyChange preparedRegistry [] sampleEngine 0 sampleChange).1.trace =
      preparedRegistry.trace ++
        Event.changeTopology { Rev := [], Mode := "rebalance", MemberNodeUUIDs := ["n1"] }
          "rebalance:a" :: evs) ∧
    StartTopologyChange preparedRegistry [57] sampleEngine 0 unsupportedChange =
      (preparedRegistry.Unlock, some Error.ErrNotSupported) ∧
    (StartTopologyChange preparedRegistry [57] sampleEngine 0 unsupportedChange).1.trace =
      preparedRegistry.trace :=
  have h := StartTopologyChange_request preparedRegistry [57] sampleEngine 0 unsupportedChange
  ⟨(StartTopologyChange_request preparedRegistry [] sampleEngine 0 sampleChange).1 "rebalance"
      (Or.inl ⟨rfl, rfl⟩) (Or.inl rfl) [] preparedHandle [] (by decide) (by decide)
      (by decide),
   h.2.2.2 rfl (Or.inr rfl) [] preparedHandle [] (by decide) (by decide) (by decide),
   h.2.2.1 rfl⟩

/-- C22 as stated fails: the registry holds a Prepared task and the change is
of a type that is neither rebalance nor failover, but its `CurrentTopologyRev`
`9` is not the engine's revision `1`; `StartTopologyChange` returns
`ErrConflict`, not `ErrNotSupported`. -/
theorem StartTopologyChange_unsupported_stale_conflicts :
    (∃ th ∈ preparedRegistry.tasks.taskHandles,
      th.task.Type_ = TaskType.TaskTypePrepared) ∧
    unsupportedChange.Type_ = TopologyChangeType.TopologyChangeTypeOther ∧
    (StartTopologyChange preparedRegistry [49] sampleEngine 0 unsupportedChange).2 =
      some Error.ErrConflict ∧
    (StartTopologyChange preparedRegistry [49] sampleEngine 0 unsupportedChange).2 ≠
      some Error.ErrNotSupported := by
  decide

/-! ## The task-list revision is the last revision issued -/

/-- Decoding what `EncodeRev` wrote gives the number back, for 64-bit
numbers. -/
theorem DecodeRev_EncodeRev_ok (n : Nat) (hn : n < 2 ^ 64) :
    DecodeRev (EncodeRev n) = .ok n := by
  have hne := EncodeRev_ne_nil n
  unfold DecodeRev
  split
  · rename_i heq
    exact absurd heq hne
  · unfold EncodeRev
    rw [DecodeRev_loop_digits (n + 1) n [] (Nat.lt_succ_self _) hn]
    rfl

/-- An allocation from a revision below the counter returns the counter. -/
theorem allocRevNumLOCKED_at_counter (m : CtlMgr) (prev : Nat)
    (h1 : prev + 1 ≤ m.revNumNext) (h2 : m.revNumNext < 2 ^ 64) :
    (allocRevNumLOCKED m prev).1 = m.revNumNext := by
  have hmod : (prev + 1) % 2 ^ 64 = prev + 1 := Nat.mod_eq_of_lt (by omega)
  simp only [allocRevNumLOCKED, hmod]
  split <;> omega

/-- After an allocation that did not return the largest 64-bit number the
counter is the revision returned plus one. -/
theorem allocRevNumLOCKED_next (m : CtlMgr) (prev : Nat)
    (h : (allocRevNumLOCKED m prev).1 < 2 ^ 64 - 1) :
    (allocRevNumLOCKED m prev).2.revNumNext = (allocRevNumLOCKED m prev).1 + 1 := by
  show ((allocRevNumLOCKED m prev).1 + 1) % 2 ^ 64 = _
  exact Nat.mod_eq_of_lt (by omega)

/-- Installing handles whose revisions are below the counter, in a registry
whose task-list revision is below the counter, settles the registry. -/
theorem updateTasksLOCKED_settled (m1 : CtlMgr) (l : List taskHandle)
    (hr : m1.tasks.revNum + 1 ≤ m1.revNumNext) (hn : m1.revNumNext < 2 ^ 64)
    (hb : ∀ r, Event.allocRev r ∈
      (updateTasksLOCKED m1 (fun s => { s with taskHandles := l })).trace → r < 2 ^ 64 - 1)
    (hl : ∀ th ∈ l, RevBelow m1 th) :
    Settled (updateTasksLOCKED m1 (fun s => { s with taskHandles := l })).Unlock := by
  have hrv := allocRevNumLOCKED_at_counter m1 m1.tasks.revNum hr hn
  rw [updateTasksLOCKED_eq] at hb ⊢
  have hlt : (allocRevNumLOCKED m1 m1.tasks.revNum).1 < 2 ^ 64 - 1 :=
    hb _ (List.mem_append_right _ (List.mem_cons_self _ _))
  refine ⟨?_, ?_, ?_⟩
  · show (allocRevNumLOCKED m1 m1.tasks.revNum).1 + 1 =
      ((allocRevNumLOCKED m1 m1.tasks.revNum).1 + 1) % 2 ^ 64
    rw [Nat.mod_eq_of_lt (by omega)]
  · show ((allocRevNumLOCKED m1 m1.tasks.revNum).1 + 1) % 2 ^ 64 < 2 ^ 64
    exact Nat.mod_lt _ (by decide)
  · intro th hth
    obtain ⟨r, hr1, hr2⟩ := hl th hth
    refine ⟨r, hr1, ?_⟩
    show r < (allocRevNumLOCKED m1 m1.tasks.revNum).1
    rw [hrv]
    exact hr2

/-- A settled registry that changes in mutex and history only stays
settled. -/
theorem Settled_of_same {m m1 : CtlMgr} (h : Settled m) (ht : m1.tasks = m.tasks)
    (hn : m1.revNumNext = m.revNumNext) : Settled m1 := by
  unfold Settled at *
  rw [ht, hn]
  exact h

theorem RevBelow_of_settled {m : CtlMgr} (h : Settled m) :
    ∀ th ∈ m.tasks.taskHandles, RevBelow m th := by
  intro th hth
  obtain ⟨r, h1, h2⟩ := h.2.2 th hth
  exact ⟨r, h1, by have := h.1; omega⟩

theorem RevBelow_mono {m m1 : CtlMgr} (h : m.revNumNext ≤ m1.revNumNext) (th : taskHandle)
    (hth : RevBelow m th) : RevBelow m1 th := by
  obtain ⟨r, h1, h2⟩ := hth
  exact ⟨r, h1, lt_of_lt_of_le h2 h⟩

theorem PrepareTopologyChange_settled (m : CtlMgr) (topologyRev : Revision) (now : Nat)
    (change : TopologyChange) (hs : Settled m)
    (hb : ∀ r ∈ issued (PrepareTopologyChange m topologyRev now change).1, r < 2 ^ 64 - 1) :
    Settled (PrepareTopologyChange m topologyRev now change).1 := by
  have hb1 : ∀ r, Event.allocRev r ∈ (PrepareTopologyChange m topologyRev now change).1.trace →
      r < 2 ^ 64 - 1 := fun r hr => hb r ((mem_issued _ r).mpr hr)
  unfold PrepareTopologyChange at hb1 ⊢
  simp only [] at hb1 ⊢
  by_cases h1 : change.CurrentTopologyRev.length > 0 ∧ change.CurrentTopologyRev ≠ topologyRev
  · rw [if_pos h1]
    exact Settled_of_same hs rfl rfl
  · rw [if_neg h1] at hb1 ⊢
    by_cases h2 : m.Lock.tasks.taskHandles.any isPreparedOrRebalance = true
    · rw [if_pos h2]
      exact Settled_of_same hs rfl rfl
    · rw [if_neg h2] at hb1 ⊢
      obtain ⟨s1, s2, s3⟩ := hs
      have hrv := allocRevNumLOCKED_at_counter m.Lock 0
        (by show 0 + 1 ≤ m.revNumNext; omega) s2
      have hlt : (allocRevNumLOCKED m.Lock 0).1 < 2 ^ 64 - 1 := by
        apply hb1
        rw [updateTasksLOCKED_eq]
        exact List.mem_append_left _ (List.mem_append_right _ (List.mem_singleton_self _))
      have hnext := allocRevNumLOCKED_next m.Lock 0 hlt
      have hrv1 : (allocRevNumLOCKED m.Lock 0).1 = m.revNumNext := hrv
      apply updateTasksLOCKED_settled
      · show m.tasks.revNum + 1 ≤ (allocRevNumLOCKED m.Lock 0).2.revNumNext
        omega
      · omega
      · exact hb1
      · intro th hth
        rcases List.mem_append.mp hth with h | h
        · obtain ⟨r, hr1, hr2⟩ := s3 th h
          exact ⟨r, hr1, by omega⟩
        · rw [List.mem_singleton.mp h]
          exact ⟨_, rfl, by omega⟩

theorem CancelTask_settled (m : CtlMgr) (taskId : String) (taskRev : Option Revision)
    (hs : Settled m) (hb : ∀ r ∈ issued (CancelTask m taskId taskRev).1, r < 2 ^ 64 - 1) :
    Settled (CancelTask m taskId taskRev).1 := by
  have hb1 : ∀ r, Event.allocRev r ∈ (CancelTask m taskId taskRev).1.trace →
      r < 2 ^ 64 - 1 := fun r hr => hb r ((mem_issued _ r).mpr hr)
  have hl := CancelTask_loop_advances taskId taskRev m.Lock.tasks.taskHandles m.Lock false []
  have hk := CancelTask_loop_ok taskId taskRev m.Lock.tasks.taskHandles m.Lock false []
  unfold CancelTask at hb1 ⊢
  simp only [] at hb1 ⊢
  rcases hloop : CancelTask.loop taskId taskRev m.Lock.tasks.taskHandles m.Lock false []
    with ⟨m1, res⟩
  rw [hloop] at hl hk hb1
  have ht : m1.tasks = m.tasks := hl.2.1.1
  have hn : m1.revNumNext = m.revNumNext := hl.2.2
  rcases res with err | ⟨c, next⟩
  · exact Settled_of_same hs ht hn
  · cases c
    · exact Settled_of_same hs ht hn
    · simp only [if_neg (by simp : ¬ (true = false))] at hb1 ⊢
      obtain ⟨s1, s2, s3⟩ := hs
      apply updateTasksLOCKED_settled
      · rw [ht, hn]; omega
      · rw [hn]; exact s2
      · exact hb1
      · intro th hth
        rw [(hk true next rfl).1, List.nil_append] at hth
        obtain ⟨r, hr1, hr2⟩ := s3 th (List.mem_filter.mp hth).1
        exact ⟨r, hr1, by rw [hn]; omega⟩

/-- Once `updated` is set the loop of `updateProgress` keeps it set. -/
theorem updateProgress_loop_updated (taskId : String) (p : Option ProgressEntries)
    (errs : List String) (progress : ℚ) :
    ∀ (l : List taskHandle) (m : CtlMgr) (acc : List taskHandle),
      (updateProgress.loop taskId p errs progress l m true acc).2.1 = true := by
  intro l
  induction l with
  | nil => intro m acc; rfl
  | cons x rest ih =>
    intro m acc
    unfold updateProgress.loop
    by_cases h1 : x.task.Id = taskId
    · rw [if_pos h1]
      by_cases h2 : p.isSome ∨ errs.length > 0
      · rw [if_pos h2]
        exact ih _ _
      · rw [if_neg h2]
        exact ih _ _
    · rw [if_neg h1]
      exact ih _ _

/-- A loop of `updateProgress` that ends with `updated` unset has left the
registry as it was. -/
theorem updateProgress_loop_idle (taskId : String) (p : Option ProgressEntries)
    (errs : List String) (progress : ℚ) :
    ∀ (l : List taskHandle) (m : CtlMgr) (acc : List taskHandle),
      (updateProgress.loop taskId p errs progress l m false acc).2.1 = false →
      (updateProgress.loop taskId p errs progress l m false acc).1 = m := by
  intro l
  induction l with
  | nil => intro m acc _; rfl
  | cons x rest ih =>
    intro m acc
    unfold updateProgress.loop
    by_cases h1 : x.task.Id = taskId
    · rw [if_pos h1]
      by_cases h2 : p.isSome ∨ errs.length > 0
      · rw [if_pos h2]
        intro h
        rw [updateProgress_loop_updated] at h
        exact absurd h (by decide)
      · rw [if_neg h2]
        intro h
        rw [updateProgress_loop_updated] at h
        exact absurd h (by decide)
    · rw [if_neg h1]
      exact ih _ _

/-- The loop of `updateProgress`, as long as no revision it allocates reaches
`2 ^ 64 - 1`: the counter does not fall and stays within 64 bits, and every
handle of `taskHandlesNext` has a revision below the counter. -/
theorem updateProgress_loop_below (taskId : String) (p : Option ProgressEntries)
    (errs : List String) (progress : ℚ) :
    ∀ (l : List taskHandle) (m : CtlMgr) (u : Bool) (acc : List taskHandle),
      m.revNumNext < 2 ^ 64 → 0 < m.revNumNext →
      (∀ r, Event.allocRev r ∈ (updateProgress.loop taskId p errs progress l m u acc).1.trace →
        r < 2 ^ 64 - 1) →
      (∀ th ∈ acc, RevBelow m th) → (∀ th ∈ l, RevBelow m th) →
      m.revNumNext ≤ (updateProgress.loop taskId p errs progress l m u acc).1.revNumNext ∧
      (updateProgress.loop taskId p errs progress l m u acc).1.revNumNext < 2 ^ 64 ∧
      ∀ th ∈ (updateProgress.loop taskId p errs progress l m u acc).2.2,
        RevBelow (updateProgress.loop taskId p errs progress l m u acc).1 th := by
  intro l
  induction l with
  | nil =>
    intro m u acc hn _ _ hacc _
    exact ⟨le_refl _, hn, hacc⟩
  | cons x rest ih =>
    intro m u acc hn hpos hb hacc hl
    have hrest : ∀ th ∈ rest, RevBelow m th := fun th hth => hl th (List.mem_cons_of_mem _ hth)
    unfold updateProgress.loop at hb ⊢
    by_cases h1 : x.task.Id = taskId
    · rw [if_pos h1] at hb ⊢
      by_cases h2 : p.isSome ∨ errs.length > 0
      · rw [if_pos h2] at hb ⊢
        simp only [] at hb ⊢
        have hrv := allocRevNumLOCKED_at_counter m 0 (by omega) hn
        have hpre := (updateProgress_loop_advances taskId p errs progress rest
          (allocRevNumLOCKED m 0).2 true
          (acc ++ [updateProgress.handleNext p errs progress x (allocRevNumLOCKED m 0).1])).1.1
        have hlt : (allocRevNumLOCKED m 0).1 < 2 ^ 64 - 1 :=
          hb _ (hpre.subset (List.mem_append_right _ (List.mem_singleton_self _)))
        have hnext := allocRevNumLOCKED_next m 0 hlt
        have hle : m.revNumNext ≤ (allocRevNumLOCKED m 0).2.revNumNext := by omega
        have h := ih (allocRevNumLOCKED m 0).2 true
          (acc ++ [updateProgress.handleNext p errs progress x (allocRevNumLOCKED m 0).1])
          (by omega) (by omega) hb
          (by
            intro th hth
            rcases List.mem_append.mp hth with h | h
            · exact RevBelow_mono hle th (hacc th h)
            · rw [List.mem_singleton.mp h]
              exact ⟨_, rfl, by omega⟩)
          (fun th hth => RevBelow_mono hle th (hrest th hth))
        exact ⟨le_trans hle h.1, h.2.1, h.2.2⟩
      · rw [if_neg h2] at hb ⊢
        exact ih m true acc hn hpos hb hacc hrest
    · rw [if_neg h1] at hb ⊢
      exact ih m u (acc ++ [x]) hn hpos hb
        (by
          intro th hth
          rcases List.mem_append.mp hth with h | h
          · exact hacc th h
          · rw [List.mem_singleton.mp h]
            exact hl x (List.mem_cons_self _ _))
        hrest

theorem updateProgress_settled (m : CtlMgr) (taskId : String) (p : Option ProgressEntries)
    (errs : List String) (hs : Settled m)
    (hb : ∀ r ∈ issued (updateProgress m taskId p errs), r < 2 ^ 64 - 1) :
    Settled (updateProgress m taskId p errs) := by
  have hb1 : ∀ r, Event.allocRev r ∈ (updateProgress m taskId p errs).trace →
      r < 2 ^ 64 - 1 := fun r hr => hb r ((mem_issued _ r).mpr hr)
  have hfr := (updateProgress_loop_advances taskId p errs (updateProgress.progress p)
    m.Lock.tasks.taskHandles m.Lock false []).2
  have hidle := updateProgress_loop_idle taskId p errs (updateProgress.progress p)
    m.Lock.tasks.taskHandles m.Lock []
  have hbelow := updateProgress_loop_below taskId p errs (updateProgress.progress p)
    m.Lock.tasks.taskHandles m.Lock false []
  unfold updateProgress at hb1 ⊢
  simp only [] at hb1 ⊢
  rcases hloop : updateProgress.loop taskId p errs (updateProgress.progress p)
    m.Lock.tasks.taskHandles m.Lock false [] with ⟨m1, u, next⟩
  rw [hloop] at hfr hidle hbelow hb1
  simp only [] at hfr hidle hbelow hb1 ⊢
  obtain ⟨s1, s2, s3⟩ := hs
  cases u
  · simp only [if_pos] at hb1 ⊢
    rw [hidle rfl]
    exact Settled_of_same ⟨s1, s2, s3⟩ rfl rfl
  · simp only [if_neg (by simp : ¬ (true = false))] at hb1 ⊢
    have hpre : m1.trace <+: (updateTasksLOCKED m1 (fun s => { s with taskHandles := next })).trace := by
      rw [updateTasksLOCKED_eq]
      exact List.prefix_append _ _
    have h := hbelow (show m.revNumNext < 2 ^ 64 from s2) (show 0 < m.revNumNext by omega)
      (fun r hr => hb1 r (hpre.subset hr))
      (by intro th hth; cases hth)
      (RevBelow_of_settled ⟨s1, s2, s3⟩)
    have hle : m.revNumNext ≤ m1.revNumNext := h.1
    apply updateTasksLOCKED_settled
    · rw [hfr.1]
      show m.tasks.revNum + 1 ≤ m1.revNumNext
      omega
    · exact h.2.1
    · exact hb1
    · exact h.2.2

theorem StartTopologyChange_settled (m : CtlMgr) (topologyRev : Revision)
    (engine : Nat → CtlChangeTopology → Except Error Revision) (now : Nat)
    (change : TopologyChange) (hs : Settled m)
    (hone : m.tasks.taskHandles.countP isPreparedOrRebalance ≤ 1)
    (hb : ∀ r ∈ issued (StartTopologyChange m topologyRev engine now change).1, r < 2 ^ 64 - 1) :
    Settled (StartTopologyChange m topologyRev engine now change).1 := by
  have hb1 : ∀ r, Event.allocRev r ∈
      (StartTopologyChange m topologyRev engine now change).1.trace →
      r < 2 ^ 64 - 1 := fun r hr => hb r ((mem_issued _ r).mpr hr)
  rcases StartTopologyChange_cases m topologyRev engine now change hone with
    h | h | ⟨_, h⟩ | ⟨mode, err, _, _, h⟩ | ⟨mode, rev, l1, th, l2, _, _, hl, _, _, _, h⟩
  · rw [h]; exact Settled_of_same hs rfl rfl
  · rw [h]; exact Settled_of_same hs rfl rfl
  · rw [h]; exact Settled_of_same hs rfl rfl
  · rw [h]; exact Settled_of_same hs rfl rfl
  · rw [h] at hb1 ⊢
    simp only [] at hb1 ⊢
    obtain ⟨s1, s2, s3⟩ := hs
    generalize hm0 : m.Lock.log (Event.changeTopology (requestOf change mode)
      ("rebalance:" ++ change.Id)) = m0 at hb1 ⊢
    have ht0 : m0.tasks = m.tasks := by rw [← hm0]; rfl
    have hn0 : m0.revNumNext = m.revNumNext := by rw [← hm0]; rfl
    have hrv := allocRevNumLOCKED_at_counter m0 m.tasks.revNum (by omega) (by omega)
    have hlt : (allocRevNumLOCKED m0 m.tasks.revNum).1 < 2 ^ 64 - 1 := by
      apply hb1
      rw [updateTasksLOCKED_eq]
      exact List.mem_append_left _ (List.mem_append_right _ (List.mem_singleton_self _))
    have hnext := allocRevNumLOCKED_next m0 m.tasks.revNum hlt
    have ht1 : (allocRevNumLOCKED m0 m.tasks.revNum).2.tasks = m.tasks := ht0
    apply updateTasksLOCKED_settled
    · rw [ht1]; omega
    · omega
    · exact hb1
    · intro x hx
      have hold : ∀ y ∈ m.tasks.taskHandles,
          RevBelow (allocRevNumLOCKED m0 m.tasks.revNum).2 y := by
        intro y hy
        obtain ⟨r, hr1, hr2⟩ := s3 y hy
        exact ⟨r, hr1, by omega⟩
      rcases List.mem_append.mp hx with h | h
      · exact hold x (by rw [hl]; exact List.mem_append_left _ h)
      · rcases List.mem_cons.mp h with h | h
        · rw [h]
          exact ⟨_, rfl, by omega⟩
        · exact hold x (by rw [hl]; exact List.mem_append_right _ (List.mem_cons_of_mem _ h))

theorem step_settled (m : CtlMgr) (op : Op) (hs : Settled m)
    (hone : m.tasks.taskHandles.countP isPreparedOrRebalance ≤ 1)
    (hb : ∀ r ∈ issued (step m op), r < 2 ^ 64 - 1) : Settled (step m op) := by
  cases op with
  | prepare topologyRev now change => exact PrepareTopologyChange_settled m topologyRev now change hs hb
  | start topologyRev engine now change =>
    exact StartTopologyChange_settled m topologyRev engine now change hs hone hb
  | cancel taskId taskRev => exact CancelTask_settled m taskId taskRev hs hb
  | progress taskId p errs => exact updateProgress_settled m taskId p errs hs hb

theorem run_settled (ops : List Op) : ∀ m : CtlMgr, Settled m →
    m.tasks.taskHandles.countP isPreparedOrRebalance ≤ 1 →
    (∀ r ∈ issued (run m ops), r < 2 ^ 64 - 1) → Settled (run m ops) := by
  induction ops with
  | nil => intro m hs _ _; exact hs
  | cons op ops ih =>
    intro m hs hone hb
    have hpre := issued_mono (run_advances ops (step m op)).1
    exact ih (step m op)
      (step_settled m op hs hone (fun r hr => hb r (hpre.subset hr)))
      (step_countP m op hone) hb

theorem Settled_NewCtlMgr : Settled NewCtlMgr :=
  ⟨rfl, by decide, fun th hth => by cases hth⟩

/-- C26: in every registry reached from `NewCtlMgr` by prepare, start, cancel
and progress calls, with any arguments and engine answers, in which no issued
revision reaches `2 ^ 64 - 1`: the task-list revision is the last revision
issued, `tasks.revNum + 1 = revNumNext`, and the `Rev` of every task in the
registry decodes, without error, to a number strictly below the task-list
revision. -/
theorem task_list_revision_is_last_issued (ops : List Op)
    (hbound : ∀ r ∈ issued (run NewCtlMgr ops), r < 2 ^ 64 - 1) :
    (run NewCtlMgr ops).tasks.revNum + 1 = (run NewCtlMgr ops).revNumNext ∧
    ∀ th ∈ (run NewCtlMgr ops).tasks.taskHandles,
      ∃ r, DecodeRev th.task.Rev = .ok r ∧ r < (run NewCtlMgr ops).tasks.revNum := by
  obtain ⟨s1, s2, s3⟩ := run_settled ops NewCtlMgr Settled_NewCtlMgr (by decide) hbound
  refine ⟨s1, fun th hth => ?_⟩
  obtain ⟨r, hr1, hr2⟩ := s3 th hth
  refine ⟨r, ?_, hr2⟩
  rw [hr1]
  exact DecodeRev_EncodeRev_ok r (by omega)

/-- Witness of `task_list_revision_is_last_issued`: prepare, start and one
progress callback; the task has the revision 5 and the task list 6. -/
theorem task_list_revision_is_last_issued_witness :
    (run NewCtlMgr
      [.prepare [] 0 sampleChange, .start [] sampleEngine 0 sampleChange,
       .progress "rebalance:a" (some sampleEntries) []]).tasks.revNum + 1 =
    (run NewCtlMgr
      [.prepare [] 0 sampleChange, .start [] sampleEngine 0 sampleChange,
       .progress "rebalance:a" (some sampleEntries) []]).revNumNext :=
  (task_list_revision_is_last_issued
    [.prepare [] 0 sampleChange, .start [] sampleEngine 0 sampleChange,
     .progress "rebalance:a" (some sampleEntries) []]
    (by decide)).1

/-! ## `ParsePartitionsToVBucketIds` -/

/-- `ParseUint` succeeds exactly on non-empty strings of digits whose value
fits 64 bits. -/
theorem ParseUint_ok (s : List Nat) (un : Nat) :
    ParseUint s = .ok un ↔
      (s ≠ [] ∧ (∀ c ∈ s, 48 ≤ c ∧ c ≤ 57) ∧ decimalValue s = un ∧ un ≤ 2 ^ 64 - 1) := by
  cases s with
  | nil =>
    simp only [ParseUint]
    constructor
    · intro h; cases h
    · rintro ⟨h, _⟩; exact absurd rfl h
  | cons c cs =>
    show DecodeRev.loop (c :: cs) 0 = .ok un ↔ _
    rw [DecodeRev_loop_ok (c :: cs) 0 un (by omega)]
    constructor
    · rintro ⟨h1, h2⟩
      exact ⟨List.cons_ne_nil _ _, h1, h2⟩
    · rintro ⟨_, h1, h2⟩
      exact ⟨h1, h2⟩

/-- `Atoi` succeeds exactly on the decimal integer strings that fit the `int`,
and returns the integer the string denotes. -/
theorem Atoi_ok (s : List Nat) (v : Int) :
    Atoi s = .ok v ↔ (isIntString s ∧ intValue s = v) := by
  cases s with
  | nil =>
    simp only [Atoi, isIntString, unsignedPart]
    constructor
    · intro h; cases h
    · rintro ⟨⟨h, _⟩, _⟩; exact absurd rfl h
  | cons c cs =>
    have hu : unsignedPart (c :: cs) = if c = 43 ∨ c = 45 then cs else c :: cs := rfl
    have hv : intValue (c :: cs) =
        if c = 45 then -(decimalValue (unsignedPart (c :: cs)) : Int)
        else (decimalValue (unsignedPart (c :: cs)) : Int) := by
      unfold intValue
      simp
    unfold Atoi isIntString
    simp only []
    rw [hv, ← hu]
    generalize unsignedPart (c :: cs) = s1
    cases hp : ParseUint s1 with
    | error err =>
      simp only []
      constructor
      · intro h; cases h
      · rintro ⟨⟨h1, h2, h3, h4⟩, _⟩
        have hok : ParseUint s1 = .ok (decimalValue s1) := by
          rw [ParseUint_ok]
          refine ⟨h1, h2, rfl, ?_⟩
          by_cases hc : c = 45
          · rw [if_pos hc] at h3; omega
          · rw [if_neg hc] at h4; omega
        rw [hok] at hp
        cases hp
    | ok un =>
      simp only []
      obtain ⟨h1, h2, h3, h4⟩ := (ParseUint_ok s1 un).mp hp
      subst h3
      by_cases hc : c = 45
      · simp only [hc, decide_True, if_true, Bool.true_eq_false, false_and, if_false, true_and]
        by_cases hr : decimalValue s1 > 2 ^ 63
        · rw [if_pos hr]
          constructor
          · intro h; cases h
          · rintro ⟨⟨_, _, h3, _⟩, _⟩
            omega
        · rw [if_neg hr]
          constructor
          · intro h
            injection h with h
            exact ⟨⟨h1, h2, by omega, by omega⟩, h⟩
          · rintro ⟨_, h⟩
            rw [h]
      · simp only [hc, decide_False, if_false, Bool.false_eq_true, false_and, true_and]
        by_cases hr : decimalValue s1 ≥ 2 ^ 63
        · rw [if_pos hr]
          constructor
          · intro h; cases h
          · rintro ⟨⟨_, _, _, h4⟩, _⟩
            omega
        · rw [if_neg hr]
          constructor
          · intro h
            injection h with h
            exact ⟨⟨h1, h2, by omega, by omega⟩, h⟩
          · rintro ⟨_, h⟩
            rw [h]

/-- On a string that is not a decimal integer fitting the `int`, `Atoi`
returns an error. -/
theorem Atoi_error (s : List Nat) (h : ¬ isIntString s) : ∃ err, Atoi s = .error err := by
  cases hA : Atoi s with
  | error err => exact ⟨err, rfl⟩
  | ok v => exact absurd ((Atoi_ok s v).mp hA).1 h

/-- The loop of `ParsePartitionsToVBucketIds` when every non-empty key is a
decimal integer string fitting the `int`: one id per non-empty key, in
iteration order, appended to the ids so far. -/
theorem ParsePartitionsToVBucketIds_loop_ok {Dest : Type} :
    ∀ (dests : List (List Nat × Dest)) (vbuckets : List Nat),
      (∀ k ∈ dests.map Prod.fst, k ≠ [] → isIntString k) →
      ParsePartitionsToVBucketIds.loop dests vbuckets =
        .ok (vbuckets ++ ((dests.map Prod.fst).filter (fun k => k ≠ [])).map
          (fun k => uint16 (intValue k))) := by
  intro dests
  induction dests with
  | nil => intro vbuckets _; simp [ParsePartitionsToVBucketIds.loop]
  | cons d rest ih =>
    intro vbuckets h
    obtain ⟨partition, dest⟩ := d
    have hrest : ∀ k ∈ rest.map Prod.fst, k ≠ [] → isIntString k :=
      fun k hk => h k (by rw [List.map_cons]; exact List.mem_cons_of_mem _ hk)
    unfold ParsePartitionsToVBucketIds.loop
    by_cases hp : partition ≠ []
    · rw [if_pos hp]
      have hA : Atoi partition = .ok (intValue partition) :=
        (Atoi_ok partition _).mpr ⟨h partition (by simp) hp, rfl⟩
      rw [hA]
      simp only []
      rw [ih _ hrest]
      simp [hp]
    · rw [if_neg hp, ih _ hrest]
      have hp1 : partition = [] := not_not.mp hp
      simp [hp1]

/-- The loop of `ParsePartitionsToVBucketIds` when some non-empty key is not a
decimal integer string fitting the `int`: an error. -/
theorem ParsePartitionsToVBucketIds_loop_error {Dest : Type} :
    ∀ (dests : List (List Nat × Dest)) (vbuckets : List Nat),
      (∃ k ∈ dests.map Prod.fst, k ≠ [] ∧ ¬ isIntString k) →
      ∃ err, ParsePartitionsToVBucketIds.loop dests vbuckets = .error err := by
  intro dests
  induction dests with
  | nil =>
    rintro vbuckets ⟨k, hk, _⟩
    cases hk
  | cons d rest ih =>
    rintro vbuckets ⟨k, hk, hne, hbad⟩
    obtain ⟨partition, dest⟩ := d
    rw [List.map_cons] at hk
    unfold ParsePartitionsToVBucketIds.loop
    by_cases hp : partition ≠ []
    · rw [if_pos hp]
      cases hA : Atoi partition with
      | error err => exact ⟨_, rfl⟩
      | ok v =>
        simp only []
        apply ih
        rcases List.mem_cons.mp hk with h | h
        · exact absurd ((Atoi_ok partition v).mp hA).1 (by
            have h1 : k = partition := h
            rw [← h1]; exact hbad)
        · exact ⟨k, h, hne, hbad⟩
    · rw [if_neg hp]
      apply ih
      rcases List.mem_cons.mp hk with h | h
      · have h1 : k = partition := h
        exact absurd (by rw [← h1]; exact hne) hp
      · exact ⟨k, h, hne, hbad⟩

/-- C23, as amended: for every `dests` map, in whatever order the iteration
visits it: if every non-empty partition key is an optionally signed decimal
integer string whose value fits the `int` (`-2 ^ 63` to `2 ^ 63 - 1`),
`ParsePartitionsToVBucketIds` returns no error and exactly one id per
non-empty key, empty keys skipped, each id being the number its key denotes
reduced modulo `2 ^ 16`, which is the number itself when it lies in `0` to
`65535`; if some non-empty key is not such a string it returns an error and
no ids. -/
theorem ParsePartitionsToVBucketIds_spec {Dest : Type} (dests : List (List Nat × Dest)) :
    ((∀ k ∈ dests.map Prod.fst, k ≠ [] → isIntString k) →
      ParsePartitionsToVBucketIds dests =
        .ok (((dests.map Prod.fst).filter (fun k => k ≠ [])).map
          (fun k => uint16 (intValue k)))) ∧
    ((∃ k ∈ dests.map Prod.fst, k ≠ [] ∧ ¬ isIntString k) →
      ∃ err, ParsePartitionsToVBucketIds dests = .error err) ∧
    (∀ v : Int, (uint16 v : Int) = v % 2 ^ 16) ∧
    (∀ v : Int, 0 ≤ v → v ≤ 65535 → (uint16 v : Int) = v) := by
  refine ⟨?_, ?_, ?_, ?_⟩
  · intro h
    unfold ParsePartitionsToVBucketIds
    rw [ParsePartitionsToVBucketIds_loop_ok dests [] h, List.nil_append]
  · intro h
    exact ParsePartitionsToVBucketIds_loop_error dests [] h
  · intro v
    unfold uint16
    exact Int.toNat_of_nonneg (Int.emod_nonneg _ (by norm_num))
  · intro v h0 h1
    unfold uint16
    rw [Int.toNat_of_nonneg (Int.emod_nonneg _ (by norm_num))]
    exact Int.emod_eq_of_lt h0 (by omega)

/-- Witness of `ParsePartitionsToVBucketIds_spec`: the keys `12`, the empty
key and `7` give the ids 12 and 7. -/
theorem ParsePartitionsToVBucketIds_spec_witness :
    ParsePartitionsToVBucketIds [([49, 50], ()), ([], ()), ([55], ())] = .ok [12, 7] :=
  (ParsePartitionsToVBucketIds_spec [([49, 50], ()), ([], ()), ([55], ())]).1 (by
    intro k hk hne
    simp only [List.map_cons, List.map_nil, List.mem_cons, List.mem_singleton,
      List.not_mem_nil, or_false] at hk
    rcases hk with rfl | rfl | rfl
    · simp [isIntString, unsignedPart, intValue, decimalValue]
    · exact absurd rfl hne
    · simp [isIntString, unsignedPart, intValue, decimalValue])

/-- C23 as stated fails: the key `70000` is a decimal integer string, and the
id returned for it is 4464, not 70000; the key `-1` is accepted and gives the
id 65535; and the key of twenty digits `9` is a decimal integer string, yet
the call returns an error. -/
theorem ParsePartitionsToVBucketIds_truncates :
    ParsePartitionsToVBucketIds [([55, 48, 48, 48, 48], ())] = .ok [4464] ∧
    decimalValue [55, 48, 48, 48, 48] = 70000 ∧
    ParsePartitionsToVBucketIds [([45, 49], ())] = .ok [65535] ∧
    ParsePartitionsToVBucketIds [(List.replicate 20 57, ())] =
      .error { partition := List.replicate 20 57, err := Error.ErrRange } := by
  refine ⟨by decide, by decide, by decide, by decide⟩

/-! ## `DataSourcePartitions` -/

/-- Filling the first `k` places of a slice of `n` empty strings. -/
theorem fill_loop (f : Nat → List Nat) (n : Nat) : ∀ k : Nat, k ≤ n →
    (List.range k).foldl (fun rv i => rv.set i (f i)) (List.replicate n []) =
      (List.range k).map f ++ List.replicate (n - k) [] := by
  intro k
  induction k with
  | zero => intro _; simp
  | succ k ih =>
    intro hk
    rw [List.range_succ, List.foldl_append, ih (by omega), List.map_append]
    simp only [List.foldl_cons, List.foldl_nil, List.map_cons, List.map_nil]
    rw [List.set_append_right _ _ (by simp)]
    simp only [List.length_map, List.length_range, Nat.sub_self]
    obtain ⟨j, hj⟩ : ∃ j, n - k = j + 1 := ⟨n - k - 1, by omega⟩
    rw [hj, List.replicate_succ, List.set_cons_zero, List.append_assoc]
    have : n - (k + 1) = j := by omega
    rw [this]
    rfl

/-- With a length the run time allocates, the partitions are the decimal
strings of `0` to `n - 1`, in ascending order. -/
theorem DataSourcePartitions_fill_ok (maxLen : Nat) (n : Int) (h0 : 0 ≤ n) (h1 : n ≤ maxLen) :
    DataSourcePartitions.fill maxLen n =
      .partitions ((List.range n.toNat).map (fun (i : Nat) => Itoa (i : Int))) := by
  unfold DataSourcePartitions.fill
  rw [if_neg (by omega)]
  rw [fill_loop (fun (i : Nat) => Itoa (i : Int)) n.toNat n.toNat (le_refl _)]
  simp

/-- C28, at the input where the code departs from it: with the source type
`simple` and parameters from which `json.Unmarshal` reads a negative
`numPartitions` (as it does from the document `negativeParams`, which sets it
to `-1`), `make` is called with a negative length and the call is aborted
instead of returning.  The rest of the claim holds: when the parameters do not
parse the call returns an error; with `numPartitions = n` between `0` and the
longest slice the run time allocates (`0` when the parameters are empty) it
returns the decimal strings of `0` to `n - 1` in ascending order; and for every
source type other than `couchbase` and `simple` it returns an error. -/
theorem DataSourcePartitions_negative_aborts
    (getBucket : String → String → String → Except String (Option Nat)) (maxLen : Nat)
    (sourceName sourceUUID server : String) :
    DataSourcePartitions getBucket (fun _ => .ok { NumPartitions := -1 }) maxLen
      "simple" sourceName sourceUUID negativeParams server = .aborted ∧
    (∀ (unmarshal : String → Except String SimpleSourceParams) (sourceParams : String)
      (ssp : SimpleSourceParams),
      sourceParams ≠ "" → unmarshal sourceParams = .ok ssp → ssp.NumPartitions < 0 →
      DataSourcePartitions getBucket unmarshal maxLen
        "simple" sourceName sourceUUID sourceParams server = .aborted) ∧
    (∀ (unmarshal : String → Except String SimpleSourceParams) (sourceParams : String)
      (err : String),
      sourceParams ≠ "" → unmarshal sourceParams = .error err →
      ∃ msg, DataSourcePartitions getBucket unmarshal maxLen
        "simple" sourceName sourceUUID sourceParams server = .error msg) ∧
    (∀ (unmarshal : String → Except String SimpleSourceParams) (sourceParams : String)
      (ssp : SimpleSourceParams),
      sourceParams ≠ "" → unmarshal sourceParams = .ok ssp →
      0 ≤ ssp.NumPartitions → ssp.NumPartitions ≤ maxLen →
      DataSourcePartitions getBucket unmarshal maxLen
        "simple" sourceName sourceUUID sourceParams server =
        .partitions ((List.range ssp.NumPartitions.toNat).map (fun (i : Nat) => Itoa (i : Int)))) ∧
    (∀ (unmarshal : String → Except String SimpleSourceParams),
      DataSourcePartitions getBucket unmarshal maxLen
        "simple" sourceName sourceUUID "" server = .partitions []) ∧
    (∀ (unmarshal : String → Except String SimpleSourceParams) (sourceType sourceParams : String),
      sourceType ≠ "couchbase" → sourceType ≠ "simple" →
      ∃ msg, DataSourcePartitions getBucket unmarshal maxLen
        sourceType sourceName sourceUUID sourceParams server = .error msg) := by
  have hs : ¬ ("simple" = "couchbase") := by decide
  have hneg : negativeParams ≠ "" := by decide
  refine ⟨?_, ?_, ?_, ?_, ?_, ?_⟩
  · unfold DataSourcePartitions
    rw [if_neg hs, if_pos rfl]
    simp only [if_pos hneg]
    unfold DataSourcePartitions.fill
    rw [if_pos (Or.inl (by decide))]
  · intro unmarshal sourceParams ssp hne hu hlt
    unfold DataSourcePartitions
    rw [if_neg hs, if_pos rfl]
    simp only [if_pos hne, hu]
    unfold DataSourcePartitions.fill
    rw [if_pos (Or.inl hlt)]
  · intro unmarshal sourceParams err hne hu
    unfold DataSourcePartitions
    rw [if_neg hs, if_pos rfl]
    simp only [if_pos hne, hu]
    exact ⟨_, rfl⟩
  · intro unmarshal sourceParams ssp hne hu h0 h1
    unfold DataSourcePartitions
    rw [if_neg hs, if_pos rfl]
    simp only [if_pos hne, hu]
    exact DataSourcePartitions_fill_ok maxLen _ h0 h1
  · intro unmarshal
    unfold DataSourcePartitions
    rw [if_neg hs, if_pos rfl]
    simp only [ne_eq, not_true_eq_false, if_false]
    exact DataSourcePartitions_fill_ok maxLen 0 (le_refl _) (by omega)
  · intro unmarshal sourceType sourceParams h1 h2
    unfold DataSourcePartitions
    rw [if_neg h1, if_neg h2]
    exact ⟨_, rfl⟩

end Ctl
